import Mathlib

/-! # NFSv3 user-space client core

A shallow embedding of these pieces of the client:

* `rpc_task::succeeded` / `rpc_task::is_retryable_error` (inc/rpc_task.h), the
  completion classifier shared by all operations;
* `rpc_task_helper` (inc/rpc_task.h), the fixed-capacity pool of task slots;
* `ra_state` (inc/readahead.h), the per-file readahead predictor;
* `readdirectory_cache` and `directory_entry` (src/rpc_readdir.cpp), the directory cache
  with its name lookup cache;
* `NfsApiContext::succeeded` (inc/nfs_api_context.h) and the completion callbacks and submit
  loop of `NfsClient` (src/nfs_client.cpp);
* the validation and comparison helpers of inc/util.h.

C++ `int` values are mathematical integers wrapped into 32 bits where the code
computes a new value; `uint64_t` values are naturals reduced modulo `2^64`.
Assertions are compiled out (release build); where a statement needs what an
assertion checks, it says so as a hypothesis.
-/

namespace aznfsc

/-! ## Machine integers -/

/-- Largest value of a C++ `int`. -/
def INT_MAX : Int := 2147483647

/-- Smallest value of a C++ `int`. -/
def INT_MIN : Int := -2147483648

/-- Conversion of an integer to a 32-bit `int` (two's complement wrap). -/
def to_int32 (x : Int) : Int := (x + 2147483648) % 4294967296 - 2147483648

/-- The values a C++ `int` can hold. -/
def is_int (x : Int) : Prop := INT_MIN ≤ x ∧ x ≤ INT_MAX

instance (x : Int) : Decidable (is_int x) := by
  unfold is_int
  infer_instance

/-! ## Status codes

The enumerations `rpc_status` and `nfsstat3` are declared by the RPC library, whose headers
are not among the sources. The spec (§6) names them as the NFSv3 status set of RFC 1813; the
values below are the ones that RFC and the library assign. -/

/-- Modelled from the spec: `RPC_STATUS_SUCCESS`, the transport status "OK" of §4.C; declared
by the RPC library. -/
def RPC_STATUS_SUCCESS : Int := 0

/-- Modelled from the spec: `RPC_STATUS_ERROR`, a transport status other than "OK"; declared
by the RPC library. -/
def RPC_STATUS_ERROR : Int := 1

/-- Modelled from the spec: `NFS3_OK`, the NFS status "OK" of §4.C (RFC 1813 `nfsstat3`). -/
def NFS3_OK : Int := 0

/-- Modelled from the spec: `NFS3ERR_PERM`, the retryable error PERM of §4.C (RFC 1813). -/
def NFS3ERR_PERM : Int := 1

/-- Modelled from the spec: `NFS3ERR_NOENT`, the error NOENT of §4.D (RFC 1813). -/
def NFS3ERR_NOENT : Int := 2

/-- Modelled from the spec: `NFS3ERR_IO`, the retryable error IO of §4.C (RFC 1813). -/
def NFS3ERR_IO : Int := 5

/-- Modelled from the spec: `NFS3ERR_ROFS`, the retryable error ROFS of §4.C (RFC 1813). -/
def NFS3ERR_ROFS : Int := 30

/-- Modelled from the spec: `NFS3ERR_SERVERFAULT`, the retryable error SERVERFAULT of §4.C
(RFC 1813). -/
def NFS3ERR_SERVERFAULT : Int := 10006

/-! ## `rpc_task`: completion classifier -/

/-- The fields of `struct rpc_task` that the classifier and the slot pool read or write:
`int num_of_times_retried` and `int index`. -/
structure rpc_task where
  num_of_times_retried : Int
  index : Int
deriving DecidableEq, Repr

/-- Embedding of `rpc_task::is_retryable_error`: the `switch` with four `case` labels returning
`true` and a `default` returning `false`. -/
def rpc_task.is_retryable_error (nfs_status : Int) : Bool :=
  if nfs_status = NFS3ERR_IO then true
  else if nfs_status = NFS3ERR_SERVERFAULT then true
  else if nfs_status = NFS3ERR_ROFS then true
  else if nfs_status = NFS3ERR_PERM then true
  else false

/-- What one call of `rpc_task::succeeded` leaves behind: the returned boolean, the value
stored through the `bool& retry` out-parameter, and the task after the call. -/
structure succeeded_result where
  ret : Bool
  retry : Bool
  task : rpc_task
deriving DecidableEq, Repr

/-- Embedding of `rpc_task::succeeded`. `max_errno_retries` is the static member read through
`get_max_errno_retries()`. -/
def rpc_task.succeeded (max_errno_retries : Int) (t : rpc_task)
    (rpc_status nfs_status : Int) (idempotent : Bool) : succeeded_result :=
  if rpc_status ≠ RPC_STATUS_SUCCESS ∧ t.num_of_times_retried < max_errno_retries then
    { ret := false, retry := true, task := t }
  else if nfs_status ≠ NFS3_OK then
    if idempotent = true ∧ t.num_of_times_retried < max_errno_retries
        ∧ rpc_task.is_retryable_error nfs_status = true then
      { ret := false, retry := true,
        task := { t with num_of_times_retried := to_int32 (t.num_of_times_retried + 1) } }
    else
      { ret := false, retry := false, task := t }
  else
    { ret := true, retry := false, task := t }

/-- The three outcomes of a completion, as the completion callbacks act on them:
`if (succeeded(..)) reply; else if (retry) re-submit;` and otherwise the error reply. -/
inductive verdict where
  | ok
  | retry
  | fail
deriving DecidableEq, Repr

/-- Verdict read off the result of `succeeded` the way `getattrCallback` branches on it. -/
def succeeded_result.verdict (r : succeeded_result) : verdict :=
  if r.ret then verdict.ok else if r.retry then verdict.retry else verdict.fail

/-- One RPC completion as delivered to a callback: the transport status and the NFS status. -/
structure completion where
  rpc_status : Int
  nfs_status : Int
deriving DecidableEq, Repr

/-- Life of one task: each completion is classified by `succeeded`; a retry verdict re-submits
the request, whose completion is the next element; any other verdict ends the task. Returns the
verdicts in order and the task as it is left. Every verdict produced answers one submission. -/
def run_task (max_errno_retries : Int) (idempotent : Bool) :
    rpc_task → List completion → List verdict × rpc_task
  | t, [] => ([], t)
  | t, c :: cs =>
    let r := t.succeeded max_errno_retries c.rpc_status c.nfs_status idempotent
    match r.verdict with
    | verdict.retry =>
      let rest := run_task max_errno_retries idempotent r.task cs
      (verdict.retry :: rest.1, rest.2)
    | v => ([v], r.task)

/-! ## `rpc_task_helper`: the slot pool -/

/-- Capacity of the pool, `#define MAX_OUTSTANDING_RPC_TASKS 65536`. -/
def MAX_OUTSTANDING_RPC_TASKS : Nat := 65536

/-- Embedding of `rpc_task::get_index`, declared `bool get_index() const { return index; }`:
the `int` index is converted to `bool` on return. -/
def rpc_task.get_index (t : rpc_task) : Bool := decide (t.index ≠ 0)

/-- The pool: `std::stack<int> free_task_index` (head of the list is the top of the stack) and
`std::vector<rpc_task> rpc_task_list`. -/
structure rpc_task_helper where
  free_task_index : List Int
  rpc_task_list : List rpc_task
deriving DecidableEq, Repr

/-- The stack built by the constructor loop `for (i = 0; i < n; i++) free_task_index.push(i)`
after `n` iterations: iteration `n` pushes `n` on top of what the earlier ones left. -/
def push_indices : Nat → List Int
  | 0 => []
  | n + 1 => (n : Int) :: push_indices n

/-- Embedding of the constructor `rpc_task_helper::rpc_task_helper` for a pool of `capacity`
slots; `resize` value-initialises the slots. -/
def rpc_task_helper.init (capacity : Nat) : rpc_task_helper :=
  { free_task_index := push_indices capacity,
    rpc_task_list := List.replicate capacity { num_of_times_retried := 0, index := 0 } }

/-- The pool as the program constructs it, with `MAX_OUTSTANDING_RPC_TASKS` slots. -/
def rpc_task_helper.create : rpc_task_helper :=
  rpc_task_helper.init MAX_OUTSTANDING_RPC_TASKS

/-- Embedding of `rpc_task_helper::get_free_task_index`: `none` stands for a caller that stays
blocked in `cv.wait` because the stack is empty; otherwise the top is popped and returned. -/
def rpc_task_helper.get_free_task_index (h : rpc_task_helper) : Option (Int × rpc_task_helper) :=
  match h.free_task_index with
  | [] => none
  | top :: rest => some (top, { h with free_task_index := rest })

/-- Embedding of `rpc_task_helper::get_rpc_task_instance`. The returned `rpc_task*` is
`&rpc_task_list[free_index]`, represented by its position in the vector. -/
def rpc_task_helper.get_rpc_task_instance (h : rpc_task_helper) : Option (Nat × rpc_task_helper) :=
  match h.get_free_task_index with
  | none => none
  | some (free_index, h1) =>
    match h1.rpc_task_list[free_index.toNat]? with
    | none => none
    | some t =>
      some (free_index.toNat,
        { h1 with rpc_task_list := h1.rpc_task_list.set free_index.toNat { t with index := free_index } })

/-- Embedding of `rpc_task_helper::release_free_index`: push the index. -/
def rpc_task_helper.release_free_index (h : rpc_task_helper) (index : Int) : rpc_task_helper :=
  { h with free_task_index := index :: h.free_task_index }

/-- Embedding of `rpc_task_helper::free_rpc_task_instance`:
`int index_to_free = task->get_index(); release_free_index(index_to_free);` where the `bool`
returned by `get_index` converts to `1` or `0`. `task` is the slot position the pointer refers
to; `none` only for a pointer outside the vector. -/
def rpc_task_helper.free_rpc_task_instance (h : rpc_task_helper) (task : Nat) : Option rpc_task_helper :=
  match h.rpc_task_list[task]? with
  | none => none
  | some t =>
    let index_to_free : Int := if t.get_index then 1 else 0
    some (h.release_free_index index_to_free)

/-! ## `ra_state`: the readahead predictor -/

/-- Reduction of a natural number to a `uint64_t`. -/
def u64 (x : Nat) : Nat := x % 18446744073709551616

/-- Subtraction of two `uint64_t` values, `a - b` modulo `2^64`. -/
def u64_sub (a b : Nat) : Nat :=
  (a % 18446744073709551616 + 18446744073709551616 - b % 18446744073709551616) % 18446744073709551616

/-- Largest `uint64_t`, `UINT64_MAX`. -/
def UINT64_MAX : Nat := 18446744073709551615

/-- Conversion `(int64_t) x` of a `uint64_t`. -/
def to_int64 (x : Nat) : Int :=
  if x % 18446744073709551616 < 9223372036854775808 then ((x % 18446744073709551616 : Nat) : Int)
  else ((x % 18446744073709551616 : Nat) : Int) - 18446744073709551616

/-- Conversion of a signed value to `uint64_t`. -/
def int_to_u64 (x : Int) : Nat := (x % 18446744073709551616).toNat

/-- Modelled from the spec: `AZNFSC_MAX_FILE_SIZE` is a macro of aznfsc.h, which is not among
the sources, and the spec names it without giving a value; the embedded functions take it as a
parameter. This value (16 TiB) only instantiates that parameter in concrete evaluations. -/
def sample_max_file_size : Nat := 17592186044416

/-- Logical section size, `SECTION_SIZE = 1024ULL * 1024 * 1024`. -/
def SECTION_SIZE : Nat := 1073741824

/-- Minimum access density in percent, `ACCESS_DENSITY_MIN = 70`. -/
def ACCESS_DENSITY_MIN : Int := 70

/-- The members of `class ra_state` except `fuse_ino` (logging only) and the lock. Every member
is a `uint64_t`. -/
structure ra_state where
  ra_bytes : Nat
  last_byte_readahead : Nat
  min_byte_read : Nat
  max_byte_read : Nat
  ra_ongoing : Nat
  num_reads : Nat
  num_bytes_read : Nat
deriving DecidableEq, Repr

/-- Every member holds a `uint64_t` value. -/
def ra_state.wf (s : ra_state) : Prop :=
  s.ra_bytes < 18446744073709551616 ∧ s.last_byte_readahead < 18446744073709551616 ∧
  s.min_byte_read < 18446744073709551616 ∧ s.max_byte_read < 18446744073709551616 ∧
  s.ra_ongoing < 18446744073709551616 ∧ s.num_reads < 18446744073709551616 ∧
  s.num_bytes_read < 18446744073709551616

/-- Embedding of the constructor `ra_state(ino, _ra_kib)`: `ra_bytes(_ra_kib * 1024)` is an
`int` product converted to `uint64_t`; the other members take their default initialisers. -/
def ra_state.create (_ra_kib : Int) : ra_state :=
  { ra_bytes := int_to_u64 (to_int32 (_ra_kib * 1024)),
    last_byte_readahead := 0,
    min_byte_read := 0,
    max_byte_read := UINT64_MAX,
    ra_ongoing := 0,
    num_reads := 0,
    num_bytes_read := 0 }

/-- Embedding of `ra_state::is_sequential_nolock`. `access_range` is the `int64_t` difference,
converted back to `uint64_t` for the unsigned division; the quotient is stored in an `int`.
`none` stands for the division by zero when `max_byte_read == min_byte_read`. -/
def ra_state.is_sequential_nolock (s : ra_state) : Option Bool :=
  if s.num_reads < 3 then some false
  else
    let access_range : Int := to_int64 (u64_sub s.max_byte_read s.min_byte_read)
    if int_to_u64 access_range = 0 then none
    else
      let access_density : Int :=
        to_int32 ((u64 (s.num_bytes_read * 100) / int_to_u64 access_range : Nat) : Int)
      some (decide (access_density > ACCESS_DENSITY_MIN))

/-- Embedding of `ra_state::is_sequential`: takes the shared lock and calls the `_nolock`
variant. -/
def ra_state.is_sequential (s : ra_state) : Option Bool := s.is_sequential_nolock

/-- Embedding of `ra_state::get_next_ra`. `AZNFSC_MAX_FILE_SIZE` is a macro of a header that is
not among the sources and is taken as a parameter. Returns the offset and the state after the
call; `none` only when `is_sequential` divides by zero. -/
def ra_state.get_next_ra (AZNFSC_MAX_FILE_SIZE : Nat) (s : ra_state) (length : Nat) :
    Option (Nat × ra_state) :=
  if u64 (s.last_byte_readahead + 1 + length) > AZNFSC_MAX_FILE_SIZE then some (0, s)
  else
    match s.is_sequential with
    | none => none
    | some false => some (0, s)
    | some true =>
      let added := u64 (s.ra_ongoing + length)
      if added > s.ra_bytes then
        some (0, { s with ra_ongoing := u64_sub added length })
      else
        some (u64 (s.last_byte_readahead + 1),
          { s with ra_ongoing := added,
                   last_byte_readahead := u64 (s.last_byte_readahead + length) })

/-- The value of the local `reset_readahead` of `ra_state::on_application_read` when the
`if (reset_readahead)` statement is reached. `read_gap` is
`std::abs((int64_t) (offset - max_byte_read))`. -/
def ra_state.reset_readahead (s : ra_state) (offset : Nat) : Option Bool :=
  let curr_section := s.max_byte_read / SECTION_SIZE
  let this_section := offset / SECTION_SIZE
  let read_gap : Nat := (to_int64 (u64_sub offset s.max_byte_read)).natAbs
  if read_gap > s.ra_bytes then some true
  else if curr_section ≠ this_section then
    if this_section ≠ curr_section + 1 then some true
    else
      match s.is_sequential_nolock with
      | none => none
      | some b => some (!b)
  else some false

/-- Embedding of `ra_state::on_application_read`. The final loop
`while (last_byte_readahead < max_byte_read) compare_exchange_weak(..)` ends with
`last_byte_readahead` raised to `max_byte_read`. -/
def ra_state.on_application_read (s : ra_state) (offset length : Nat) : Option ra_state :=
  if length = 0 then some s
  else
    match s.reset_readahead offset with
    | none => none
    | some reset =>
      let s1 : ra_state :=
        if reset then
          { s with num_reads := 1,
                   num_bytes_read := length,
                   min_byte_read := offset,
                   max_byte_read := u64_sub (u64 (offset + length)) 1,
                   last_byte_readahead := 0 }
        else
          { s with num_reads := u64 (s.num_reads + 1),
                   num_bytes_read := u64 (s.num_bytes_read + length),
                   max_byte_read := max s.max_byte_read (u64_sub (u64 (offset + length)) 1),
                   min_byte_read := min s.min_byte_read offset }
      some (if s1.last_byte_readahead < s1.max_byte_read then
              { s1 with last_byte_readahead := s1.max_byte_read }
            else s1)

/-- Embedding of `ra_state::on_readahead_complete`: `ra_ongoing -= length`. -/
def ra_state.on_readahead_complete (s : ra_state) (_offset length : Nat) : ra_state :=
  { s with ra_ongoing := u64_sub s.ra_ongoing length }

/-- States reachable from a fresh `ra_state(ino, _ra_kib)` by calls of `on_application_read`,
`get_next_ra` and `on_readahead_complete`, together with the lengths of the readaheads that
`get_next_ra` recommended (non-zero return) and that have not been reported complete yet.
`on_readahead_complete` is applied only to such an outstanding length. Every argument is a
`uint64_t`; `get_next_ra` is called with `0 < length ≤ max_len`. -/
inductive ra_reach (AZNFSC_MAX_FILE_SIZE : Nat) (_ra_kib : Int) (max_len : Nat) :
    ra_state → List Nat → Prop where
  | fresh : ra_reach AZNFSC_MAX_FILE_SIZE _ra_kib max_len (ra_state.create _ra_kib) []
  | app_read {s s1 : ra_state} {out : List Nat} (offset length : Nat) :
      ra_reach AZNFSC_MAX_FILE_SIZE _ra_kib max_len s out →
      offset ≤ UINT64_MAX → length ≤ UINT64_MAX →
      s.on_application_read offset length = some s1 →
      ra_reach AZNFSC_MAX_FILE_SIZE _ra_kib max_len s1 out
  | next_ra {s s1 : ra_state} {out : List Nat} (length r : Nat) :
      ra_reach AZNFSC_MAX_FILE_SIZE _ra_kib max_len s out →
      0 < length → length ≤ max_len → length ≤ UINT64_MAX →
      s.get_next_ra AZNFSC_MAX_FILE_SIZE length = some (r, s1) → r ≠ 0 →
      ra_reach AZNFSC_MAX_FILE_SIZE _ra_kib max_len s1 (length :: out)
  | next_ra_zero {s s1 : ra_state} {out : List Nat} (length : Nat) :
      ra_reach AZNFSC_MAX_FILE_SIZE _ra_kib max_len s out →
      0 < length → length ≤ max_len → length ≤ UINT64_MAX →
      s.get_next_ra AZNFSC_MAX_FILE_SIZE length = some (0, s1) →
      ra_reach AZNFSC_MAX_FILE_SIZE _ra_kib max_len s1 out
  | ra_complete {s : ra_state} {out : List Nat} (offset length : Nat) :
      ra_reach AZNFSC_MAX_FILE_SIZE _ra_kib max_len s out →
      length ∈ out →
      ra_reach AZNFSC_MAX_FILE_SIZE _ra_kib max_len (s.on_readahead_complete offset length)
        (out.erase length)

/-- One call on a `ra_state`, as issued by the read path. -/
inductive ra_call where
  | app_read (offset length : Nat)
  | next_ra (length : Nat)
  | ra_complete (offset length : Nat)
deriving DecidableEq, Repr

/-- Runs a sequence of calls in order and collects the values returned by `get_next_ra`
(oldest first). `none` when a call divides by zero in `is_sequential_nolock`. -/
def ra_run (AZNFSC_MAX_FILE_SIZE : Nat) : ra_state → List ra_call → Option (ra_state × List Nat)
  | s, [] => some (s, [])
  | s, ra_call.app_read offset length :: rest =>
    match s.on_application_read offset length with
    | none => none
    | some s1 => ra_run AZNFSC_MAX_FILE_SIZE s1 rest
  | s, ra_call.next_ra length :: rest =>
    match s.get_next_ra AZNFSC_MAX_FILE_SIZE length with
    | none => none
    | some (r, s1) =>
      match ra_run AZNFSC_MAX_FILE_SIZE s1 rest with
      | none => none
      | some (s2, rs) => some (s2, r :: rs)
  | s, ra_call.ra_complete offset length :: rest =>
    ra_run AZNFSC_MAX_FILE_SIZE (s.on_readahead_complete offset length) rest

/-- What a call did, as seen from outside: for an application read whether it reset the
tracker, for `get_next_ra` the value it returned. -/
inductive ra_event where
  | read (offset length : Nat) (reset : Bool)
  | next_ra (length ret : Nat)
  | complete (offset length : Nat)
deriving DecidableEq, Repr

/-- The non-zero `get_next_ra` returns among the events, as pairs (offset, requested length),
in the order of the event list. -/
def ra_returns : List ra_event → List (Nat × Nat)
  | [] => []
  | ra_event.next_ra length ret :: rest =>
    if ret ≠ 0 then (ret, length) :: ra_returns rest else ra_returns rest
  | _ :: rest => ra_returns rest

/-- Executions of `ra_state` calls from a state `s0`: `ra_steps .. s0 evs s` says that the calls
recorded in `evs` (most recent first) lead from `s0` to `s`. Arguments are `uint64_t` values and
lengths are positive (asserted by the code); every `get_next_ra` call is made with
`last_byte_readahead + 1 + length ≤ max_sum`. -/
inductive ra_steps (AZNFSC_MAX_FILE_SIZE max_sum : Nat) :
    ra_state → List ra_event → ra_state → Prop where
  | start (s0 : ra_state) : ra_steps AZNFSC_MAX_FILE_SIZE max_sum s0 [] s0
  | app_read {s0 s s1 : ra_state} {evs : List ra_event} (offset length : Nat) (reset : Bool) :
      ra_steps AZNFSC_MAX_FILE_SIZE max_sum s0 evs s →
      0 < length → offset ≤ UINT64_MAX → length ≤ UINT64_MAX →
      s.reset_readahead offset = some reset →
      s.on_application_read offset length = some s1 →
      ra_steps AZNFSC_MAX_FILE_SIZE max_sum s0 (ra_event.read offset length reset :: evs) s1
  | next_ra {s0 s s1 : ra_state} {evs : List ra_event} (length r : Nat) :
      ra_steps AZNFSC_MAX_FILE_SIZE max_sum s0 evs s →
      0 < length → length ≤ UINT64_MAX →
      s.last_byte_readahead + 1 + length ≤ max_sum →
      s.get_next_ra AZNFSC_MAX_FILE_SIZE length = some (r, s1) →
      ra_steps AZNFSC_MAX_FILE_SIZE max_sum s0 (ra_event.next_ra length r :: evs) s1
  | ra_complete {s0 s : ra_state} {evs : List ra_event} (offset length : Nat) :
      ra_steps AZNFSC_MAX_FILE_SIZE max_sum s0 evs s →
      ra_steps AZNFSC_MAX_FILE_SIZE max_sum s0 (ra_event.complete offset length :: evs)
        (s.on_readahead_complete offset length)

/-- The state after `k` back-to-back reads of `L` bytes each, `on_application_read(i * L, L)`
for `i = 0 .. k - 1`, starting from `s`. -/
def back_to_back_reads (s : ra_state) (L : Nat) : Nat → Option ra_state
  | 0 => some s
  | k + 1 =>
    match back_to_back_reads s L k with
    | none => none
    | some s1 => s1.on_application_read (k * L) L

/-! ## Directory cache (`readdirectory_cache`, src/rpc_readdir.cpp)

The class declarations (rpc_readdir.h, nfs_inode.h) are not among the sources. The member
functions below are embedded from rpc_readdir.cpp; the data they work on, and the helpers they
call that are defined in those headers, are modelled from the spec. Pointers to inodes are
numbers; a `directory_entry*` stored in `dir_entries` is the entry itself, identified by the
cookie it is stored under. All calls are taken under the lock, one at a time. -/

/-- Modelled from the spec: the attributes of a file (`struct stat`, a system type). The code
here writes `st_ino` and `st_mode`; all other fields are `st_rest`. -/
structure stat where
  st_ino : Nat
  st_mode : Nat
  st_rest : Nat
deriving DecidableEq, Repr

/-- Modelled from the spec: the inode record of §3 (nfs_inode.h is not among the sources), with
the two reference counts, the cached attributes, and a flag that records destruction. -/
structure nfs_inode where
  lookupcnt : Nat
  dircachecnt : Nat
  attr : stat
  destroyed : Bool
deriving DecidableEq, Repr

/-- The inodes, addressed by pointer. -/
abbrev inode_table := Nat → nfs_inode

/-- Modelled from the spec: `nfs_inode::incref` (§4.E), one more `lookupcnt`. -/
def incref (tbl : inode_table) (inode : Nat) : inode_table :=
  Function.update tbl inode { tbl inode with lookupcnt := (tbl inode).lookupcnt + 1 }

/-- Modelled from the spec: `nfs_inode::decref` (§4.E): one less `lookupcnt`; when that brings
the inode to `lookupcnt == 0` with `dircachecnt == 0` it is destroyed, otherwise it remains.
`none` for a reference that is not held (`lookupcnt == 0`). -/
def decref (tbl : inode_table) (inode : Nat) : Option inode_table :=
  if (tbl inode).lookupcnt = 0 then none
  else
    some (Function.update tbl inode
      { tbl inode with
        lookupcnt := (tbl inode).lookupcnt - 1,
        destroyed := (tbl inode).destroyed ||
          decide ((tbl inode).lookupcnt - 1 = 0 ∧ (tbl inode).dircachecnt = 0) })

/-- The statement `inode->dircachecnt++`. -/
def dircachecnt_inc (tbl : inode_table) (inode : Nat) : inode_table :=
  Function.update tbl inode { tbl inode with dircachecnt := (tbl inode).dircachecnt + 1 }

/-- The statements `assert(inode->dircachecnt > 0); inode->dircachecnt--;`. The counter is
modelled from the spec as a natural number: `none` when no reference is held. -/
def dircachecnt_dec (tbl : inode_table) (inode : Nat) : Option inode_table :=
  if (tbl inode).dircachecnt = 0 then none
  else some (Function.update tbl inode
    { tbl inode with dircachecnt := (tbl inode).dircachecnt - 1 })

/-- The members of `struct directory_entry` set by its constructors. -/
structure directory_entry where
  cookie : Nat
  attributes : stat
  has_attributes : Bool
  nfs_inode : Option Nat
  name : String
deriving DecidableEq, Repr

/-- Embedding of the constructor `directory_entry(name, cookie, attr, nfs_inode)`: takes one
`dircachecnt` reference on the inode. -/
def directory_entry.create (name_ : String) (cookie_ : Nat) (attr : stat) (nfs_inode_ : Nat)
    (tbl : inode_table) : directory_entry × inode_table :=
  ({ cookie := cookie_, attributes := attr, has_attributes := true,
     nfs_inode := some nfs_inode_, name := name_ },
   dircachecnt_inc tbl nfs_inode_)

/-- Embedding of the constructor `directory_entry(name, cookie, fileid)` for plain READDIR
results: attributes zeroed except `st_ino`, no inode. -/
def directory_entry.create_stub (name_ : String) (cookie_ : Nat) (fileid_ : Nat) :
    directory_entry :=
  { cookie := cookie_, attributes := { st_ino := fileid_, st_mode := 0, st_rest := 0 },
    has_attributes := false, nfs_inode := none, name := name_ }

/-- Embedding of the destructor `~directory_entry`: drops the `dircachecnt` reference if the
entry has an inode. -/
def directory_entry.destroy (e : directory_entry) (tbl : inode_table) : Option inode_table :=
  match e.nfs_inode with
  | none => some tbl
  | some inode => dircachecnt_dec tbl inode

/-- Embedding of `directory_entry::update_inode`: stores the inode pointer and takes one
`dircachecnt` reference. -/
def directory_entry.update_inode (e : directory_entry) (tbl : inode_table) (inode : Nat) :
    directory_entry × inode_table :=
  ({ e with nfs_inode := some inode }, dircachecnt_inc tbl inode)

/-- `std::map::find` on a map kept as a list of key-value pairs. -/
def map_find {K V : Type} [DecidableEq K] : List (K × V) → K → Option V
  | [], _ => none
  | (k1, v) :: rest, k => if k1 = k then some v else map_find rest k

/-- `erase(key)` on a map kept as a list of key-value pairs. -/
def map_erase {K V : Type} [DecidableEq K] (m : List (K × V)) (k : K) : List (K × V) :=
  m.filter (fun p => decide (p.1 ≠ k))

/-- Insertion of a new key into a `std::map` with numeric keys, which keeps its elements in
ascending key order; a key already present blocks the insertion (`emplace`). -/
def map_emplace {V : Type} : List (Nat × V) → Nat → V → List (Nat × V)
  | [], k, v => [(k, v)]
  | (k1, v1) :: rest, k, v =>
    if k < k1 then (k, v) :: (k1, v1) :: rest
    else if k = k1 then (k1, v1) :: rest
    else (k1, v1) :: map_emplace rest k v

/-- The assignment `m[key] = value` on a map kept as a list of key-value pairs. -/
def map_assign {K V : Type} [DecidableEq K] (m : List (K × V)) (k : K) (v : V) : List (K × V) :=
  (k, v) :: map_erase m k

/-- A change made through the pointer stored under `key`: the value is replaced in place. -/
def map_replace {K V : Type} [DecidableEq K] (m : List (K × V)) (k : K) (v : V) : List (K × V) :=
  m.map (fun p => if p.1 = k then (k, v) else p)

/-- Modelled from the spec: the members of `class readdirectory_cache` (§3, "Directory
cache"; rpc_readdir.h is not among the sources): `dir_entries` maps cookie to entry in
ascending cookie order, `dnlc_map` maps name to cookie. -/
structure readdirectory_cache where
  dir_entries : List (Nat × directory_entry)
  dnlc_map : List (String × Nat)
  eof : Bool
  eof_cookie : Nat
  seq_last_cookie : Nat
  confirmed_msecs : Nat
  cookie_verifier : Nat
  cache_size : Nat
deriving DecidableEq, Repr

/-- A newly constructed, empty cache. -/
def readdirectory_cache.empty : readdirectory_cache :=
  { dir_entries := [], dnlc_map := [], eof := false, eof_cookie := 0, seq_last_cookie := 0,
    confirmed_msecs := 0, cookie_verifier := 0, cache_size := 0 }

/-- Modelled from the spec: `readdirectory_cache::filename_to_cookie` (declared in
rpc_readdir.h): the cookie `dnlc_map` holds for the name, and 0, which is not a valid cookie,
when the name is not cached. -/
def readdirectory_cache.filename_to_cookie (c : readdirectory_cache) (filename : String) : Nat :=
  match map_find c.dnlc_map filename with
  | some cookie => cookie
  | none => 0

/-- The statement `if (filename_hint) cookie = filename_to_cookie(filename_hint);` at the head
of `lookup` and `remove`: the cookie the call goes on with. -/
def readdirectory_cache.resolve_cookie (c : readdirectory_cache) (cookie : Nat)
    (filename_hint : Option String) : Nat :=
  match filename_hint with
  | some filename => c.filename_to_cookie filename
  | none => cookie

/-- What rpc_readdir.h defines and rpc_readdir.cpp uses without defining: the soft cap
`MAX_CACHE_SIZE_LIMIT` and the byte estimate `directory_entry::get_cache_size`. -/
structure cache_params where
  MAX_CACHE_SIZE_LIMIT : Nat
  get_cache_size : directory_entry → Nat

/-- One directory cache together with the inodes its entries point to and the function-static
counter `bigcookie` of `dnlc_add`. -/
structure dir_state where
  cache : readdirectory_cache
  inodes : inode_table
  bigcookie : Nat

/-- The state before any call: an empty cache and `bigcookie = UINT64_MAX >> 1`. -/
def dir_state.init (tbl : inode_table) : dir_state :=
  { cache := readdirectory_cache.empty, inodes := tbl, bigcookie := UINT64_MAX / 2 }

/-- Embedding of `readdirectory_cache::lookup(cookie, filename_hint)`: the entry found, if any,
and the state after the call (one more `dircachecnt` on the entry's inode). -/
def readdirectory_cache.lookup (st : dir_state) (cookie : Nat) (filename_hint : Option String) :
    Option directory_entry × dir_state :=
  let cookie1 := st.cache.resolve_cookie cookie filename_hint
  if filename_hint.isSome = true ∧ cookie1 = 0 then (none, st)
  else
    match map_find st.cache.dir_entries cookie1 with
    | none => (none, st)
    | some dirent =>
      match dirent.nfs_inode with
      | none => (some dirent, st)
      | some inode => (some dirent, { st with inodes := dircachecnt_inc st.inodes inode })

/-- Embedding of `readdirectory_cache::remove(cookie, filename_hint)`: the returned boolean and
the state after the call. -/
def readdirectory_cache.remove (st : dir_state) (cookie : Nat) (filename_hint : Option String) :
    Option (Bool × dir_state) :=
  let cookie1 := st.cache.resolve_cookie cookie filename_hint
  if filename_hint.isSome = true ∧ cookie1 = 0 then some (false, st)
  else
    match map_find st.cache.dir_entries cookie1 with
    | none => some (false, st)
    | some dirent =>
      let cache1 : readdirectory_cache :=
        { st.cache with dnlc_map := map_erase st.cache.dnlc_map dirent.name,
                        dir_entries := map_erase st.cache.dir_entries cookie1 }
      match dirent.nfs_inode with
      | none => some (true, { st with cache := cache1 })
      | some inode =>
        if (st.inodes inode).dircachecnt = 1 then
          match dirent.destroy (incref st.inodes inode) with
          | none => none
          | some tbl1 =>
            match decref tbl1 inode with
            | none => none
            | some tbl2 => some (true, { st with cache := cache1, inodes := tbl2 })
        else
          match dirent.destroy st.inodes with
          | none => none
          | some tbl1 => some (true, { st with cache := cache1, inodes := tbl1 })

/-- Embedding of `readdirectory_cache::add(entry)`: the returned boolean and the state after
the call. The entry has been constructed by the caller. -/
def readdirectory_cache.add (P : cache_params) (st : dir_state) (entry : directory_entry) :
    Option (Bool × dir_state) :=
  if st.cache.cache_size ≥ P.MAX_CACHE_SIZE_LIMIT then some (false, st)
  else
    let cookie := st.cache.filename_to_cookie entry.name
    let removed : Option dir_state :=
      if cookie ≠ 0 then
        match readdirectory_cache.remove st cookie none with
        | none => none
        | some (_, st1) => some st1
      else some st
    match removed with
    | none => none
    | some st1 =>
      match map_find st1.cache.dir_entries entry.cookie with
      | some _ => some (false, st1)
      | none =>
        some (true,
          { st1 with
            cache :=
              { st1.cache with
                dir_entries := map_emplace st1.cache.dir_entries entry.cookie entry,
                cache_size := st1.cache.cache_size + P.get_cache_size entry,
                dnlc_map := map_assign st1.cache.dnlc_map entry.name entry.cookie,
                seq_last_cookie :=
                  if entry.cookie = u64 (st1.cache.seq_last_cookie + 1) then entry.cookie
                  else st1.cache.seq_last_cookie } })

/-- The tail of `readdirectory_cache::dnlc_add`: `new directory_entry(strdup(filename), cookie,
inode->attr, inode)` followed by `add(dir_entry, false)`, whose result is not looked at. -/
def readdirectory_cache.dnlc_add_new (P : cache_params) (st : dir_state) (filename : String)
    (cookie inode : Nat) : Option dir_state :=
  let created := directory_entry.create filename cookie (st.inodes inode).attr inode st.inodes
  match readdirectory_cache.add P { st with inodes := created.2 } created.1 with
  | none => none
  | some (_, st1) => some st1

/-- Embedding of `readdirectory_cache::dnlc_add(filename, inode)`. `cookie = bigcookie++` reads
the static counter and increments it as a `uint64_t`. -/
def readdirectory_cache.dnlc_add (P : cache_params) (st : dir_state) (filename : String)
    (inode : Nat) : Option dir_state :=
  let cookie := st.cache.filename_to_cookie filename
  if cookie ≠ 0 then
    match readdirectory_cache.lookup st cookie none with
    | (none, _) => none
    | (some de, st1) =>
      if de.nfs_inode = some inode then
        match dircachecnt_dec st1.inodes inode with
        | none => none
        | some tbl => some { st1 with inodes := tbl }
      else
        match de.nfs_inode with
        | none =>
          let updated := de.update_inode st1.inodes inode
          some { st1 with
                 inodes := updated.2,
                 cache := { st1.cache with
                            dir_entries := map_replace st1.cache.dir_entries cookie
                              { updated.1 with attributes := (updated.2 inode).attr } } }
        | some stale =>
          match dircachecnt_dec st1.inodes stale with
          | none => none
          | some tbl =>
            match readdirectory_cache.remove { st1 with inodes := tbl } cookie none with
            | none => none
            | some (_, st2) =>
              readdirectory_cache.dnlc_add_new P
                { st2 with bigcookie := u64 (st2.bigcookie + 1) } filename st2.bigcookie inode
  else
    readdirectory_cache.dnlc_add_new P
      { st with bigcookie := u64 (st.bigcookie + 1) } filename st.bigcookie inode

/-- The loop of `readdirectory_cache::clear` over `dir_entries`: an inode whose `dircachecnt`
is 1 is put on `tofree_vec` and gets an `incref`, then the entry is deleted. -/
def clear_loop : List (Nat × directory_entry) → inode_table → List Nat →
    Option (inode_table × List Nat)
  | [], tbl, tofree_vec => some (tbl, tofree_vec)
  | (_, e) :: rest, tbl, tofree_vec =>
    match e.nfs_inode with
    | none => clear_loop rest tbl tofree_vec
    | some inode =>
      if (tbl inode).dircachecnt = 1 then
        match e.destroy (incref tbl inode) with
        | none => none
        | some tbl1 => clear_loop rest tbl1 (tofree_vec ++ [inode])
      else
        match e.destroy tbl with
        | none => none
        | some tbl1 => clear_loop rest tbl1 tofree_vec

/-- The final loop of `readdirectory_cache::clear`: `decref` for every inode in
`tofree_vec`. -/
def decref_all : List Nat → inode_table → Option inode_table
  | [], tbl => some tbl
  | inode :: rest, tbl =>
    match decref tbl inode with
    | none => none
    | some tbl1 => decref_all rest tbl1

/-- Embedding of `readdirectory_cache::clear`. -/
def readdirectory_cache.clear (st : dir_state) : Option dir_state :=
  match clear_loop st.cache.dir_entries st.inodes [] with
  | none => none
  | some (tbl1, tofree_vec) =>
    match decref_all tofree_vec tbl1 with
    | none => none
    | some tbl2 =>
      some { st with
             inodes := tbl2,
             cache := { st.cache with
                        eof := false, cache_size := 0, cookie_verifier := 0,
                        dir_entries := [], dnlc_map := [], seq_last_cookie := 0,
                        confirmed_msecs := 0 } }

/-- Number of entries of a cache map that point to the inode. -/
def entry_refs (m : List (Nat × directory_entry)) (inode : Nat) : Nat :=
  (m.filter (fun p => decide (p.2.nfs_inode = some inode))).length

/-- The two maps describe the same entries: keys are unique in both, every entry is stored
under its own, non-zero cookie with its name mapped to that cookie, and every name maps to a
cookie whose entry carries that name. -/
def readdirectory_cache.consistent (c : readdirectory_cache) : Prop :=
  (c.dir_entries.map Prod.fst).Nodup ∧ (c.dnlc_map.map Prod.fst).Nodup ∧
  (∀ cookie e, (cookie, e) ∈ c.dir_entries →
    cookie ≠ 0 ∧ e.cookie = cookie ∧ (e.name, cookie) ∈ c.dnlc_map) ∧
  (∀ name cookie, (name, cookie) ∈ c.dnlc_map →
    ∃ e, (cookie, e) ∈ c.dir_entries ∧ e.name = name)

/-- States reachable from an empty cache by calls of `add`, `dnlc_add`, `remove` and `clear`.
Between calls the inodes may change in any way (entries are constructed, references are taken
and dropped by other code). `add` is called with a non-zero cookie, as it asserts; `dnlc_add`
is called while its counter `bigcookie` is non-zero, so that the cookie it hands to `add` is
non-zero too. -/
inductive dir_reach (P : cache_params) : dir_state → Prop where
  | init (tbl : inode_table) : dir_reach P (dir_state.init tbl)
  | env {st : dir_state} (tbl : inode_table) :
      dir_reach P st → dir_reach P { st with inodes := tbl }
  | add {st st1 : dir_state} (entry : directory_entry) (b : Bool) :
      dir_reach P st → entry.cookie ≠ 0 →
      readdirectory_cache.add P st entry = some (b, st1) → dir_reach P st1
  | dnlc_add {st st1 : dir_state} (filename : String) (inode : Nat) :
      dir_reach P st → st.bigcookie ≠ 0 →
      readdirectory_cache.dnlc_add P st filename inode = some st1 → dir_reach P st1
  | remove {st st1 : dir_state} (cookie : Nat) (filename_hint : Option String) (b : Bool) :
      dir_reach P st →
      readdirectory_cache.remove st cookie filename_hint = some (b, st1) → dir_reach P st1
  | clear {st st1 : dir_state} :
      dir_reach P st → readdirectory_cache.clear st = some st1 → dir_reach P st1

/-- Modelled from the spec: a value for the parameters that rpc_readdir.h would supply (a soft
cap of 100 bytes and 64 bytes plus the name length per entry). It only instantiates the
parameters in concrete evaluations. -/
def sample_cache_params : cache_params :=
  { MAX_CACHE_SIZE_LIMIT := 100, get_cache_size := fun e => 64 + e.name.length }

/-- An inode table for concrete evaluations: every inode live, unreferenced, with zeroed
attributes. -/
def sample_inodes : inode_table :=
  fun _ => { lookupcnt := 0, dircachecnt := 0,
             attr := { st_ino := 0, st_mode := 0, st_rest := 0 }, destroyed := false }

/-- Auxiliary for the proofs: the state the last branch of `readdirectory_cache::add` builds
when it inserts `entry` into `st0`, the state left by the removal of a same-named entry. -/
def readdirectory_cache.inserted (P : cache_params) (st0 : dir_state)
    (entry : directory_entry) : dir_state :=
  { st0 with
    cache :=
      { st0.cache with
        dir_entries := map_emplace st0.cache.dir_entries entry.cookie entry,
        cache_size := st0.cache.cache_size + P.get_cache_size entry,
        dnlc_map := map_assign st0.cache.dnlc_map entry.name entry.cookie,
        seq_last_cookie :=
          if entry.cookie = u64 (st0.cache.seq_last_cookie + 1) then entry.cookie
          else st0.cache.seq_last_cookie } }

/-- A state for concrete evaluations: the cache holds one entry "a" with cookie 1 that points
to inode 7, and inode 7 has that one `dircachecnt` reference and no `lookupcnt`. -/
def sample_cached_state : dir_state :=
  { cache :=
      { readdirectory_cache.empty with
        dir_entries :=
          [(1, (directory_entry.create "a" 1 (sample_inodes 7).attr 7 sample_inodes).1)],
        dnlc_map := [("a", 1)],
        cache_size := 65,
        seq_last_cookie := 1 },
    inodes := (directory_entry.create "a" 1 (sample_inodes 7).attr 7 sample_inodes).2,
    bigcookie := UINT64_MAX / 2 }

/-- Embedding of `readdirectory_cache::set_confirmed`: `confirmed_msecs = get_current_msecs()`,
with the clock reading `now` passed in. -/
def readdirectory_cache.set_confirmed (c : readdirectory_cache) (now : Nat) :
    readdirectory_cache :=
  { c with confirmed_msecs := now }

/-- Embedding of `readdirectory_cache::clear_confirmed`. -/
def readdirectory_cache.clear_confirmed (c : readdirectory_cache) : readdirectory_cache :=
  { c with confirmed_msecs := 0 }

/-- Embedding of `readdirectory_cache::is_confirmed`:
`(confirmed_msecs + (inode->get_actimeo() * 1000)) > now`, with the clock reading `now` and the
directory inode's `actimeo` passed in. -/
def readdirectory_cache.is_confirmed (c : readdirectory_cache) (now actimeo : Nat) : Bool :=
  decide (c.confirmed_msecs + actimeo * 1000 > now)

/-- Embedding of `readdirectory_cache::set_eof(eof_cookie)`; `now` is the clock reading that
`set_confirmed` takes. -/
def readdirectory_cache.set_eof (c : readdirectory_cache) (eof_cookie now : Nat) :
    readdirectory_cache :=
  let c1 : readdirectory_cache := { c with eof := true, eof_cookie := eof_cookie }
  if c1.seq_last_cookie = c1.eof_cookie then c1.set_confirmed now
  else c1.clear_confirmed

/-- Embedding of `readdirectory_cache::dnlc_lookup(filename, negative_confirmed)`: the inode
returned (`none` for `nullptr`), the value stored through `negative_confirmed` (`none` when
nothing is stored), and the state after the call. -/
def readdirectory_cache.dnlc_lookup (st : dir_state) (filename : String) (now actimeo : Nat) :
    Option (Option Nat × Option Bool × dir_state) :=
  match readdirectory_cache.lookup st 0 (some filename) with
  | (some dirent, st1) =>
    match dirent.nfs_inode with
    | some inode =>
      match dircachecnt_dec (incref st1.inodes inode) inode with
      | none => none
      | some tbl => some (some inode, none, { st1 with inodes := tbl })
    | none => some (none, some false, st1)
  | (none, st1) => some (none, some (st1.cache.is_confirmed now actimeo), st1)

/-- A state for concrete evaluations: `sample_cached_state` with one `lookupcnt` reference on
inode 7 and one `dircachecnt` reference on inode 8, taken by the constructor of an entry for
inode 8 that is not cached yet. -/
def sample_rename_state : dir_state :=
  { sample_cached_state with
    inodes := (directory_entry.create "a" 2 (sample_inodes 8).attr 8
      (incref sample_cached_state.inodes 7)).2 }

/-- The cookie that `readdirectory_cache::dnlc_add(filename, inode)` passes to
`new directory_entry(strdup(filename), cookie, inode->attr, inode)`: the value read by
`cookie = bigcookie++` on the two paths that reach that statement, `none` on the paths that
return before it. -/
def readdirectory_cache.dnlc_add_cookie (st : dir_state) (filename : String) (inode : Nat) :
    Option Nat :=
  let cookie := st.cache.filename_to_cookie filename
  if cookie ≠ 0 then
    match readdirectory_cache.lookup st cookie none with
    | (none, _) => none
    | (some de, st1) =>
      if de.nfs_inode = some inode then none
      else
        match de.nfs_inode with
        | none => none
        | some stale =>
          match dircachecnt_dec st1.inodes stale with
          | none => none
          | some tbl =>
            match readdirectory_cache.remove { st1 with inodes := tbl } cookie none with
            | none => none
            | some (_, st2) => some st2.bigcookie
  else some st.bigcookie

/-- Runs of the program as far as the function-static counter `bigcookie` is concerned: it
starts at `UINT64_MAX >> 1`; between calls of `dnlc_add` the directory cache at hand and the
inodes may change in any way (other member functions run, `dnlc_add` is called next on the
cache of another directory); each call of `dnlc_add` that returns puts the cookie it created an
entry with, if any, in front of the list of cookies handed out so far. -/
inductive dnlc_trace (P : cache_params) : dir_state → List Nat → Prop where
  | init (c : readdirectory_cache) (tbl : inode_table) :
      dnlc_trace P { cache := c, inodes := tbl, bigcookie := UINT64_MAX / 2 } []
  | env {st : dir_state} {cookies : List Nat} (c : readdirectory_cache) (tbl : inode_table) :
      dnlc_trace P st cookies → dnlc_trace P { st with cache := c, inodes := tbl } cookies
  | dnlc_add {st st1 : dir_state} {cookies : List Nat} (filename : String) (inode : Nat) :
      dnlc_trace P st cookies →
      readdirectory_cache.dnlc_add P st filename inode = some st1 →
      dnlc_trace P st1
        ((readdirectory_cache.dnlc_add_cookie st filename inode).toList ++ cookies)

/-! ## `NfsApiContext` and the completion callbacks of `NfsClient` -/

/-- Modelled from the spec: the attribute record `fattr3` of RFC 1813, declared by the RPC
library; only its being all zero or not matters to the callbacks, so it is kept as the list
of its numeric fields. -/
structure fattr3 where
  fields : List Nat
deriving DecidableEq, Repr

/-- The value of `dummyAttr` after `::memset(&dummyAttr, 0, sizeof(dummyAttr))`: seventeen
numeric fields (type, mode, nlink, uid, gid, size, used, rdev (2), fsid, fileid, atime (2),
mtime (2), ctime (2)), all zero. -/
def fattr3.zero : fattr3 := { fields := List.replicate 17 0 }

/-- The members of `fuse_entry_param` that `NfsClient::replyEntry` sets: `ino`, and `attr`,
recorded here as the `fattr3` that `stat_from_fattr3` is called on. -/
structure fuse_entry_param where
  ino : Nat
  attr : fattr3
deriving DecidableEq, Repr

/-- What goes out on the reply channel: `fuse_reply_err(req, rc)` and
`fuse_reply_entry(req, e)`. -/
inductive fuse_reply where
  | err (rc : Int)
  | entry (e : fuse_entry_param)
deriving DecidableEq, Repr

/-- The member of `class NfsApiContext` that its methods write: `int numOfTimesRetried`. -/
structure NfsApiContext where
  numOfTimesRetried : Int
deriving DecidableEq, Repr

/-- Embedding of `NfsApiContext::isRetryableError`. -/
def NfsApiContext.isRetryableError (nfs_status : Int) : Bool :=
  if nfs_status = NFS3ERR_IO then true
  else if nfs_status = NFS3ERR_SERVERFAULT then true
  else if nfs_status = NFS3ERR_ROFS then true
  else if nfs_status = NFS3ERR_PERM then true
  else false

/-- What one call of `NfsApiContext::succeeded` leaves behind: the returned boolean, the value
stored through `bool& retry`, the context after the call, and what it sent on the reply
channel. -/
structure api_succeeded_result where
  ret : Bool
  retry : Bool
  ctx : NfsApiContext
  replies : List fuse_reply
deriving DecidableEq, Repr

/-- Embedding of `NfsApiContext::succeeded`. `maxErrnoRetries` is the static member;
`nfsstat3_to_errno` is the RPC library's translation, whose source is not at hand. -/
def NfsApiContext.succeeded (maxErrnoRetries : Int) (nfsstat3_to_errno : Int → Int)
    (ctx : NfsApiContext) (rpc_status nfs_status : Int) (idempotent : Bool) :
    api_succeeded_result :=
  if rpc_status ≠ RPC_STATUS_SUCCESS ∧ ctx.numOfTimesRetried < maxErrnoRetries then
    { ret := false, retry := true, ctx := ctx, replies := [] }
  else if nfs_status ≠ NFS3_OK then
    if idempotent = true ∧ ctx.numOfTimesRetried < maxErrnoRetries
        ∧ NfsApiContext.isRetryableError nfs_status = true then
      { ret := false, retry := true,
        ctx := { ctx with numOfTimesRetried := to_int32 (ctx.numOfTimesRetried + 1) },
        replies := [] }
    else
      { ret := false, retry := false, ctx := ctx,
        replies := [fuse_reply.err (-nfsstat3_to_errno nfs_status)] }
  else
    { ret := true, retry := false, ctx := ctx, replies := [] }

/-- The parts of `LOOKUP3res` that `lookupCallback` reads: `status`, and of `resok` the file
handle `object` and the attributes. -/
structure LOOKUP3res where
  status : Int
  object : Nat
  attributes : fattr3
deriving DecidableEq, Repr

/-- The macro `RSTATUS(r)`: `((r) ? (r)->status : NFS3ERR_SERVERFAULT)`. -/
def RSTATUS (res : Option LOOKUP3res) : Int :=
  match res with
  | some r => r.status
  | none => NFS3ERR_SERVERFAULT

/-- Embedding of `NfsClient::replyEntry(ctx, fh, attr, file, ..)`: what it sends on the reply
channel. `new_handle` is the address of the `NFSFileHandle` allocated when `fh` is given, which
becomes the inode number; without `fh` the inode number is 0. With `file` given nothing is sent
(the `replyCreate` call is commented out). -/
def NfsClient.replyEntry (new_handle : Nat) (fh : Option Nat) (attr : fattr3)
    (file : Option Nat) : List fuse_reply :=
  let ii : Nat :=
    match fh with
    | some _ => new_handle
    | none => 0
  match file with
  | some _ => []
  | none => [fuse_reply.entry { ino := ii, attr := attr }]

/-- What one run of a completion callback leaves behind: the replies sent, whether the request
was submitted again (`lookupWithContext(ctx)`), and the context. -/
structure callback_result where
  replies : List fuse_reply
  resubmitted : Bool
  ctx : NfsApiContext
deriving DecidableEq, Repr

/-- Embedding of `NfsClient::lookupCallback(.., rpc_status, data, private_data)`, with `data`
the `LOOKUP3res` (or null) and `private_data` the context. -/
def NfsClient.lookupCallback (maxErrnoRetries : Int) (nfsstat3_to_errno : Int → Int)
    (new_handle : Nat) (ctx : NfsApiContext) (rpc_status : Int) (res : Option LOOKUP3res) :
    callback_result :=
  if rpc_status = RPC_STATUS_SUCCESS ∧ RSTATUS res = NFS3ERR_NOENT then
    { replies := NfsClient.replyEntry new_handle none fattr3.zero none,
      resubmitted := false, ctx := ctx }
  else
    let r := ctx.succeeded maxErrnoRetries nfsstat3_to_errno rpc_status (RSTATUS res) true
    if r.ret then
      match res with
      | some ok =>
        { replies := r.replies ++ NfsClient.replyEntry new_handle (some ok.object)
            ok.attributes none,
          resubmitted := false, ctx := r.ctx }
      | none => { replies := r.replies, resubmitted := false, ctx := r.ctx }
    else if r.retry then
      { replies := r.replies, resubmitted := true, ctx := r.ctx }
    else
      { replies := r.replies, resubmitted := false, ctx := r.ctx }

/-- How far one call of `NfsClient::getattrWithContext` got: the number of submissions
(`rpc_nfs3_getattr_task` calls) made, and whether the call has returned. -/
structure submit_run where
  submissions : Nat
  returned : Bool
deriving DecidableEq, Repr

/-- The `do { .. } while (rpcRetry);` loop of `NfsClient::getattrWithContext`, run against the
outcomes of the successive submissions (`true`: `rpc_nfs3_getattr_task` returned a task,
`false`: it returned `NULL`). The first argument is `rpcRetry` on entry to the loop body. When
the outcomes are used up while the loop goes on, the run ends there, not returned. -/
def getattr_submit_loop : Bool → List Bool → submit_run
  | _, [] => { submissions := 0, returned := false }
  | rpcRetry, submitted :: rest =>
    let rpcRetry1 := if submitted = false then true else rpcRetry
    if rpcRetry1 = true then
      let r := getattr_submit_loop rpcRetry1 rest
      { submissions := r.submissions + 1, returned := r.returned }
    else
      { submissions := 1, returned := true }

/-- Embedding of `NfsClient::getattrWithContext(ctx)`: `bool rpcRetry = false;` and the loop;
the context is only passed on to the submissions. -/
def NfsClient.getattrWithContext (ctx : NfsApiContext) (outcomes : List Bool) :
    submit_run × NfsApiContext :=
  (getattr_submit_loop false outcomes, ctx)

/-! ## `util.h`: validation by regular expression -/

/-- A place in the subject string during matching: the number of characters consumed so far
and the characters left. -/
abbrev regex_pos := Nat × List Char

/-- The constructs of the ECMAScript grammar (the default grammar of `std::regex`) that the
patterns in util.h use. -/
inductive regex where
  | eps
  | bol
  | eol
  | chr (c : Char)
  | any
  | cls (p : Char → Bool)
  | seq (a b : regex)
  | alt (a b : regex)
  | rep (a : regex) (lo hi : Nat)
  | star (a : regex)
  | neg_lookahead (a : regex)

/-- The quantifier `{lo,hi}` over a matcher `f`: every place reachable by between `lo` and
`hi` successive matches of `f`, more repetitions first (the quantifier is greedy). -/
def rep_run (f : regex_pos → List regex_pos) : Nat → Nat → regex_pos → List regex_pos
  | lo, 0, x => if lo = 0 then [x] else []
  | lo, hi + 1, x =>
    (f x).flatMap (rep_run f (lo - 1) hi) ++ (if lo = 0 then [x] else [])

/-- The quantifier `*` over a matcher `f`. An iteration that consumes nothing is not repeated
(ECMAScript RepeatMatcher), so as many iterations as there are characters left suffice. -/
def star_run (f : regex_pos → List regex_pos) : Nat → regex_pos → List regex_pos
  | 0, x => [x]
  | fuel + 1, x =>
    ((f x).filter (fun y => decide (y.2.length < x.2.length))).flatMap (star_run f fuel) ++ [x]

/-- One character matched by a predicate. -/
def char_run (p : Char → Bool) : regex_pos → List regex_pos
  | (_, []) => []
  | (n, c :: rest) => if p c = true then [(n + 1, rest)] else []

/-- What `.` matches in the ECMAScript grammar: any character but a line terminator. -/
def regex_dot (c : Char) : Bool := decide (c ≠ Char.ofNat 10 ∧ c ≠ Char.ofNat 13)

/-- Backtracking matcher: all places at which a match of the expression that starts at the
given place can end. `^` matches before the first character, `$` after the last one (no
multiline flag is passed in util.h). -/
def regex.run : regex → regex_pos → List regex_pos
  | regex.eps, x => [x]
  | regex.bol, x => if x.1 = 0 then [x] else []
  | regex.eol, x => if x.2.isEmpty = true then [x] else []
  | regex.chr c, x => char_run (fun d => decide (d = c)) x
  | regex.any, x => char_run regex_dot x
  | regex.cls p, x => char_run p x
  | regex.seq a b, x => (regex.run a x).flatMap (regex.run b)
  | regex.alt a b, x => regex.run a x ++ regex.run b x
  | regex.rep a lo hi, x => rep_run (regex.run a) lo hi x
  | regex.star a, x => star_run (regex.run a) x.2.length x
  | regex.neg_lookahead a, x => if (regex.run a x).isEmpty = true then [x] else []

/-- The call `std::regex_match(s, rexpr)`: the whole of `s` matches the expression. -/
def regex_match (s : String) (rexpr : regex) : Bool :=
  (rexpr.run (0, s.toList)).any (fun y => y.2.isEmpty)

/-- The bracket expression `[a-z0-9]`. -/
def is_lower_or_digit (c : Char) : Bool :=
  (decide (97 ≤ c.toNat) && decide (c.toNat ≤ 122)) ||
    (decide (48 ≤ c.toNat) && decide (c.toNat ≤ 57))

/-- The bracket expression `[a-z0-9-]`. -/
def is_lower_digit_or_dash (c : Char) : Bool :=
  is_lower_or_digit c || decide (c = Char.ofNat 45)

/-- The pattern of `is_valid_container`, `"^[a-z0-9](?!.*--)[a-z0-9-]{1,61}[a-z0-9]$"`. -/
def container_rexpr : regex :=
  regex.seq regex.bol
    (regex.seq (regex.cls is_lower_or_digit)
      (regex.seq
        (regex.neg_lookahead
          (regex.seq (regex.star regex.any)
            (regex.seq (regex.chr (Char.ofNat 45)) (regex.chr (Char.ofNat 45)))))
        (regex.seq (regex.rep (regex.cls is_lower_digit_or_dash) 1 61)
          (regex.seq (regex.cls is_lower_or_digit) regex.eol))))

/-- Embedding of `aznfsc::is_valid_container`. -/
def is_valid_container (container : String) : Bool :=
  regex_match container container_rexpr

/-- The rule for container names in the words of the specification: between 3 and 63
characters, each a lowercase letter, a digit or a dash, the first and the last a lowercase
letter or a digit, and no two consecutive dashes anywhere. -/
def container_name_rule (s : List Char) : Prop :=
  3 ≤ s.length ∧ s.length ≤ 63 ∧
  (∀ c ∈ s, is_lower_digit_or_dash c = true) ∧
  (∃ c, s.head? = some c ∧ is_lower_or_digit c = true) ∧
  (∃ c, s.getLast? = some c ∧ is_lower_or_digit c = true) ∧
  ¬ List.IsInfix [Char.ofNat 45, Char.ofNat 45] s

/-- The local `access_range` of `ra_state::is_sequential_nolock`:
`const int64_t access_range = (max_byte_read - min_byte_read);`, the value that
`assert(access_range > 0)` is about. -/
def ra_state.access_range (s : ra_state) : Int :=
  to_int64 (u64_sub s.max_byte_read s.min_byte_read)

/-- The local `access_density` of `ra_state::is_sequential_nolock`:
`const int access_density = (num_bytes_read * 100) / access_range;`, the value that
`assert(access_density <= 100)` is about; `none` for the division by zero. -/
def ra_state.access_density (s : ra_state) : Option Int :=
  if int_to_u64 s.access_range = 0 then none
  else some (to_int32 ((u64 (s.num_bytes_read * 100) / int_to_u64 s.access_range : Nat) : Int))

/-! ## `util.h`: `random_number` and the time comparisons -/

/-- Embedding of `aznfsc::random_number(min, max)`: `min + (gen() % (max - min + 1))` in
`uint64_t` arithmetic, with `g` the value that `gen()` returns. `none` stands for the remainder
by zero. -/
def random_number (min max g : Nat) : Option Nat :=
  let modulus := u64 (u64_sub max min + 1)
  if modulus = 0 then none
  else some (u64 (min + u64 g % modulus))

/-- The members of `struct timespec`: `time_t tv_sec` and `long tv_nsec`, both signed 64-bit
numbers. -/
structure timespec where
  tv_sec : Int
  tv_nsec : Int
deriving DecidableEq, Repr

/-- Modelled from the spec: `struct nfstime3` of RFC 1813, declared by the RPC library: two
unsigned 32-bit numbers. -/
structure nfstime3 where
  seconds : Nat
  nseconds : Nat
deriving DecidableEq, Repr

/-- Embedding of `aznfsc::compare_timespec_and_nfstime(ts, nt)`. The products with
`1000'000'000ULL` and the sums are `uint64_t` arithmetic: the signed members of `ts` are
converted to `uint64_t` first. -/
def compare_timespec_and_nfstime (ts : timespec) (nt : nfstime3) : Int :=
  let ns1 := u64 (u64 (int_to_u64 ts.tv_sec * 1000000000) + int_to_u64 ts.tv_nsec)
  let ns2 := u64 (u64 (u64 nt.seconds * 1000000000) + u64 nt.nseconds)
  if ns1 = ns2 then 0
  else if ns1 < ns2 then -1
  else 1

/-- The comparison of two instants as exact integers, in the words of the specification: 0 when
equal, -1 when the first is earlier, 1 when it is later. -/
def compare_instants (a b : Int) : Int :=
  if a = b then 0 else if a < b then -1 else 1

/-- A run of literal characters in a pattern. -/
def regex_word : List Char → regex
  | [] => regex.eps
  | c :: rest => regex.seq (regex.chr c) (regex_word rest)

/-- The bracket expression `[0-9]`. -/
def is_digit (c : Char) : Bool := decide (48 ≤ c.toNat) && decide (c.toNat ≤ 57)

/-- The pattern of `is_valid_cloud_suffix`,
`"^(z[0-9]+.)?(privatelink.)?blob(.preprod)?.core.(windows.net|usgovcloudapi.net|chinacloudapi.cn)$"`.
Every `.` in it is the unescaped wildcard; `x+` is `x` followed by `x*`, `(x)?` is `x{0,1}`. -/
def cloud_suffix_rexpr : regex :=
  regex.seq regex.bol
    (regex.seq
      (regex.rep
        (regex.seq (regex.chr 'z')
          (regex.seq (regex.cls is_digit)
            (regex.seq (regex.star (regex.cls is_digit)) regex.any))) 0 1)
      (regex.seq
        (regex.rep (regex.seq (regex_word "privatelink".toList) regex.any) 0 1)
        (regex.seq (regex_word "blob".toList)
          (regex.seq
            (regex.rep (regex.seq regex.any (regex_word "preprod".toList)) 0 1)
            (regex.seq regex.any
              (regex.seq (regex_word "core".toList)
                (regex.seq regex.any
                  (regex.seq
                    (regex.alt
                      (regex.seq (regex_word "windows".toList)
                        (regex.seq regex.any (regex_word "net".toList)))
                      (regex.alt
                        (regex.seq (regex_word "usgovcloudapi".toList)
                          (regex.seq regex.any (regex_word "net".toList)))
                        (regex.seq (regex_word "chinacloudapi".toList)
                          (regex.seq regex.any (regex_word "cn".toList)))))
                    regex.eol))))))))

/-- Embedding of `aznfsc::is_valid_cloud_suffix`. -/
def is_valid_cloud_suffix (cloud_suffix : String) : Bool :=
  regex_match cloud_suffix cloud_suffix_rexpr

/-! # Theorems -/

/-! ## Completion classifier -/

/-- An in-range counter that is below an in-range limit is incremented without wrapping. -/
theorem to_int32_succ_of_lt (r M : Int) (hr : is_int r) (hM : is_int M) (h : r < M) :
    to_int32 (r + 1) = r + 1 := by
  unfold is_int INT_MIN INT_MAX at hr hM
  unfold to_int32
  omega

/-- The retryable set is exactly IO, SERVERFAULT, ROFS, PERM. -/
theorem is_retryable_error_iff (nfs_status : Int) :
    rpc_task.is_retryable_error nfs_status = true ↔
      (nfs_status = NFS3ERR_IO ∨ nfs_status = NFS3ERR_SERVERFAULT ∨
        nfs_status = NFS3ERR_ROFS ∨ nfs_status = NFS3ERR_PERM) := by
  unfold rpc_task.is_retryable_error
  by_cases h1 : nfs_status = NFS3ERR_IO
  · simp [h1]
  · by_cases h2 : nfs_status = NFS3ERR_SERVERFAULT
    · simp [h2]
    · by_cases h3 : nfs_status = NFS3ERR_ROFS
      · simp [h3]
      · by_cases h4 : nfs_status = NFS3ERR_PERM
        · simp [h4]
        · simp [h1, h2, h3, h4]

/-- C1: with `rpc_status == RPC_STATUS_SUCCESS`, `succeeded` returns true with retry=false and
the counter unchanged exactly when `nfs_status == NFS3_OK`; it returns false with retry=true and
the counter incremented by one exactly when `nfs_status != NFS3_OK`, the operation is
idempotent, the counter is below the limit and the status is one of IO, SERVERFAULT, ROFS,
PERM; in every other case it returns false with retry=false and the counter unchanged. The
slot index is never touched. -/
theorem succeeded_rpc_ok (M r i nfs_status : Int) (idempotent : Bool)
    (hr : is_int r) (hM : is_int M) :
    let t : rpc_task := { num_of_times_retried := r, index := i }
    let out := t.succeeded M RPC_STATUS_SUCCESS nfs_status idempotent
    let retryable := nfs_status ≠ NFS3_OK ∧ idempotent = true ∧ r < M ∧
      (nfs_status = NFS3ERR_IO ∨ nfs_status = NFS3ERR_SERVERFAULT ∨
        nfs_status = NFS3ERR_ROFS ∨ nfs_status = NFS3ERR_PERM)
    (out = { ret := true, retry := false, task := t } ↔ nfs_status = NFS3_OK) ∧
    (out = { ret := false, retry := true,
             task := { num_of_times_retried := r + 1, index := i } } ↔ retryable) ∧
    (nfs_status ≠ NFS3_OK → ¬ retryable →
      out = { ret := false, retry := false, task := t }) := by
  intro t out retryable
  have hout : out = t.succeeded M RPC_STATUS_SUCCESS nfs_status idempotent := rfl
  have ht : t = { num_of_times_retried := r, index := i } := rfl
  by_cases hok : nfs_status = NFS3_OK
  · have hv : out = { ret := true, retry := false, task := t } := by
      rw [hout]; simp [rpc_task.succeeded, hok]
    refine ⟨⟨fun _ => hok, fun _ => hv⟩, ⟨?_, ?_⟩, fun h => absurd hok h⟩
    · intro h; rw [hv] at h; simp at h
    · intro h; exact absurd hok h.1
  · by_cases hre : idempotent = true ∧ r < M ∧ rpc_task.is_retryable_error nfs_status = true
    · have hinc : to_int32 (r + 1) = r + 1 := to_int32_succ_of_lt r M hr hM hre.2.1
      have hv : out = ⟨false, true, ⟨r + 1, i⟩⟩ := by
        rw [hout]; simp [rpc_task.succeeded, hok, ht, hre.1, hre.2.1, hre.2.2, hinc]
      have hret : retryable :=
        ⟨hok, hre.1, hre.2.1, (is_retryable_error_iff nfs_status).1 hre.2.2⟩
      refine ⟨⟨?_, fun h => absurd h hok⟩, ⟨fun _ => hret, fun _ => hv⟩, fun _ h => absurd hret h⟩
      intro h; rw [hv] at h; simp at h
    · have hv : out = { ret := false, retry := false, task := t } := by
        rw [hout]
        have hre2 : ¬ (idempotent = true ∧ r < M ∧
            rpc_task.is_retryable_error nfs_status = true) := hre
        simp only [rpc_task.succeeded, ht]
        rw [if_neg (by simp), if_pos hok, if_neg hre2]
      have hnot : ¬ retryable := fun h =>
        hre ⟨h.2.1, h.2.2.1, (is_retryable_error_iff nfs_status).2 h.2.2.2⟩
      refine ⟨⟨?_, fun h => absurd h hok⟩, ⟨?_, fun h => absurd h hnot⟩, fun _ _ => hv⟩
      · intro h; rw [hv] at h; simp at h
      · intro h; rw [hv] at h; simp at h

/-- Witness for C1: a SERVERFAULT on the first attempt of an idempotent operation with limit 3
is a retry that moves the counter from 0 to 1. -/
theorem succeeded_rpc_ok_witness :
    (({ num_of_times_retried := 0, index := 7 } : rpc_task).succeeded 3 RPC_STATUS_SUCCESS
        NFS3ERR_SERVERFAULT true
      = { ret := false, retry := true, task := { num_of_times_retried := 0 + 1, index := 7 } }) :=
  ((succeeded_rpc_ok 3 0 7 NFS3ERR_SERVERFAULT true (by decide) (by decide)).2.1).2
    (by decide)


/-- C2: a completion whose transport status is an error, arriving when the retry counter has
reached the limit, with an NFS status word of `NFS3_OK`, is classified as success: `succeeded`
returns true. The first `if` only handles a failed RPC while retries remain; with retries
exhausted control falls through to the NFS status test. -/
theorem succeeded_rpc_error_exhausted_returns_true :
    ({ num_of_times_retried := 3, index := 0 } : rpc_task).succeeded 3 RPC_STATUS_ERROR NFS3_OK true
      = { ret := true, retry := false, task := { num_of_times_retried := 3, index := 0 } } := by
  decide

/-- A failed RPC with the retry limit reached is classified by the NFS status alone: `NFS3_OK`
gives true, any other status gives false without retry. -/
theorem succeeded_rpc_error_exhausted (M : Int) (t : rpc_task) (rpc_status nfs_status : Int)
    (idempotent : Bool) (h : ¬ t.num_of_times_retried < M) :
    t.succeeded M rpc_status nfs_status idempotent
      = { ret := decide (nfs_status = NFS3_OK), retry := false, task := t } := by
  unfold rpc_task.succeeded
  rw [if_neg (fun hc => h hc.2)]
  by_cases hok : nfs_status = NFS3_OK
  · simp [hok]
  · rw [if_pos hok, if_neg (fun hc => h hc.2.1)]
    simp [hok]

/-- A failed RPC with retries left is a retry verdict that leaves the task as it was. -/
theorem succeeded_rpc_error_step (M : Int) (t : rpc_task) (rpc_status nfs_status : Int)
    (idempotent : Bool) (h1 : rpc_status ≠ RPC_STATUS_SUCCESS)
    (h2 : t.num_of_times_retried < M) :
    t.succeeded M rpc_status nfs_status idempotent = { ret := false, retry := true, task := t } := by
  unfold rpc_task.succeeded
  rw [if_pos ⟨h1, h2⟩]

/-- Unfolding of `run_task` at a completion classified as retry. -/
theorem run_task_cons_retry (M : Int) (idempotent : Bool) (t t1 : rpc_task) (c : completion)
    (cs : List completion)
    (h : t.succeeded M c.rpc_status c.nfs_status idempotent
      = { ret := false, retry := true, task := t1 }) :
    run_task M idempotent t (c :: cs)
      = (verdict.retry :: (run_task M idempotent t1 cs).1, (run_task M idempotent t1 cs).2) := by
  simp [run_task, h, succeeded_result.verdict]

/-- Unfolding of `run_task` at a completion classified as fail. -/
theorem run_task_cons_fail (M : Int) (idempotent : Bool) (t t1 : rpc_task) (c : completion)
    (cs : List completion)
    (h : t.succeeded M c.rpc_status c.nfs_status idempotent
      = { ret := false, retry := false, task := t1 }) :
    run_task M idempotent t (c :: cs) = ([verdict.fail], t1) := by
  simp [run_task, h, succeeded_result.verdict]

/-- Unfolding of `run_task` at a completion classified as ok. -/
theorem run_task_cons_ok (M : Int) (idempotent : Bool) (t t1 : rpc_task) (c : completion)
    (cs : List completion) (b : Bool)
    (h : t.succeeded M c.rpc_status c.nfs_status idempotent
      = { ret := true, retry := b, task := t1 }) :
    run_task M idempotent t (c :: cs) = ([verdict.ok], t1) := by
  simp [run_task, h, succeeded_result.verdict]

/-- C3: with limit 3, a task whose every completion is a transport error (NFS status taken as
SERVERFAULT, what `RSTATUS` yields for a null result) gets a retry verdict for each of them, for
any number `n` of completions, and its counter stays 0: the transport-error branch never
increments `num_of_times_retried`, so the number of submissions is not bounded by 3 + 1. -/
theorem run_task_transport_errors_all_retry (n : Nat) :
    run_task 3 true { num_of_times_retried := 0, index := 0 }
        (List.replicate n { rpc_status := RPC_STATUS_ERROR, nfs_status := NFS3ERR_SERVERFAULT })
      = (List.replicate n verdict.retry, { num_of_times_retried := 0, index := 0 }) := by
  induction n with
  | zero => rfl
  | succ k ih =>
    have hstep := succeeded_rpc_error_step 3 { num_of_times_retried := 0, index := 0 }
      RPC_STATUS_ERROR NFS3ERR_SERVERFAULT true (by decide) (by decide)
    rw [List.replicate_succ, List.replicate_succ,
      run_task_cons_retry 3 true _ _ _ _ hstep, ih]

/-- A retryable NFS error differs from `NFS3_OK`. -/
theorem retryable_ne_ok (e : Int) (h : rpc_task.is_retryable_error e = true) : e ≠ NFS3_OK := by
  intro he
  rw [he] at h
  exact absurd h (by decide)

/-- A retryable NFS error on a successful RPC of an idempotent operation with retries left:
retry verdict, counter plus one. -/
theorem succeeded_retryable_step (M r i e : Int) (hr : is_int r) (hM : is_int M) (h : r < M)
    (he : rpc_task.is_retryable_error e = true) :
    ({ num_of_times_retried := r, index := i } : rpc_task).succeeded M RPC_STATUS_SUCCESS e true
      = { ret := false, retry := true, task := { num_of_times_retried := r + 1, index := i } } := by
  have hinc := to_int32_succ_of_lt r M hr hM h
  have hne := retryable_ne_ok e he
  simp [rpc_task.succeeded, hne, h, he, hinc]

/-- A retryable NFS error once the counter has reached the limit: fail verdict. -/
theorem succeeded_exhausted_step (M r i e : Int) (h : M ≤ r)
    (he : rpc_task.is_retryable_error e = true) :
    ({ num_of_times_retried := r, index := i } : rpc_task).succeeded M RPC_STATUS_SUCCESS e true
      = { ret := false, retry := false, task := { num_of_times_retried := r, index := i } } := by
  have hne := retryable_ne_ok e he
  have hlt : ¬ r < M := by omega
  simp [rpc_task.succeeded, hne, hlt]

/-- Retry run ending in success, from any counter value. -/
theorem run_task_retry_then_ok (M i : Int) (hM : is_int M) :
    ∀ (errs : List Int) (r : Int), is_int r → r + errs.length ≤ M →
      (∀ e ∈ errs, rpc_task.is_retryable_error e = true) →
      run_task M true { num_of_times_retried := r, index := i }
          (errs.map (fun e => { rpc_status := RPC_STATUS_SUCCESS, nfs_status := e })
            ++ [{ rpc_status := RPC_STATUS_SUCCESS, nfs_status := NFS3_OK }])
        = (List.replicate errs.length verdict.retry ++ [verdict.ok],
            { num_of_times_retried := r + errs.length, index := i }) := by
  intro errs
  induction errs with
  | nil =>
    intro r _ _ _
    have hok : ({ num_of_times_retried := r, index := i } : rpc_task).succeeded M
        RPC_STATUS_SUCCESS NFS3_OK true
          = { ret := true, retry := false, task := { num_of_times_retried := r, index := i } } := by
      simp [rpc_task.succeeded]
    rw [List.map_nil, List.nil_append, run_task_cons_ok M true _ _ _ _ false hok]
    simp
  | cons e es ih =>
    intro r hr hle hall
    have hlen : ((e :: es).length : Int) = (es.length : Int) + 1 := by simp
    have hlt : r < M := by omega
    have hstep := succeeded_retryable_step M r i e hr hM hlt (hall e (by simp))
    have hr1 : is_int (r + 1) := by
      unfold is_int INT_MIN INT_MAX at hr hM ⊢
      omega
    have hrec := ih (r + 1) hr1 (by omega) (fun x hx => hall x (by simp [hx]))
    rw [List.map_cons, List.cons_append, run_task_cons_retry M true _ _ _ _ hstep, hrec]
    simp only [List.length_cons, List.replicate_succ, List.cons_append]
    have harith : r + 1 + (es.length : Int) = r + ((es.length + 1 : Nat) : Int) := by
      push_cast
      ring
    rw [harith]

/-- Retry run that exhausts the limit, from any counter value not above the limit. -/
theorem run_task_retry_exhausted (M i : Int) (hM : is_int M) :
    ∀ (errs : List Int) (r : Int), is_int r → r ≤ M → M - r < errs.length →
      (∀ e ∈ errs, rpc_task.is_retryable_error e = true) →
      run_task M true { num_of_times_retried := r, index := i }
          (errs.map (fun e => { rpc_status := RPC_STATUS_SUCCESS, nfs_status := e }))
        = (List.replicate (M - r).toNat verdict.retry ++ [verdict.fail],
            { num_of_times_retried := M, index := i }) := by
  intro errs
  induction errs with
  | nil =>
    intro r _ hle hlt _
    simp at hlt
    omega
  | cons e es ih =>
    intro r hr hle hlt hall
    have hlen : ((e :: es).length : Int) = (es.length : Int) + 1 := by simp
    by_cases hrM : r < M
    · have hstep := succeeded_retryable_step M r i e hr hM hrM (hall e (by simp))
      have hr1 : is_int (r + 1) := by
        unfold is_int INT_MIN INT_MAX at hr hM ⊢
        omega
      have hrec := ih (r + 1) hr1 (by omega) (by omega) (fun x hx => hall x (by simp [hx]))
      have hnat : (M - r).toNat = (M - (r + 1)).toNat + 1 := by omega
      rw [List.map_cons, run_task_cons_retry M true _ _ _ _ hstep, hrec, hnat,
        List.replicate_succ, List.cons_append]
    · have hstep := succeeded_exhausted_step M r i e (by omega) (hall e (by simp))
      have hrM2 : r = M := by omega
      have hnat : (M - r).toNat = 0 := by omega
      rw [List.map_cons, run_task_cons_fail M true _ _ _ _ hstep, hnat, hrM2]
      simp

/-- C4: for an idempotent operation whose completions all have transport status OK, starting
from counter 0 with limit `M`: `k ≤ M` retryable NFS errors followed by `NFS3_OK` give exactly
`k` retry verdicts and then one ok verdict, with the counter left at `k`; more than `M`
retryable errors give `M` retry verdicts and then fail at completion `M + 1`. -/
theorem run_task_retryable_errors (M i : Int) (errs : List Int) (hM : is_int M)
    (hall : ∀ e ∈ errs, rpc_task.is_retryable_error e = true) :
    ((errs.length : Int) ≤ M →
      run_task M true { num_of_times_retried := 0, index := i }
          (errs.map (fun e => { rpc_status := RPC_STATUS_SUCCESS, nfs_status := e })
            ++ [{ rpc_status := RPC_STATUS_SUCCESS, nfs_status := NFS3_OK }])
        = (List.replicate errs.length verdict.retry ++ [verdict.ok],
            { num_of_times_retried := errs.length, index := i })) ∧
    (0 ≤ M → M < errs.length →
      run_task M true { num_of_times_retried := 0, index := i }
          (errs.map (fun e => { rpc_status := RPC_STATUS_SUCCESS, nfs_status := e }))
        = (List.replicate M.toNat verdict.retry ++ [verdict.fail],
            { num_of_times_retried := M, index := i })) := by
  have h0 : is_int 0 := by decide
  constructor
  · intro hle
    have h := run_task_retry_then_ok M i hM errs 0 h0 (by omega) hall
    simpa using h
  · intro hpos hlt
    have h := run_task_retry_exhausted M i hM errs 0 h0 hpos (by omega) hall
    simpa using h

/-- Witness for C4: limit 3, one SERVERFAULT and then `NFS3_OK`: two submissions, verdicts
retry then ok, counter left at 1. -/
theorem run_task_retryable_errors_witness :
    run_task 3 true { num_of_times_retried := 0, index := 0 }
        ([NFS3ERR_SERVERFAULT].map
            (fun e => ({ rpc_status := RPC_STATUS_SUCCESS, nfs_status := e } : completion))
          ++ [{ rpc_status := RPC_STATUS_SUCCESS, nfs_status := NFS3_OK }])
      = (List.replicate [NFS3ERR_SERVERFAULT].length verdict.retry ++ [verdict.ok],
          { num_of_times_retried := ([NFS3ERR_SERVERFAULT].length : Int), index := 0 }) :=
  (run_task_retryable_errors 3 0 [NFS3ERR_SERVERFAULT] (by decide) (by decide)).1 (by decide)


/-! ## Slot pool -/

/-- The constructor leaves `n` on top of a pool of `n + 1` slots. -/
theorem push_indices_succ (n : Nat) : push_indices (n + 1) = (n : Int) :: push_indices n := rfl

/-- Effect of `get_rpc_task_instance` when the top of the stack is `k` and slot `k` exists. -/
theorem get_rpc_task_instance_eq (h : rpc_task_helper) (k : Nat) (rest : List Int) (t : rpc_task)
    (hs : h.free_task_index = (k : Int) :: rest) (ht : h.rpc_task_list[k]? = some t) :
    h.get_rpc_task_instance
      = some (k, { free_task_index := rest,
                   rpc_task_list := h.rpc_task_list.set k { t with index := (k : Int) } }) := by
  unfold rpc_task_helper.get_rpc_task_instance rpc_task_helper.get_free_task_index
  rw [hs]
  simp [ht]

/-- Effect of `free_rpc_task_instance` on a task whose stored index is not 0: the value pushed
is 1. -/
theorem free_rpc_task_instance_nonzero (h : rpc_task_helper) (p : Nat) (t : rpc_task)
    (ht : h.rpc_task_list[p]? = some t) (hi : t.index ≠ 0) :
    h.free_rpc_task_instance p
      = some { free_task_index := 1 :: h.free_task_index, rpc_task_list := h.rpc_task_list } := by
  unfold rpc_task_helper.free_rpc_task_instance rpc_task_helper.release_free_index
    rpc_task.get_index
  rw [ht]
  simp [hi]

/-- Acquire then release on a freshly constructed pool of `n + 3` slots. -/
theorem init_get_free (n : Nat) :
    ∃ h1 h2 : rpc_task_helper,
      (rpc_task_helper.init (n + 3)).get_rpc_task_instance = some (n + 2, h1) ∧
      (h1.rpc_task_list[n + 2]?).map rpc_task.index = some ((n + 2 : Nat) : Int) ∧
      h1.free_rpc_task_instance (n + 2) = some h2 ∧
      (rpc_task_helper.init (n + 3)).free_task_index = ((n + 2 : Nat) : Int) :: push_indices (n + 2) ∧
      h2.free_task_index = 1 :: push_indices (n + 2) := by
  have hlen : n + 2 < (List.replicate (n + 3)
      ({ num_of_times_retried := 0, index := 0 } : rpc_task)).length := by simp
  have hget := get_rpc_task_instance_eq (rpc_task_helper.init (n + 3)) (n + 2)
    (push_indices (n + 2)) { num_of_times_retried := 0, index := 0 } rfl
    (by simp [rpc_task_helper.init])
  have hfree := free_rpc_task_instance_nonzero
    { free_task_index := push_indices (n + 2),
      rpc_task_list := (rpc_task_helper.init (n + 3)).rpc_task_list.set (n + 2)
        { num_of_times_retried := 0, index := ((n + 2 : Nat) : Int) } }
    (n + 2) { num_of_times_retried := 0, index := ((n + 2 : Nat) : Int) }
    (by simp [rpc_task_helper.init])
    (by simp; omega)
  refine ⟨_, _, hget, ?_, hfree, rfl, rfl⟩
  simp [rpc_task_helper.init]



/-- C5: on the pool as constructed, `get_rpc_task_instance` pops 65535 and hands out slot
65535 with `index == 65535`, but `free_rpc_task_instance` on that task pushes 1, not 65535
(`get_index` returns `bool`): the stack was `65535 :: rest` before the round trip and is
`1 :: rest` after it. -/
theorem acquire_release_pushes_one :
    ∃ h1 h2 : rpc_task_helper,
      rpc_task_helper.create.get_rpc_task_instance = some (65535, h1) ∧
      (h1.rpc_task_list[65535]?).map rpc_task.index = some 65535 ∧
      h1.free_rpc_task_instance 65535 = some h2 ∧
      rpc_task_helper.create.free_task_index = 65535 :: push_indices 65535 ∧
      h2.free_task_index = 1 :: push_indices 65535 :=
  init_get_free 65533

/-- Two acquisitions, two releases and two more acquisitions on a freshly constructed pool of
`n + 3` slots: both releases push 1, and the last two acquisitions both hand out slot 1. -/
theorem init_double_handout (n : Nat) :
    ∃ h1 h2 h3 h4 h5 h6 : rpc_task_helper,
      (rpc_task_helper.init (n + 3)).get_rpc_task_instance = some (n + 2, h1) ∧
      h1.get_rpc_task_instance = some (n + 1, h2) ∧
      h2.free_rpc_task_instance (n + 2) = some h3 ∧
      h3.free_rpc_task_instance (n + 1) = some h4 ∧
      h4.free_task_index = 1 :: 1 :: push_indices (n + 1) ∧
      h4.get_rpc_task_instance = some (1, h5) ∧
      h5.get_rpc_task_instance = some (1, h6) := by
  let d : rpc_task := { num_of_times_retried := 0, index := 0 }
  let l0 : List rpc_task := List.replicate (n + 3) d
  let l1 : List rpc_task := l0.set (n + 2) { d with index := ((n + 2 : Nat) : Int) }
  let l2 : List rpc_task := l1.set (n + 1) { d with index := ((n + 1 : Nat) : Int) }
  have hl0 : l0.length = n + 3 := by simp [l0]
  have hl1 : l1.length = n + 3 := by simp [l1, hl0]
  have hl2 : l2.length = n + 3 := by simp [l2, hl1]
  have e0 : ∀ k, k < n + 3 → l0[k]? = some d := by
    intro k hk
    simp [l0, hk]
  have g1 := get_rpc_task_instance_eq (rpc_task_helper.init (n + 3)) (n + 2)
    (push_indices (n + 2)) d rfl (e0 (n + 2) (by omega))
  have e1 : l1[n + 1]? = some d := by
    have hne : n + 2 ≠ n + 1 := by omega
    simp only [l1]
    rw [List.getElem?_set_ne hne]
    exact e0 (n + 1) (by omega)
  have g2 := get_rpc_task_instance_eq
    { free_task_index := push_indices (n + 2), rpc_task_list := l1 } (n + 1)
    (push_indices (n + 1)) d rfl e1
  have e2 : l2[n + 2]? = some { d with index := ((n + 2 : Nat) : Int) } := by
    have hne : n + 1 ≠ n + 2 := by omega
    simp only [l2]
    rw [List.getElem?_set_ne hne]
    simp [l1, hl0]
  have f3 := free_rpc_task_instance_nonzero
    { free_task_index := push_indices (n + 1), rpc_task_list := l2 } (n + 2)
    { d with index := ((n + 2 : Nat) : Int) } e2 (by simp; omega)
  have e3 : l2[n + 1]? = some { d with index := ((n + 1 : Nat) : Int) } := by
    simp [l2, hl1]
  have f4 := free_rpc_task_instance_nonzero
    { free_task_index := 1 :: push_indices (n + 1), rpc_task_list := l2 } (n + 1)
    { d with index := ((n + 1 : Nat) : Int) } e3 (by simp; omega)
  have h1lt : 1 < l2.length := by omega
  have e4 : l2[1]? = some (l2[1]) := List.getElem?_eq_getElem h1lt
  have g5 := get_rpc_task_instance_eq
    { free_task_index := 1 :: 1 :: push_indices (n + 1), rpc_task_list := l2 } 1
    (1 :: push_indices (n + 1)) (l2[1]) rfl e4
  have e5 : (l2.set 1 { l2[1] with index := ((1 : Nat) : Int) })[1]?
      = some { l2[1] with index := ((1 : Nat) : Int) } := by
    simp [h1lt]
  have g6 := get_rpc_task_instance_eq
    { free_task_index := 1 :: push_indices (n + 1),
      rpc_task_list := l2.set 1 { l2[1] with index := ((1 : Nat) : Int) } } 1
    (push_indices (n + 1)) { l2[1] with index := ((1 : Nat) : Int) } rfl e5
  exact ⟨_, _, _, _, _, _, g1, g2, f3, f4, rfl, g5, g6⟩



/-- C6: starting from the pool as constructed, acquire slots 65535 and 65534, release both
(each release is of a task currently held), and acquire twice more. Both releases push 1, so
the free-index stack holds 1 twice, and the last two acquisitions both hand out slot 1 while
neither has been released: two outstanding requests share a slot. -/
theorem slot_handed_out_twice :
    ∃ h1 h2 h3 h4 h5 h6 : rpc_task_helper,
      rpc_task_helper.create.get_rpc_task_instance = some (65535, h1) ∧
      h1.get_rpc_task_instance = some (65534, h2) ∧
      h2.free_rpc_task_instance 65535 = some h3 ∧
      h3.free_rpc_task_instance 65534 = some h4 ∧
      ¬ h4.free_task_index.Nodup ∧
      h4.get_rpc_task_instance = some (1, h5) ∧
      h5.get_rpc_task_instance = some (1, h6) := by
  obtain ⟨h1, h2, h3, h4, h5, h6, a1, a2, a3, a4, a5, a6, a7⟩ := init_double_handout 65533
  refine ⟨h1, h2, h3, h4, h5, h6, a1, a2, a3, a4, ?_, a6, a7⟩
  rw [a5]
  simp



/-! ## Readahead predictor -/

/-- A value that fits in 64 bits is not changed by the reduction. -/
theorem u64_of_lt (x : Nat) (h : x < 18446744073709551616) : u64 x = x := by
  unfold u64
  omega

/-- Unsigned subtraction without borrow is ordinary subtraction. -/
theorem u64_sub_of_le (a b : Nat) (ha : a < 18446744073709551616) (hb : b ≤ a) :
    u64_sub a b = a - b := by
  unfold u64_sub
  omega

/-- Adding and then subtracting the same 64-bit value restores the original, wrap or not. -/
theorem u64_sub_u64_add (a b : Nat) (ha : a < 18446744073709551616)
    (hb : b < 18446744073709551616) : u64_sub (u64 (a + b)) b = a := by
  unfold u64_sub u64
  omega

/-- Casting a `uint64_t` to `int64_t` and back gives the same value. -/
theorem int_to_u64_to_int64 (x : Nat) (h : x < 18446744073709551616) :
    int_to_u64 (to_int64 x) = x := by
  unfold int_to_u64 to_int64
  split <;> omega

/-- An `int` holds a non-negative value below `2^31` unchanged. -/
theorem to_int32_of_lt (q : Nat) (h : q < 2147483648) : to_int32 (q : Int) = (q : Int) := by
  unfold to_int32
  omega

/-- C8 (amended): for every tracker state with `max_byte_read > min_byte_read` in which
`num_bytes_read * 100` fits in 64 bits and the quotient
`(num_bytes_read * 100) / (max_byte_read - min_byte_read)` fits in an `int`, `is_sequential`
returns, and it returns true if and only if `num_reads >= 3` and that quotient exceeds 70. -/
theorem is_sequential_iff (s : ra_state) (hwf : s.wf)
    (hlt : s.min_byte_read < s.max_byte_read)
    (hmul : s.num_bytes_read * 100 < 18446744073709551616)
    (hq : s.num_bytes_read * 100 / (s.max_byte_read - s.min_byte_read) < 2147483648) :
    s.is_sequential
      = some (decide (3 ≤ s.num_reads ∧
          70 < s.num_bytes_read * 100 / (s.max_byte_read - s.min_byte_read))) := by
  obtain ⟨_, _, hmin, hmax, _, _, _⟩ := hwf
  have hsub : u64_sub s.max_byte_read s.min_byte_read = s.max_byte_read - s.min_byte_read :=
    u64_sub_of_le _ _ hmax (by omega)
  have hrange : int_to_u64 (to_int64 (u64_sub s.max_byte_read s.min_byte_read))
      = s.max_byte_read - s.min_byte_read := by
    rw [hsub]
    exact int_to_u64_to_int64 _ (by omega)
  unfold ra_state.is_sequential ra_state.is_sequential_nolock
  by_cases hn : s.num_reads < 3
  · have h3 : ¬ 3 ≤ s.num_reads := by omega
    simp [hn, h3]
  · have h3 : 3 ≤ s.num_reads := by omega
    have hne : ¬ (s.max_byte_read - s.min_byte_read = 0) := by omega
    simp only [hn, if_false, hrange, hne, u64_of_lt _ hmul, to_int32_of_lt _ hq,
      ACCESS_DENSITY_MIN]
    congr 1
    simp only [h3, true_and, gt_iff_lt]
    have hcast : ((70 : Int) < ((s.num_bytes_read * 100 / (s.max_byte_read - s.min_byte_read) : Nat) : Int))
        ↔ (70 < s.num_bytes_read * 100 / (s.max_byte_read - s.min_byte_read)) := by
      constructor <;> intro h <;> omega
    simp only [hcast]

/-- Witness for C8 (amended): three back-to-back 64 KiB reads from offset 0 leave a tracker
that is sequential. -/
theorem is_sequential_iff_witness :
    ({ ra_bytes := 131072, last_byte_readahead := 196607, min_byte_read := 0,
       max_byte_read := 196607, ra_ongoing := 0, num_reads := 3,
       num_bytes_read := 196608 } : ra_state).is_sequential
      = some (decide (3 ≤ 3 ∧ 70 < 196608 * 100 / (196607 - 0))) :=
  is_sequential_iff
    { ra_bytes := 131072, last_byte_readahead := 196607, min_byte_read := 0,
      max_byte_read := 196607, ra_ongoing := 0, num_reads := 3, num_bytes_read := 196608 }
    (by unfold ra_state.wf; decide) (by decide) (by decide) (by decide)

/-- C8 (as stated) fails: with `num_reads = 3`, `min_byte_read = 0`, `max_byte_read = 1` and
`num_bytes_read = 2^32` the quotient is `100 * 2^32 > 70`, but stored in an `int` it becomes 0
and `is_sequential` returns false. -/
theorem is_sequential_int_truncation :
    let s : ra_state :=
      { ra_bytes := 131072, last_byte_readahead := 1, min_byte_read := 0, max_byte_read := 1,
        ra_ongoing := 0, num_reads := 3, num_bytes_read := 4294967296 }
    s.min_byte_read < s.max_byte_read ∧
    (3 ≤ s.num_reads ∧ 70 < s.num_bytes_read * 100 / (s.max_byte_read - s.min_byte_read)) ∧
    s.is_sequential = some false := by
  decide



/-- Updating `ra_ongoing` with its own value changes nothing. -/
theorem ra_state_with_ra_ongoing_self (s : ra_state) (x : Nat) (h : x = s.ra_ongoing) :
    { s with ra_ongoing := x } = s := by
  subst h
  rfl

/-- C7 (amended): for every state and length for which `last_byte_readahead + 1 + length` and
`ra_ongoing + length` do not overflow 64 bits, `get_next_ra(length)` returns 0 and leaves the
whole state unchanged if `last_byte_readahead + 1 + length > AZNFSC_MAX_FILE_SIZE`, or
`is_sequential()` is false, or `is_sequential()` is true and `ra_ongoing + length > ra_bytes`;
when `is_sequential()` is true and neither bound is exceeded it returns the non-zero value
`last_byte_readahead + 1`, increases `last_byte_readahead` and `ra_ongoing` by exactly
`length`, and leaves every other member unchanged. -/
theorem get_next_ra_cases (AZNFSC_MAX_FILE_SIZE : Nat) (s : ra_state) (length : Nat)
    (hwf : s.wf)
    (h1 : s.last_byte_readahead + 1 + length < 18446744073709551616)
    (h2 : s.ra_ongoing + length < 18446744073709551616) :
    (AZNFSC_MAX_FILE_SIZE < s.last_byte_readahead + 1 + length →
      s.get_next_ra AZNFSC_MAX_FILE_SIZE length = some (0, s)) ∧
    (s.is_sequential = some false →
      s.get_next_ra AZNFSC_MAX_FILE_SIZE length = some (0, s)) ∧
    (s.is_sequential = some true → s.ra_bytes < s.ra_ongoing + length →
      s.get_next_ra AZNFSC_MAX_FILE_SIZE length = some (0, s)) ∧
    (¬ AZNFSC_MAX_FILE_SIZE < s.last_byte_readahead + 1 + length →
      s.is_sequential = some true → ¬ s.ra_bytes < s.ra_ongoing + length →
      s.last_byte_readahead + 1 ≠ 0 ∧
      s.get_next_ra AZNFSC_MAX_FILE_SIZE length
        = some (s.last_byte_readahead + 1,
            { s with ra_ongoing := s.ra_ongoing + length,
                     last_byte_readahead := s.last_byte_readahead + length })) := by
  obtain ⟨_, hlbr, _, _, hra, _, _⟩ := hwf
  have e1 : u64 (s.last_byte_readahead + 1 + length) = s.last_byte_readahead + 1 + length :=
    u64_of_lt _ h1
  have e2 : u64 (s.ra_ongoing + length) = s.ra_ongoing + length := u64_of_lt _ h2
  have e3 : u64 (s.last_byte_readahead + 1) = s.last_byte_readahead + 1 :=
    u64_of_lt _ (by omega)
  have e4 : u64 (s.last_byte_readahead + length) = s.last_byte_readahead + length :=
    u64_of_lt _ (by omega)
  have e5 : u64_sub (s.ra_ongoing + length) length = s.ra_ongoing := by
    rw [u64_sub_of_le _ _ h2 (by omega)]
    omega
  have hundo : ({ s with ra_ongoing := u64_sub (s.ra_ongoing + length) length } : ra_state) = s :=
    ra_state_with_ra_ongoing_self s _ e5
  refine ⟨?_, ?_, ?_, ?_⟩
  · intro hmax
    unfold ra_state.get_next_ra
    rw [e1, if_pos hmax]
  · intro hseq
    unfold ra_state.get_next_ra
    rw [e1, hseq]
    split <;> rfl
  · intro hseq hcap
    unfold ra_state.get_next_ra
    rw [e1, hseq, e2]
    split
    · rfl
    · simp only [if_pos hcap, hundo]
  · intro hmax hseq hcap
    refine ⟨by omega, ?_⟩
    unfold ra_state.get_next_ra
    rw [e1, hseq, e2, e3, e4, if_neg hmax]
    simp only [if_neg hcap]

/-- Witness for C7 (amended): after three back-to-back 64 KiB reads (readahead window 128 KiB),
`get_next_ra(65536)` recommends offset 196608 and reserves 65536 bytes. -/
theorem get_next_ra_cases_witness :
    (196607 : Nat) + 1 ≠ 0 ∧
    ({ ra_bytes := 131072, last_byte_readahead := 196607, min_byte_read := 0,
       max_byte_read := 196607, ra_ongoing := 0, num_reads := 3,
       num_bytes_read := 196608 } : ra_state).get_next_ra sample_max_file_size 65536
      = some (196607 + 1,
          { ra_bytes := 131072, last_byte_readahead := 196607 + 65536, min_byte_read := 0,
            max_byte_read := 196607, ra_ongoing := 0 + 65536, num_reads := 3,
            num_bytes_read := 196608 }) :=
  (get_next_ra_cases sample_max_file_size
    { ra_bytes := 131072, last_byte_readahead := 196607, min_byte_read := 0,
      max_byte_read := 196607, ra_ongoing := 0, num_reads := 3, num_bytes_read := 196608 }
    65536 (by unfold ra_state.wf; decide) (by decide) (by decide)).2.2.2
    (by decide) (by decide) (by decide)

/-- C7 (as stated) fails: in the state reached by three back-to-back 64 KiB reads and one
`get_next_ra(1)`, the call `get_next_ra(2^64 - 1)` has
`last_byte_readahead + 1 + length > AZNFSC_MAX_FILE_SIZE`, yet both 64-bit sums wrap and the
call returns the non-zero offset 196609, moves `last_byte_readahead` from 196608 back to 196607
and changes `ra_ongoing` from 1 to 0. -/
theorem get_next_ra_wraps :
    let s : ra_state :=
      { ra_bytes := 131072, last_byte_readahead := 196608, min_byte_read := 0,
        max_byte_read := 196607, ra_ongoing := 1, num_reads := 3, num_bytes_read := 196608 }
    0 < UINT64_MAX ∧
    sample_max_file_size < s.last_byte_readahead + 1 + UINT64_MAX ∧
    s.get_next_ra sample_max_file_size UINT64_MAX
      = some (196609, { s with last_byte_readahead := 196607, ra_ongoing := 0 }) := by
  decide


/-- The `read_gap` the code computes is the distance between `offset` and `max_byte_read`
whenever that distance is below `2^63`. -/
theorem read_gap_eq (offset m : Nat) (ho : offset < 18446744073709551616)
    (hm : m < 18446744073709551616)
    (hd : ((offset : Int) - (m : Int)).natAbs < 9223372036854775808) :
    (to_int64 (u64_sub offset m)).natAbs = ((offset : Int) - (m : Int)).natAbs := by
  unfold to_int64 u64_sub
  split <;> omega

/-- A read in the same section as `max_byte_read`, or in the next one, is less than `2^31`
bytes away from it. -/
theorem section_distance (offset m : Nat)
    (h : offset / SECTION_SIZE = m / SECTION_SIZE ∨ offset / SECTION_SIZE = m / SECTION_SIZE + 1) :
    ((offset : Int) - (m : Int)).natAbs < 2147483648 := by
  unfold SECTION_SIZE at h
  omega

/-- C9 (amended): with `read_gap = |offset - max_byte_read|`,
`curr_section = max_byte_read / SECTION_SIZE` and `this_section = offset / SECTION_SIZE`,
`on_application_read` resets the tracker when `read_gap > ra_bytes` or when `this_section` is
neither `curr_section` nor `curr_section + 1`; it does not reset for a read within `ra_bytes`
in the same section; and for a read within `ra_bytes` in the next section it resets exactly
when `is_sequential_nolock()` is false. A reset restarts the counters at this read; otherwise
the read is added to them. -/
theorem reset_readahead_cases (s : ra_state) (offset : Nat) (hwf : s.wf)
    (hoff : offset < 18446744073709551616) :
    ((s.ra_bytes < ((offset : Int) - (s.max_byte_read : Int)).natAbs ∨
        (offset / SECTION_SIZE ≠ s.max_byte_read / SECTION_SIZE ∧
          offset / SECTION_SIZE ≠ s.max_byte_read / SECTION_SIZE + 1)) →
      s.reset_readahead offset = some true) ∧
    (((offset : Int) - (s.max_byte_read : Int)).natAbs ≤ s.ra_bytes →
      offset / SECTION_SIZE = s.max_byte_read / SECTION_SIZE →
      s.reset_readahead offset = some false) ∧
    (((offset : Int) - (s.max_byte_read : Int)).natAbs ≤ s.ra_bytes →
      offset / SECTION_SIZE = s.max_byte_read / SECTION_SIZE + 1 →
      s.reset_readahead offset = s.is_sequential_nolock.map (fun b => !b)) ∧
    (∀ length : Nat, 0 < length → s.reset_readahead offset = some true →
      ∃ s1, s.on_application_read offset length = some s1 ∧ s1.num_reads = 1 ∧
        s1.num_bytes_read = length ∧ s1.min_byte_read = offset) ∧
    (∀ length : Nat, 0 < length → s.reset_readahead offset = some false →
      ∃ s1, s.on_application_read offset length = some s1 ∧
        s1.num_reads = u64 (s.num_reads + 1) ∧
        s1.num_bytes_read = u64 (s.num_bytes_read + length) ∧
        s1.min_byte_read = min s.min_byte_read offset) := by
  have hmax : s.max_byte_read < 18446744073709551616 := hwf.2.2.2.1
  refine ⟨?_, ?_, ?_, ?_, ?_⟩
  · intro h
    have hsec : s.ra_bytes < (to_int64 (u64_sub offset s.max_byte_read)).natAbs ∨
        (offset / SECTION_SIZE ≠ s.max_byte_read / SECTION_SIZE ∧
          offset / SECTION_SIZE ≠ s.max_byte_read / SECTION_SIZE + 1) := by
      by_cases hd : ((offset : Int) - (s.max_byte_read : Int)).natAbs < 9223372036854775808
      · rw [read_gap_eq offset s.max_byte_read hoff hmax hd]
        exact h
      · right
        constructor
        · intro e
          have := section_distance offset s.max_byte_read (Or.inl e)
          omega
        · intro e
          have := section_distance offset s.max_byte_read (Or.inr e)
          omega
    unfold ra_state.reset_readahead
    by_cases hg : (to_int64 (u64_sub offset s.max_byte_read)).natAbs > s.ra_bytes
    · simp only [if_pos hg]
    · have hs := hsec.resolve_left hg
      simp only [if_neg hg]
      rw [if_pos (fun e => hs.1 e.symm), if_pos hs.2]
  · intro hg hsec
    have hd := section_distance offset s.max_byte_read (Or.inl hsec)
    have hgap := read_gap_eq offset s.max_byte_read hoff hmax (by omega)
    unfold ra_state.reset_readahead
    simp only [hgap]
    rw [if_neg (by omega), if_neg (by simp [hsec])]
  · intro hg hsec
    have hd := section_distance offset s.max_byte_read (Or.inr hsec)
    have hgap := read_gap_eq offset s.max_byte_read hoff hmax (by omega)
    unfold ra_state.reset_readahead
    simp only [hgap]
    have hne : s.max_byte_read / SECTION_SIZE ≠ offset / SECTION_SIZE := by omega
    rw [if_neg (by omega), if_pos hne, if_neg (by simp [hsec])]
    cases s.is_sequential_nolock <;> rfl
  · intro length hlen hr
    have hl : length ≠ 0 := by omega
    unfold ra_state.on_application_read
    rw [if_neg hl, hr]
    simp only [if_true]
    split_ifs <;> exact ⟨_, rfl, rfl, rfl, rfl⟩
  · intro length hlen hr
    have hl : length ≠ 0 := by omega
    unfold ra_state.on_application_read
    rw [if_neg hl, hr]
    simp only [Bool.false_eq_true, if_false]
    split_ifs <;> exact ⟨_, rfl, rfl, rfl, rfl⟩

/-- Witness for C9 (amended): a tracker that has seen one 4 KiB read ending at the last byte of
section 0 is reset by the read that starts section 1, because it is not sequential yet. -/
theorem reset_readahead_cases_witness :
    ({ ra_bytes := 131072, last_byte_readahead := 1073741823, min_byte_read := 1073737728,
       max_byte_read := 1073741823, ra_ongoing := 0, num_reads := 1,
       num_bytes_read := 4096 } : ra_state).reset_readahead 1073741824
      = ({ ra_bytes := 131072, last_byte_readahead := 1073741823, min_byte_read := 1073737728,
           max_byte_read := 1073741823, ra_ongoing := 0, num_reads := 1,
           num_bytes_read := 4096 } : ra_state).is_sequential_nolock.map (fun b => !b) :=
  (reset_readahead_cases
    { ra_bytes := 131072, last_byte_readahead := 1073741823, min_byte_read := 1073737728,
      max_byte_read := 1073741823, ra_ongoing := 0, num_reads := 1, num_bytes_read := 4096 }
    1073741824 (by unfold ra_state.wf; decide) (by decide)).2.2.1
    (by decide) (by decide)

/-- C9 (as stated) fails: after a single 4 KiB read ending at the last byte of section 0, the
read at offset `2^30` is 1 byte away from `max_byte_read` (within `ra_bytes = 128 KiB`) and
falls in the next section, yet `on_application_read` resets the tracker: `num_reads` is 1 and
`min_byte_read` is the new offset afterwards. -/
theorem next_section_read_resets :
    let s : ra_state :=
      { ra_bytes := 131072, last_byte_readahead := 1073741823, min_byte_read := 1073737728,
        max_byte_read := 1073741823, ra_ongoing := 0, num_reads := 1, num_bytes_read := 4096 }
    (ra_state.create 128).on_application_read 1073737728 4096 = some s ∧
    ((1073741824 : Int) - (s.max_byte_read : Int)).natAbs ≤ s.ra_bytes ∧
    1073741824 / SECTION_SIZE = s.max_byte_read / SECTION_SIZE + 1 ∧
    s.reset_readahead 1073741824 = some true ∧
    s.on_application_read 1073741824 4096
      = some { ra_bytes := 131072, last_byte_readahead := 1073745919,
               min_byte_read := 1073741824, max_byte_read := 1073745919, ra_ongoing := 0,
               num_reads := 1, num_bytes_read := 4096 } := by
  decide


/-- An application read changes neither `ra_ongoing` nor `ra_bytes`. -/
theorem on_application_read_ra_ongoing (s s1 : ra_state) (offset length : Nat)
    (h : s.on_application_read offset length = some s1) :
    s1.ra_ongoing = s.ra_ongoing ∧ s1.ra_bytes = s.ra_bytes := by
  unfold ra_state.on_application_read at h
  by_cases hl : length = 0
  · rw [if_pos hl] at h
    cases h
    exact ⟨rfl, rfl⟩
  · rw [if_neg hl] at h
    cases hr : s.reset_readahead offset with
    | none => rw [hr] at h; cases h
    | some reset =>
      rw [hr] at h
      simp only [Option.some.injEq] at h
      rw [← h]
      cases reset <;> simp only [Bool.false_eq_true, if_false, if_true] <;>
        split_ifs <;> exact ⟨rfl, rfl⟩

/-- What `get_next_ra` can do to `ra_ongoing` when the reservation does not overflow: either it
returns 0 with `ra_ongoing` as before, or it keeps the reservation, which then fits in
`ra_bytes`. -/
theorem get_next_ra_ra_ongoing (AZNFSC_MAX_FILE_SIZE : Nat) (s s1 : ra_state) (length r : Nat)
    (h2 : s.ra_ongoing + length < 18446744073709551616)
    (h : s.get_next_ra AZNFSC_MAX_FILE_SIZE length = some (r, s1)) :
    s1.ra_bytes = s.ra_bytes ∧
    ((r = 0 ∧ s1.ra_ongoing = s.ra_ongoing) ∨
      (s1.ra_ongoing = s.ra_ongoing + length ∧ s.ra_ongoing + length ≤ s.ra_bytes)) := by
  have e2 : u64 (s.ra_ongoing + length) = s.ra_ongoing + length := u64_of_lt _ h2
  have e5 : u64_sub (s.ra_ongoing + length) length = s.ra_ongoing := by
    rw [u64_sub_of_le _ _ h2 (by omega)]
    omega
  unfold ra_state.get_next_ra at h
  simp only [e2, e5] at h
  by_cases hmax : u64 (s.last_byte_readahead + 1 + length) > AZNFSC_MAX_FILE_SIZE
  · rw [if_pos hmax] at h
    simp only [Option.some.injEq, Prod.mk.injEq] at h
    obtain ⟨hr, hs⟩ := h
    subst hs
    exact ⟨rfl, Or.inl ⟨hr.symm, rfl⟩⟩
  · rw [if_neg hmax] at h
    cases hseq : s.is_sequential with
    | none => rw [hseq] at h; cases h
    | some b =>
      rw [hseq] at h
      cases b with
      | false =>
        simp only [Option.some.injEq, Prod.mk.injEq] at h
        obtain ⟨hr, hs⟩ := h
        subst hs
        exact ⟨rfl, Or.inl ⟨hr.symm, rfl⟩⟩
      | true =>
        by_cases hcap : s.ra_ongoing + length > s.ra_bytes
        · simp only [if_pos hcap, Option.some.injEq, Prod.mk.injEq] at h
          obtain ⟨hr, hs⟩ := h
          subst hs
          exact ⟨rfl, Or.inl ⟨hr.symm, rfl⟩⟩
        · simp only [if_neg hcap, Option.some.injEq, Prod.mk.injEq] at h
          obtain ⟨_, hs⟩ := h
          subst hs
          exact ⟨rfl, Or.inr ⟨rfl, by omega⟩⟩

/-- Invariant behind the readahead cap: `ra_bytes` never changes, `ra_ongoing` stays within it,
and the outstanding recommended lengths add up to at most `ra_ongoing`. -/
theorem ra_reach_invariant (AZNFSC_MAX_FILE_SIZE : Nat) (_ra_kib : Int) (max_len : Nat)
    (hbound : (ra_state.create _ra_kib).ra_bytes + max_len < 18446744073709551616)
    (s : ra_state) (out : List Nat)
    (h : ra_reach AZNFSC_MAX_FILE_SIZE _ra_kib max_len s out) :
    s.ra_bytes = (ra_state.create _ra_kib).ra_bytes ∧ s.ra_ongoing ≤ s.ra_bytes ∧
      out.sum ≤ s.ra_ongoing := by
  induction h with
  | fresh => simp [ra_state.create]
  | app_read offset length _ _ _ hstep ih =>
    obtain ⟨hb, hle, hsum⟩ := ih
    obtain ⟨e1, e2⟩ := on_application_read_ra_ongoing _ _ _ _ hstep
    rw [e1, e2]
    exact ⟨hb, hle, hsum⟩
  | next_ra length r _ _ hmax _ hstep hr ih =>
    obtain ⟨hb, hle, hsum⟩ := ih
    obtain ⟨e1, e2⟩ := get_next_ra_ra_ongoing _ _ _ _ _ (by omega) hstep
    rcases e2 with ⟨hr0, _⟩ | ⟨e3, e4⟩
    · exact absurd hr0 hr
    · rw [e1, e3, List.sum_cons]
      exact ⟨hb, e4, by omega⟩
  | next_ra_zero length _ _ hmax _ hstep ih =>
    obtain ⟨hb, hle, hsum⟩ := ih
    obtain ⟨e1, e2⟩ := get_next_ra_ra_ongoing _ _ _ _ _ (by omega) hstep
    rcases e2 with ⟨_, e3⟩ | ⟨e3, e4⟩
    · rw [e1, e3]
      exact ⟨hb, hle, hsum⟩
    · rw [e1, e3]
      exact ⟨hb, e4, by omega⟩
  | @ra_complete s0 out0 offset length _ hmem ih =>
    obtain ⟨hb, hle, hsum⟩ := ih
    have herase : length + (out0.erase length).sum = out0.sum := List.sum_erase hmem
    have hsub : u64_sub s0.ra_ongoing length = s0.ra_ongoing - length :=
      u64_sub_of_le _ length (by omega) (by omega)
    simp only [ra_state.on_readahead_complete, hsub]
    exact ⟨hb, by omega, by omega⟩

/-- C10 (amended): in every state reachable from a fresh `ra_state` by any sequence of
`on_application_read`, `get_next_ra` and `on_readahead_complete` calls in which
`on_readahead_complete(_, length)` is called at most once per non-zero `get_next_ra(length)`
return and with that same length, and in which every length passed to `get_next_ra` satisfies
`ra_bytes + length < 2^64`, `ra_ongoing <= ra_bytes` holds. -/
theorem ra_ongoing_le_ra_bytes (AZNFSC_MAX_FILE_SIZE : Nat) (_ra_kib : Int) (max_len : Nat)
    (hbound : (ra_state.create _ra_kib).ra_bytes + max_len < 18446744073709551616)
    (s : ra_state) (out : List Nat)
    (h : ra_reach AZNFSC_MAX_FILE_SIZE _ra_kib max_len s out) :
    s.ra_ongoing ≤ s.ra_bytes :=
  (ra_reach_invariant AZNFSC_MAX_FILE_SIZE _ra_kib max_len hbound s out h).2.1


/-- Three back-to-back 64 KiB reads from offset 0 on a fresh state with a 128 KiB window, for
any bound on the `get_next_ra` lengths. -/
theorem ra_reach_three_reads (max_len : Nat) :
    ra_reach sample_max_file_size 128 max_len
      { ra_bytes := 131072, last_byte_readahead := 196607, min_byte_read := 0,
        max_byte_read := 196607, ra_ongoing := 0, num_reads := 3, num_bytes_read := 196608 }
      [] := by
  have r1 : ra_reach sample_max_file_size 128 max_len
      { ra_bytes := 131072, last_byte_readahead := 65535, min_byte_read := 0,
        max_byte_read := 65535, ra_ongoing := 0, num_reads := 1, num_bytes_read := 65536 } [] :=
    ra_reach.app_read 0 65536 ra_reach.fresh (by decide) (by decide) (by decide)
  have r2 : ra_reach sample_max_file_size 128 max_len
      { ra_bytes := 131072, last_byte_readahead := 131071, min_byte_read := 0,
        max_byte_read := 131071, ra_ongoing := 0, num_reads := 2, num_bytes_read := 131072 } [] :=
    ra_reach.app_read 65536 65536 r1 (by decide) (by decide) (by decide)
  exact ra_reach.app_read 131072 65536 r2 (by decide) (by decide) (by decide)

/-- Witness for C10 (amended): with `get_next_ra` lengths of at most 1 MiB, the state after
three sequential reads and one `get_next_ra(65536)` is reachable and within the cap. -/
theorem ra_ongoing_le_ra_bytes_witness :
    let s : ra_state :=
      { ra_bytes := 131072, last_byte_readahead := 262143, min_byte_read := 0,
        max_byte_read := 196607, ra_ongoing := 65536, num_reads := 3, num_bytes_read := 196608 }
    ra_reach sample_max_file_size 128 1048576 s [65536] ∧ s.ra_ongoing ≤ s.ra_bytes :=
  have hreach : ra_reach sample_max_file_size 128 1048576
      { ra_bytes := 131072, last_byte_readahead := 262143, min_byte_read := 0,
        max_byte_read := 196607, ra_ongoing := 65536, num_reads := 3, num_bytes_read := 196608 }
      [65536] :=
    ra_reach.next_ra 65536 196608 (ra_reach_three_reads 1048576) (by decide) (by decide)
      (by decide) (by decide) (by decide)
  ⟨hreach, ra_ongoing_le_ra_bytes sample_max_file_size 128 1048576 (by decide) _ _ hreach⟩

/-- C10 (as stated) fails: three sequential 64 KiB reads, `get_next_ra(1)` (returns 196608),
`get_next_ra(2^64 - 1)` (the reservation wraps, returns 196609) and then
`on_readahead_complete(196608, 1)` for the first recommendation reach a state with
`ra_ongoing = 2^64 - 1 > ra_bytes = 131072`; each completion matches a non-zero return. -/
theorem ra_ongoing_exceeds_ra_bytes :
    let s : ra_state :=
      { ra_bytes := 131072, last_byte_readahead := 196607, min_byte_read := 0,
        max_byte_read := 196607, ra_ongoing := 18446744073709551615, num_reads := 3,
        num_bytes_read := 196608 }
    ra_reach sample_max_file_size 128 UINT64_MAX s [UINT64_MAX] ∧ ¬ s.ra_ongoing ≤ s.ra_bytes := by
  have r4 : ra_reach sample_max_file_size 128 UINT64_MAX
      { ra_bytes := 131072, last_byte_readahead := 196608, min_byte_read := 0,
        max_byte_read := 196607, ra_ongoing := 1, num_reads := 3, num_bytes_read := 196608 }
      [1] :=
    ra_reach.next_ra 1 196608 (ra_reach_three_reads UINT64_MAX) (by decide) (by decide)
      (by decide) (by decide) (by decide)
  have r5 : ra_reach sample_max_file_size 128 UINT64_MAX
      { ra_bytes := 131072, last_byte_readahead := 196607, min_byte_read := 0,
        max_byte_read := 196607, ra_ongoing := 0, num_reads := 3, num_bytes_read := 196608 }
      [UINT64_MAX, 1] :=
    ra_reach.next_ra UINT64_MAX 196609 r4 (by decide) (by decide) (by decide) (by decide)
      (by decide)
  have r6 := ra_reach.ra_complete 196608 1 r5 (by decide)
  exact ⟨r6, by decide⟩

/-! ## Readahead traces -/

/-- A fresh state holds `uint64_t` values. -/
theorem ra_state_create_wf (_ra_kib : Int) : (ra_state.create _ra_kib).wf := by
  unfold ra_state.wf ra_state.create int_to_u64 UINT64_MAX
  refine ⟨?_, ?_, ?_, ?_, ?_, ?_, ?_⟩ <;> simp only <;> omega

/-- An application read keeps every member within 64 bits. -/
theorem on_application_read_wf (s s1 : ra_state) (offset length : Nat) (hwf : s.wf)
    (ho : offset ≤ UINT64_MAX) (hl : length ≤ UINT64_MAX)
    (h : s.on_application_read offset length = some s1) : s1.wf := by
  obtain ⟨h1, h2, h3, h4, h5, h6, h7⟩ := hwf
  unfold UINT64_MAX at ho hl
  unfold ra_state.on_application_read at h
  by_cases hz : length = 0
  · rw [if_pos hz] at h
    cases h
    exact ⟨h1, h2, h3, h4, h5, h6, h7⟩
  · rw [if_neg hz] at h
    cases hr : s.reset_readahead offset with
    | none => rw [hr] at h; cases h
    | some reset =>
      rw [hr] at h
      simp only [Option.some.injEq] at h
      rw [← h]
      have hu : u64_sub (u64 (offset + length)) 1 < 18446744073709551616 := by
        unfold u64_sub
        omega
      have hn : u64 (s.num_reads + 1) < 18446744073709551616 := by
        unfold u64
        omega
      have hb : u64 (s.num_bytes_read + length) < 18446744073709551616 := by
        unfold u64
        omega
      cases reset <;> simp only [Bool.false_eq_true, if_false, if_true] <;>
        split_ifs <;> unfold ra_state.wf <;> simp only <;>
        refine ⟨h1, ?_, ?_, ?_, h5, ?_, ?_⟩ <;> omega

/-- Reporting a completion keeps every member within 64 bits. -/
theorem on_readahead_complete_wf (s : ra_state) (offset length : Nat) (hwf : s.wf) :
    (s.on_readahead_complete offset length).wf := by
  obtain ⟨h1, h2, h3, h4, _, h6, h7⟩ := hwf
  unfold ra_state.on_readahead_complete ra_state.wf u64_sub
  simp only
  refine ⟨h1, h2, h3, h4, ?_, h6, h7⟩
  omega

/-- The outcomes of `get_next_ra`: either 0 is returned and only `ra_ongoing` may have been
rewritten, or the pattern is sequential and the reservation is kept. -/
theorem get_next_ra_outcomes (AZNFSC_MAX_FILE_SIZE : Nat) (s s1 : ra_state) (length r : Nat)
    (h : s.get_next_ra AZNFSC_MAX_FILE_SIZE length = some (r, s1)) :
    (r = 0 ∧ (s1 = s ∨
        s1 = { s with ra_ongoing := u64_sub (u64 (s.ra_ongoing + length)) length })) ∨
    (s.is_sequential = some true ∧ r = u64 (s.last_byte_readahead + 1) ∧
      s1 = { s with ra_ongoing := u64 (s.ra_ongoing + length),
                    last_byte_readahead := u64 (s.last_byte_readahead + length) }) := by
  unfold ra_state.get_next_ra at h
  by_cases hmax : u64 (s.last_byte_readahead + 1 + length) > AZNFSC_MAX_FILE_SIZE
  · rw [if_pos hmax] at h
    simp only [Option.some.injEq, Prod.mk.injEq] at h
    exact Or.inl ⟨h.1.symm, Or.inl h.2.symm⟩
  · rw [if_neg hmax] at h
    cases hseq : s.is_sequential with
    | none => rw [hseq] at h; cases h
    | some b =>
      rw [hseq] at h
      cases b with
      | false =>
        simp only [Option.some.injEq, Prod.mk.injEq] at h
        exact Or.inl ⟨h.1.symm, Or.inl h.2.symm⟩
      | true =>
        by_cases hcap : u64 (s.ra_ongoing + length) > s.ra_bytes
        · simp only [if_pos hcap, Option.some.injEq, Prod.mk.injEq] at h
          exact Or.inl ⟨h.1.symm, Or.inr h.2.symm⟩
        · simp only [if_neg hcap, Option.some.injEq, Prod.mk.injEq] at h
          exact Or.inr ⟨rfl, h.1.symm, h.2.symm⟩

/-- `get_next_ra` keeps every member within 64 bits. -/
theorem get_next_ra_wf (AZNFSC_MAX_FILE_SIZE : Nat) (s s1 : ra_state) (length r : Nat)
    (hwf : s.wf) (h : s.get_next_ra AZNFSC_MAX_FILE_SIZE length = some (r, s1)) : s1.wf := by
  obtain ⟨h1, h2, h3, h4, h5, h6, h7⟩ := hwf
  have ha : u64_sub (u64 (s.ra_ongoing + length)) length < 18446744073709551616 := by
    unfold u64_sub
    omega
  have hb : u64 (s.ra_ongoing + length) < 18446744073709551616 := by
    unfold u64
    omega
  have hc : u64 (s.last_byte_readahead + length) < 18446744073709551616 := by
    unfold u64
    omega
  rcases get_next_ra_outcomes _ _ _ _ _ h with ⟨_, hs | hs⟩ | ⟨_, _, hs⟩
  · rw [hs]
    exact ⟨h1, h2, h3, h4, h5, h6, h7⟩
  · rw [hs]
    exact ⟨h1, h2, h3, h4, ha, h6, h7⟩
  · rw [hs]
    exact ⟨h1, hc, h3, h4, hb, h6, h7⟩

/-- An application read that does not reset the tracker never lowers
`last_byte_readahead`. -/
theorem on_application_read_noreset_lbr (s s1 : ra_state) (offset length : Nat)
    (hr : s.reset_readahead offset = some false)
    (h : s.on_application_read offset length = some s1) :
    s.last_byte_readahead ≤ s1.last_byte_readahead := by
  unfold ra_state.on_application_read at h
  by_cases hz : length = 0
  · rw [if_pos hz] at h
    cases h
    exact Nat.le_refl _
  · rw [if_neg hz, hr] at h
    simp only [Bool.false_eq_true, if_false, Option.some.injEq] at h
    rw [← h]
    split_ifs with hlt
    · exact Nat.le_of_lt hlt
    · exact Nat.le_refl _

/-- After an application read of positive length, `last_byte_readahead` is not below
`max_byte_read`. -/
theorem on_application_read_lbr_ge (s s1 : ra_state) (offset length : Nat) (hl : 0 < length)
    (h : s.on_application_read offset length = some s1) :
    s1.max_byte_read ≤ s1.last_byte_readahead := by
  unfold ra_state.on_application_read at h
  have hz : length ≠ 0 := by omega
  rw [if_neg hz] at h
  cases hr : s.reset_readahead offset with
  | none => rw [hr] at h; cases h
  | some reset =>
    rw [hr] at h
    simp only [Option.some.injEq] at h
    rw [← h]
    cases reset <;> simp only [Bool.false_eq_true, if_false, if_true] <;>
      split_ifs with hlt <;> simp only at hlt ⊢ <;> omega

/-- Invariant behind C11: the state stays within 64 bits, `last_byte_readahead` has not
decreased, every recommended range ends at or before `last_byte_readahead + 1`, and the
recommended ranges are ordered. -/
theorem ra_steps_noreset_invariant (AZNFSC_MAX_FILE_SIZE max_sum : Nat) (s0 s : ra_state)
    (evs : List ra_event) (hsum : max_sum ≤ UINT64_MAX) (hwf : s0.wf)
    (h : ra_steps AZNFSC_MAX_FILE_SIZE max_sum s0 evs s)
    (hnoreset : ∀ o l, ra_event.read o l true ∉ evs) :
    s.wf ∧ s0.last_byte_readahead ≤ s.last_byte_readahead ∧
    (∀ p ∈ ra_returns evs, p.1 + p.2 ≤ s.last_byte_readahead + 1) ∧
    (ra_returns evs).Pairwise (fun later earlier => earlier.1 + earlier.2 ≤ later.1) := by
  induction h with
  | start => exact ⟨hwf, Nat.le_refl _, by simp [ra_returns], by simp [ra_returns]⟩
  | @app_read s s1 evs offset length reset _ hlen ho hl hr hstep ih =>
    have hno : ∀ o l, ra_event.read o l true ∉ evs := fun o l hm =>
      hnoreset o l (List.mem_cons_of_mem _ hm)
    obtain ⟨iwf, ile, iend, ipw⟩ := ih hno
    have hreset : reset = false := by
      cases reset with
      | false => rfl
      | true => exact absurd (List.mem_cons_self _ _) (hnoreset offset length)
    subst hreset
    have hmono := on_application_read_noreset_lbr s s1 offset length hr hstep
    refine ⟨on_application_read_wf s s1 offset length iwf ho hl hstep, by omega, ?_, ?_⟩
    · intro p hp
      have := iend p (by simpa [ra_returns] using hp)
      omega
    · simpa [ra_returns] using ipw
  | @next_ra s s1 evs length r _ hlen hl hsm hstep ih =>
    have hno : ∀ o l, ra_event.read o l true ∉ evs := fun o l hm =>
      hnoreset o l (List.mem_cons_of_mem _ hm)
    obtain ⟨iwf, ile, iend, ipw⟩ := ih hno
    have hwf1 := get_next_ra_wf _ s s1 length r iwf hstep
    unfold UINT64_MAX at hsum hl
    have e1 : u64 (s.last_byte_readahead + 1) = s.last_byte_readahead + 1 :=
      u64_of_lt _ (by omega)
    have e2 : u64 (s.last_byte_readahead + length) = s.last_byte_readahead + length :=
      u64_of_lt _ (by omega)
    rcases get_next_ra_outcomes _ _ _ _ _ hstep with ⟨hr0, hs | hs⟩ | ⟨_, hr1, hs⟩
    · subst hs
      refine ⟨hwf1, ile, ?_, ?_⟩
      · simpa [ra_returns, hr0] using iend
      · simpa [ra_returns, hr0] using ipw
    · rw [hs]
      refine ⟨by rw [← hs]; exact hwf1, ile, ?_, ?_⟩
      · simpa [ra_returns, hr0] using iend
      · simpa [ra_returns, hr0] using ipw
    · rw [e1] at hr1
      have hrne : r ≠ 0 := by omega
      have hlbr : s1.last_byte_readahead = s.last_byte_readahead + length := by
        rw [hs, e2]
      refine ⟨hwf1, by omega, ?_, ?_⟩
      · intro p hp
        simp only [ra_returns, hrne, ne_eq, not_false_eq_true, if_true, List.mem_cons] at hp
        rcases hp with hp | hp
        · subst hp
          simp only
          omega
        · have := iend p hp
          omega
      · simp only [ra_returns, hrne, ne_eq, not_false_eq_true, if_true, List.pairwise_cons]
        refine ⟨?_, ipw⟩
        intro p hp
        have := iend p hp
        omega
  | @ra_complete s evs offset length _ ih =>
    have hno : ∀ o l, ra_event.read o l true ∉ evs := fun o l hm =>
      hnoreset o l (List.mem_cons_of_mem _ hm)
    obtain ⟨iwf, ile, iend, ipw⟩ := ih hno
    refine ⟨on_readahead_complete_wf s offset length iwf, ile, ?_, ?_⟩
    · simpa [ra_returns] using iend
    · simpa [ra_returns] using ipw

/-- C11 (amended): over any sequence of calls, from any state, that contains no resetting
`on_application_read` and in which no `get_next_ra` call is made with
`last_byte_readahead + 1 + length` beyond `UINT64_MAX`, `last_byte_readahead` never
decreases, and for any two non-zero `get_next_ra` returns `o1` (requested length `l1`, earlier)
and `o2` (later), `o2 >= o1 + l1`. -/
theorem last_byte_readahead_monotone (AZNFSC_MAX_FILE_SIZE max_sum : Nat) (s0 s : ra_state)
    (evs : List ra_event) (hsum : max_sum ≤ UINT64_MAX) (hwf : s0.wf)
    (h : ra_steps AZNFSC_MAX_FILE_SIZE max_sum s0 evs s)
    (hnoreset : ∀ o l, ra_event.read o l true ∉ evs) :
    s0.last_byte_readahead ≤ s.last_byte_readahead ∧
    (ra_returns evs).Pairwise (fun later earlier => earlier.1 + earlier.2 ≤ later.1) :=
  have hinv := ra_steps_noreset_invariant AZNFSC_MAX_FILE_SIZE max_sum s0 s evs hsum hwf h
    hnoreset
  ⟨hinv.2.1, hinv.2.2.2⟩

/-- Witness for C11 (amended): after three sequential 64 KiB reads, two calls
`get_next_ra(65536)` return 196608 and then 262144 and move `last_byte_readahead` from 196607
to 327679. -/
theorem last_byte_readahead_monotone_witness :
    (196607 : Nat) ≤ 327679 ∧
    (ra_returns [ra_event.next_ra 65536 262144, ra_event.next_ra 65536 196608]).Pairwise
      (fun later earlier => earlier.1 + earlier.2 ≤ later.1) :=
  have r0 : ra_steps sample_max_file_size UINT64_MAX _ [] _ := ra_steps.start
    { ra_bytes := 131072, last_byte_readahead := 196607, min_byte_read := 0,
      max_byte_read := 196607, ra_ongoing := 0, num_reads := 3, num_bytes_read := 196608 }
  have r1 : ra_steps sample_max_file_size UINT64_MAX _ _
      { ra_bytes := 131072, last_byte_readahead := 262143, min_byte_read := 0,
        max_byte_read := 196607, ra_ongoing := 65536, num_reads := 3,
        num_bytes_read := 196608 } :=
    ra_steps.next_ra 65536 196608 r0 (by decide) (by decide) (by decide) (by decide)
  have r2 : ra_steps sample_max_file_size UINT64_MAX _ _
      { ra_bytes := 131072, last_byte_readahead := 327679, min_byte_read := 0,
        max_byte_read := 196607, ra_ongoing := 131072, num_reads := 3,
        num_bytes_read := 196608 } :=
    ra_steps.next_ra 65536 262144 r1 (by decide) (by decide) (by decide) (by decide)
  last_byte_readahead_monotone sample_max_file_size UINT64_MAX _ _ _ (Nat.le_refl _)
    (by unfold ra_state.wf; decide) r2 (fun _ _ hm => by simp at hm)

/-- C11 (as stated) fails: from the state after three sequential 64 KiB reads, with no
application read in between, `get_next_ra(1)` returns 196608, `get_next_ra(2^64 - 1)` returns
196609 and wraps `last_byte_readahead` from 196608 back to 196607, and `get_next_ra(1)` then
returns 196608 again, which is below `196609 + (2^64 - 1)` and below `196608 + 1`. -/
theorem last_byte_readahead_decreases :
    let s : ra_state :=
      { ra_bytes := 131072, last_byte_readahead := 196607, min_byte_read := 0,
        max_byte_read := 196607, ra_ongoing := 0, num_reads := 3, num_bytes_read := 196608 }
    ra_run sample_max_file_size s [ra_call.next_ra 1]
      = some ({ s with last_byte_readahead := 196608, ra_ongoing := 1 }, [196608]) ∧
    ra_run sample_max_file_size s [ra_call.next_ra 1, ra_call.next_ra UINT64_MAX]
      = some ({ s with last_byte_readahead := 196607, ra_ongoing := 0 }, [196608, 196609]) ∧
    ra_run sample_max_file_size s
        [ra_call.next_ra 1, ra_call.next_ra UINT64_MAX, ra_call.next_ra 1]
      = some ({ s with last_byte_readahead := 196608, ra_ongoing := 1 },
          [196608, 196609, 196608]) ∧
    ¬ (196608 + 1 ≤ 196608) := by
  decide

/-- `is_sequential_nolock` is false while fewer than three reads are counted. -/
theorem is_sequential_of_few_reads (s : ra_state) (h : s.num_reads < 3) :
    s.is_sequential = some false := by
  unfold ra_state.is_sequential ra_state.is_sequential_nolock
  rw [if_pos h]

/-- A sequential verdict needs at least three counted reads. -/
theorem num_reads_of_is_sequential (s : ra_state) (h : s.is_sequential = some true) :
    3 ≤ s.num_reads := by
  by_contra hlt
  rw [is_sequential_of_few_reads s (by omega)] at h
  cases h

/-- Invariant behind C12: from a fresh state, either `last_byte_readahead` has caught up with
`max_byte_read`, or fewer than three reads are counted (so nothing is recommended). -/
theorem ra_steps_not_behind_invariant (AZNFSC_MAX_FILE_SIZE max_sum : Nat) (_ra_kib : Int)
    (s : ra_state) (evs : List ra_event) (hsum : max_sum ≤ UINT64_MAX)
    (h : ra_steps AZNFSC_MAX_FILE_SIZE max_sum (ra_state.create _ra_kib) evs s) :
    s.wf ∧ (s.max_byte_read ≤ s.last_byte_readahead ∨ s.num_reads < 3) := by
  generalize hs0 : ra_state.create _ra_kib = s0 at h
  induction h with
  | start =>
    subst hs0
    exact ⟨ra_state_create_wf _ra_kib, Or.inr (by simp [ra_state.create])⟩
  | @app_read s s1 evs offset length reset _ hlen ho hl hr hstep ih =>
    obtain ⟨iwf, _⟩ := ih
    exact ⟨on_application_read_wf s s1 offset length iwf ho hl hstep,
      Or.inl (on_application_read_lbr_ge s s1 offset length hlen hstep)⟩
  | @next_ra s s1 evs length r _ hlen hl hsm hstep ih =>
    obtain ⟨iwf, idis⟩ := ih
    have hwf1 := get_next_ra_wf _ s s1 length r iwf hstep
    unfold UINT64_MAX at hsum hl
    have e2 : u64 (s.last_byte_readahead + length) = s.last_byte_readahead + length :=
      u64_of_lt _ (by omega)
    rcases get_next_ra_outcomes _ _ _ _ _ hstep with ⟨_, hs | hs⟩ | ⟨hseq, _, hs⟩
    · subst hs
      exact ⟨hwf1, idis⟩
    · refine ⟨hwf1, ?_⟩
      rw [hs]
      exact idis
    · refine ⟨hwf1, ?_⟩
      have h3 := num_reads_of_is_sequential s hseq
      rw [hs]
      simp only [e2]
      left
      rcases idis with hle | hlt
      · omega
      · omega
  | @ra_complete s evs offset length _ ih =>
    obtain ⟨iwf, idis⟩ := ih
    exact ⟨on_readahead_complete_wf s offset length iwf, idis⟩

/-- C12 (amended): in every state reached from a fresh `ra_state` by calls with positive
lengths in which no `get_next_ra` call is made with `last_byte_readahead + 1 + length` beyond
`UINT64_MAX`: right after an `on_application_read` call (resetting or not)
`last_byte_readahead >= max_byte_read`, and every non-zero offset returned by `get_next_ra` is
strictly greater than `max_byte_read`. -/
theorem readahead_not_behind (AZNFSC_MAX_FILE_SIZE max_sum : Nat) (_ra_kib : Int)
    (s : ra_state) (evs : List ra_event) (hsum : max_sum ≤ UINT64_MAX)
    (h : ra_steps AZNFSC_MAX_FILE_SIZE max_sum (ra_state.create _ra_kib) evs s) :
    (∀ offset length reset rest, evs = ra_event.read offset length reset :: rest →
      s.max_byte_read ≤ s.last_byte_readahead) ∧
    (∀ length r s1, s.get_next_ra AZNFSC_MAX_FILE_SIZE length = some (r, s1) → r ≠ 0 →
      s.max_byte_read < r ∧ s1.max_byte_read = s.max_byte_read) := by
  obtain ⟨hwf, hdis⟩ := ra_steps_not_behind_invariant AZNFSC_MAX_FILE_SIZE max_sum _ra_kib s evs
    hsum h
  constructor
  · intro offset length reset rest hev
    cases h with
    | start => cases hev
    | app_read o l rs hprev hlen _ _ _ hstep =>
      exact on_application_read_lbr_ge _ s o l hlen hstep
    | next_ra => cases hev
    | ra_complete => cases hev
  · intro length r s1 hcall hr
    rcases get_next_ra_outcomes _ _ _ _ _ hcall with ⟨hr0, _⟩ | ⟨hseq, hr1, hs⟩
    · exact absurd hr0 hr
    · have h3 := num_reads_of_is_sequential s hseq
      have hlbr : s.last_byte_readahead < 18446744073709551616 := hwf.2.1
      have hle : s.max_byte_read ≤ s.last_byte_readahead := by
        rcases hdis with hle | hlt
        · exact hle
        · omega
      refine ⟨?_, by rw [hs]⟩
      unfold u64 at hr1
      omega

/-- Witness for C12 (amended): after the first 64 KiB read on a fresh state with a 128 KiB
window, `last_byte_readahead` equals `max_byte_read`. -/
theorem readahead_not_behind_witness :
    let s : ra_state :=
      { ra_bytes := 131072, last_byte_readahead := 65535, min_byte_read := 0,
        max_byte_read := 65535, ra_ongoing := 0, num_reads := 1, num_bytes_read := 65536 }
    ra_steps sample_max_file_size UINT64_MAX (ra_state.create 128)
      [ra_event.read 0 65536 true] s ∧ s.max_byte_read ≤ s.last_byte_readahead :=
  have r1 : ra_steps sample_max_file_size UINT64_MAX (ra_state.create 128)
      [ra_event.read 0 65536 true]
      { ra_bytes := 131072, last_byte_readahead := 65535, min_byte_read := 0,
        max_byte_read := 65535, ra_ongoing := 0, num_reads := 1, num_bytes_read := 65536 } :=
    ra_steps.app_read 0 65536 true (ra_steps.start _) (by decide) (by decide) (by decide)
      (by decide) (by decide)
  ⟨r1, (readahead_not_behind sample_max_file_size UINT64_MAX 128 _ _ (Nat.le_refl _) r1).1
    0 65536 true [] rfl⟩

/-- C12 (as stated) fails: on a fresh state with a 128 KiB window, three sequential 64 KiB
reads, `get_next_ra(1)`, a fourth sequential read, and `get_next_ra(2^64 - 1)` (which wraps
`last_byte_readahead` to one below `max_byte_read`) are followed by a `get_next_ra(1)` that
returns 262143, the value of `max_byte_read`: a byte the application has already requested. -/
theorem readahead_returns_max_byte_read :
    let s : ra_state :=
      { ra_bytes := 131072, last_byte_readahead := 262143, min_byte_read := 0,
        max_byte_read := 262143, ra_ongoing := 1, num_reads := 4, num_bytes_read := 262144 }
    ra_run sample_max_file_size (ra_state.create 128)
        [ra_call.app_read 0 65536, ra_call.app_read 65536 65536, ra_call.app_read 131072 65536,
         ra_call.next_ra 1, ra_call.app_read 196608 65536, ra_call.next_ra UINT64_MAX,
         ra_call.next_ra 1]
      = some (s, [196608, 262144, 262143]) ∧
    ¬ (s.max_byte_read < 262143) := by
  decide

/-- C13: with a 128 KiB window, application reads at the increasing offsets 0, 65536, 131072,
327680, 393216, 425984 and every readahead reported complete with its own length,
`get_next_ra(131072)` returns 196608, 327680, 458752 and then 458752 again: the read at 327680
is more than `ra_bytes` past `max_byte_read`, so it resets `last_byte_readahead`, which had
run ahead to 589823, and the next two reads bring it to 458751. -/
theorem get_next_ra_repeats_offset :
    ra_run sample_max_file_size (ra_state.create 128)
        [ra_call.app_read 0 65536, ra_call.app_read 65536 65536, ra_call.app_read 131072 65536,
         ra_call.next_ra 131072, ra_call.ra_complete 196608 131072,
         ra_call.next_ra 131072, ra_call.ra_complete 327680 131072,
         ra_call.next_ra 131072, ra_call.ra_complete 458752 131072,
         ra_call.app_read 327680 65536, ra_call.app_read 393216 32768,
         ra_call.app_read 425984 32768,
         ra_call.next_ra 131072]
      = some ({ ra_bytes := 131072, last_byte_readahead := 589823, min_byte_read := 327680,
                max_byte_read := 458751, ra_ongoing := 131072, num_reads := 3,
                num_bytes_read := 131072 },
              [196608, 327680, 458752, 458752]) := by
  decide

/-! ## Readahead scenarios -/

/-- The first read at offset 0 on a tracker that has seen no read resets it. -/
theorem reset_readahead_first_read (B : Nat) :
    ({ ra_bytes := B, last_byte_readahead := 0, min_byte_read := 0,
       max_byte_read := UINT64_MAX, ra_ongoing := 0, num_reads := 0,
       num_bytes_read := 0 } : ra_state).reset_readahead 0 = some true := by
  unfold ra_state.reset_readahead
  simp only
  have hgap : (to_int64 (u64_sub 0 UINT64_MAX)).natAbs = 1 := by decide
  have hcurr : UINT64_MAX / SECTION_SIZE = 17179869183 := by decide
  have hthis : 0 / SECTION_SIZE = 0 := by decide
  rw [hgap, hcurr, hthis]
  by_cases hB : 1 > B
  · rw [if_pos hB]
  · rw [if_neg hB, if_pos (by decide), if_pos (by decide)]

/-- The state after `j ≥ 1` back-to-back reads of `L` bytes from offset 0 within the first
section: all `j * L` bytes are counted and `last_byte_readahead` sits on the last byte read. -/
theorem back_to_back_reads_state (B L : Nat) (hB : 1 ≤ B) (hL : 1 ≤ L) :
    ∀ j : Nat, (j + 1) * L ≤ SECTION_SIZE →
      back_to_back_reads
          { ra_bytes := B, last_byte_readahead := 0, min_byte_read := 0,
            max_byte_read := UINT64_MAX, ra_ongoing := 0, num_reads := 0, num_bytes_read := 0 }
          L (j + 1)
        = some { ra_bytes := B, last_byte_readahead := (j + 1) * L - 1, min_byte_read := 0,
                 max_byte_read := (j + 1) * L - 1, ra_ongoing := 0, num_reads := j + 1,
                 num_bytes_read := (j + 1) * L } := by
  intro j
  induction j with
  | zero =>
    intro hsec
    unfold SECTION_SIZE at hsec
    simp only [Nat.zero_add, Nat.one_mul] at hsec ⊢
    have hsub : u64_sub (u64 (0 + L)) 1 = L - 1 := by
      unfold u64_sub u64
      omega
    simp only [back_to_back_reads, Nat.zero_mul]
    unfold ra_state.on_application_read
    rw [if_neg (by omega), reset_readahead_first_read B]
    simp only [if_true, hsub]
    split_ifs with hlt
    · rfl
    · have h0 : L - 1 = 0 := by omega
      rw [h0]
  | succ j ih =>
    intro hsec
    have hmul : (j + 1 + 1) * L = (j + 1) * L + L := Nat.succ_mul (j + 1) L
    have hj : j + 1 ≤ (j + 1) * L := Nat.le_mul_of_pos_right (j + 1) hL
    rw [hmul] at hsec ⊢
    unfold SECTION_SIZE at hsec
    have hprev := ih (by unfold SECTION_SIZE; omega)
    have hpos : 1 ≤ (j + 1) * L := by omega
    rw [back_to_back_reads, hprev]
    simp only
    generalize (j + 1) * L = n at hsec hpos hj ⊢
    have hsub : u64_sub n (n - 1) = 1 := by
      unfold u64_sub
      omega
    have hgap : (to_int64 (u64_sub n (n - 1))).natAbs = 1 := by
      rw [hsub]
      decide
    have hcurr : (n - 1) / SECTION_SIZE = 0 := by
      unfold SECTION_SIZE
      omega
    have hthis : n / SECTION_SIZE = 0 := by
      unfold SECTION_SIZE
      omega
    have hreset :
        ({ ra_bytes := B, last_byte_readahead := n - 1, min_byte_read := 0,
           max_byte_read := n - 1, ra_ongoing := 0, num_reads := j + 1,
           num_bytes_read := n } : ra_state).reset_readahead n = some false := by
      unfold ra_state.reset_readahead
      simp only [hgap, hcurr, hthis]
      rw [if_neg (by omega), if_neg (by simp)]
    have hend : u64_sub (n + L) 1 = n + L - 1 := by
      unfold u64_sub
      omega
    have hnr : u64 (j + 1 + 1) = j + 1 + 1 := u64_of_lt _ (by omega)
    have hnb : u64 (n + L) = n + L := u64_of_lt _ (by omega)
    unfold ra_state.on_application_read
    rw [if_neg (by omega), hreset]
    simp only [Bool.false_eq_true, if_false, hnr, hnb, hend]
    have hmax : max (n - 1) (n + L - 1) = n + L - 1 := by omega
    have hmin : min 0 n = 0 := by omega
    rw [hmax, hmin]
    rw [if_pos (by omega)]

/-- A tracker that has counted `k ≥ 3` reads covering exactly the bytes `0 .. n - 1`
(`3 ≤ n ≤ 2^30`) is sequential. -/
theorem is_sequential_of_contiguous (B lbr ra k n : Nat) (hk : 3 ≤ k) (hn : 3 ≤ n)
    (hsec : n ≤ SECTION_SIZE) :
    ({ ra_bytes := B, last_byte_readahead := lbr, min_byte_read := 0, max_byte_read := n - 1,
       ra_ongoing := ra, num_reads := k, num_bytes_read := n } : ra_state).is_sequential
      = some true := by
  unfold SECTION_SIZE at hsec
  have hsub : u64_sub (n - 1) 0 = n - 1 := by
    unfold u64_sub
    omega
  have hrange : int_to_u64 (to_int64 (n - 1)) = n - 1 := int_to_u64_to_int64 _ (by omega)
  have hmul : u64 (n * 100) = n * 100 := u64_of_lt _ (by omega)
  have hlow : 71 ≤ n * 100 / (n - 1) := (Nat.le_div_iff_mul_le (by omega)).2 (by omega)
  have hhigh : n * 100 / (n - 1) < 2147483648 :=
    (Nat.div_lt_iff_lt_mul (by omega)).2 (by omega)
  unfold ra_state.is_sequential ra_state.is_sequential_nolock
  simp only [hsub, hrange, hmul]
  rw [if_neg (by omega), if_neg (by omega), to_int32_of_lt _ hhigh]
  unfold ACCESS_DENSITY_MIN
  simp only [Option.some.injEq, decide_eq_true_eq]
  omega

/-- The window configured by the constructor for a `_ra_kib` it accepts. -/
theorem ra_state_create_ra_bytes (_ra_kib : Int) (h1 : 128 ≤ _ra_kib) (h2 : _ra_kib ≤ 1048576) :
    ra_state.create _ra_kib
      = { ra_bytes := (_ra_kib * 1024).toNat, last_byte_readahead := 0, min_byte_read := 0,
          max_byte_read := UINT64_MAX, ra_ongoing := 0, num_reads := 0, num_bytes_read := 0 } ∧
    131072 ≤ (_ra_kib * 1024).toNat ∧ (_ra_kib * 1024).toNat ≤ 1073741824 := by
  have e : int_to_u64 (to_int32 (_ra_kib * 1024)) = (_ra_kib * 1024).toNat := by
    unfold int_to_u64 to_int32
    omega
  refine ⟨?_, by omega, by omega⟩
  unfold ra_state.create
  rw [e]

/-- C14: on a fresh `ra_state` (constructed with `128 ≤ _ra_kib ≤ 1024 * 1024`), for every
`k >= 3` and read size `L` with `k * L > 101` and `k * L <= SECTION_SIZE`, the `k` back-to-back
reads `on_application_read(i * L, L)`, `i = 0 .. k - 1`, leave `is_sequential()` true; then for
every `len` with `0 < len <= ra_bytes` and `k * L + len <= AZNFSC_MAX_FILE_SIZE`,
`get_next_ra(len)` returns `k * L` and leaves `ra_ongoing == len`. -/
theorem readahead_activation (AZNFSC_MAX_FILE_SIZE : Nat) (_ra_kib : Int) (k L len : Nat)
    (hkib1 : 128 ≤ _ra_kib) (hkib2 : _ra_kib ≤ 1048576) (hk : 3 ≤ k) (hkL : 101 < k * L)
    (hsec : k * L ≤ SECTION_SIZE) (hlen : 0 < len)
    (hlen2 : len ≤ (ra_state.create _ra_kib).ra_bytes)
    (hmax : k * L + len ≤ AZNFSC_MAX_FILE_SIZE) :
    ∃ s s1 : ra_state,
      back_to_back_reads (ra_state.create _ra_kib) L k = some s ∧
      s.is_sequential = some true ∧
      s.get_next_ra AZNFSC_MAX_FILE_SIZE len = some (k * L, s1) ∧
      s1.ra_ongoing = len := by
  obtain ⟨hcreate, hB1, hB2⟩ := ra_state_create_ra_bytes _ra_kib hkib1 hkib2
  rw [hcreate] at hlen2 ⊢
  simp only at hlen2
  have hL : 1 ≤ L := by
    rcases Nat.eq_zero_or_pos L with h0 | hpos
    · rw [h0] at hkL
      simp at hkL
    · exact hpos
  obtain ⟨j, rfl⟩ : ∃ j, k = j + 1 := ⟨k - 1, by omega⟩
  have hstate := back_to_back_reads_state (_ra_kib * 1024).toNat L (by omega) hL j hsec
  generalize (j + 1) * L = n at hkL hsec hmax hstate
  have hseq := is_sequential_of_contiguous (_ra_kib * 1024).toNat (n - 1) 0 (j + 1) n hk
    (by omega) hsec
  unfold SECTION_SIZE at hsec
  have e1 : u64 (n - 1 + 1 + len) = n + len := by
    unfold u64
    omega
  have e2 : u64 (0 + len) = len := by
    unfold u64
    omega
  have e3 : u64 (n - 1 + 1) = n := by
    unfold u64
    omega
  refine ⟨_,
    { ra_bytes := (_ra_kib * 1024).toNat, last_byte_readahead := u64 (n - 1 + len),
      min_byte_read := 0, max_byte_read := n - 1, ra_ongoing := len, num_reads := j + 1,
      num_bytes_read := n }, hstate, hseq, ?_, rfl⟩
  unfold ra_state.get_next_ra
  simp only [e1, hseq, e2, e3]
  rw [if_neg (by omega), if_neg (by omega)]

/-- Witness for C14: `ra_bytes = 1 MiB`, three 64 KiB reads at 0, 64 KiB and 128 KiB, then
`get_next_ra(256 KiB)` returns 196608 and leaves `ra_ongoing == 262144`. -/
theorem readahead_activation_witness :
    ∃ s s1 : ra_state,
      back_to_back_reads (ra_state.create 1024) 65536 3 = some s ∧
      s.is_sequential = some true ∧
      s.get_next_ra sample_max_file_size 262144 = some (3 * 65536, s1) ∧
      s1.ra_ongoing = 262144 :=
  readahead_activation sample_max_file_size 1024 3 65536 262144 (by decide) (by decide)
    (by decide) (by decide) (by decide) (by decide) (by decide) (by decide)

/-- A read more than `ra_bytes` away from `max_byte_read` resets the tracker. -/
theorem reset_readahead_of_gap (s : ra_state) (offset : Nat) (hwf : s.wf)
    (hoff : offset < 18446744073709551616)
    (hgap : s.ra_bytes < ((offset : Int) - (s.max_byte_read : Int)).natAbs) :
    s.reset_readahead offset = some true := by
  have hmax : s.max_byte_read < 18446744073709551616 := hwf.2.2.2.1
  unfold ra_state.reset_readahead
  by_cases hg : (to_int64 (u64_sub offset s.max_byte_read)).natAbs > s.ra_bytes
  · simp only [if_pos hg]
  · simp only [if_neg hg]
    have hd : ¬ ((offset : Int) - (s.max_byte_read : Int)).natAbs < 9223372036854775808 := by
      intro hd
      rw [read_gap_eq offset s.max_byte_read hoff hmax hd] at hg
      exact hg hgap
    have hne : s.max_byte_read / SECTION_SIZE ≠ offset / SECTION_SIZE := by
      intro e
      have := section_distance offset s.max_byte_read (Or.inl e.symm)
      omega
    have hne2 : offset / SECTION_SIZE ≠ s.max_byte_read / SECTION_SIZE + 1 := by
      intro e
      have := section_distance offset s.max_byte_read (Or.inr e)
      omega
    rw [if_pos hne, if_pos hne2]

/-- While fewer than three reads are counted, `get_next_ra` returns 0 and changes nothing. -/
theorem get_next_ra_of_few_reads (AZNFSC_MAX_FILE_SIZE : Nat) (t : ra_state) (len : Nat)
    (h : t.num_reads < 3) : t.get_next_ra AZNFSC_MAX_FILE_SIZE len = some (0, t) := by
  unfold ra_state.get_next_ra
  rw [is_sequential_of_few_reads t h]
  split_ifs <;> rfl

/-- One application read on a tracker that counts one read leaves at most two counted. -/
theorem num_reads_after_second_read (t t1 : ra_state) (offset length : Nat)
    (hn : t.num_reads = 1) (h : t.on_application_read offset length = some t1) :
    t1.num_reads ≤ 2 := by
  unfold ra_state.on_application_read at h
  by_cases hz : length = 0
  · rw [if_pos hz] at h
    cases h
    omega
  · rw [if_neg hz] at h
    cases hr : t.reset_readahead offset with
    | none => rw [hr] at h; cases h
    | some reset =>
      rw [hr] at h
      simp only [Option.some.injEq] at h
      rw [← h]
      have hu : u64 (t.num_reads + 1) = 2 := by
        rw [hn]
        decide
      cases reset <;> simp only [Bool.false_eq_true, if_false, if_true] <;>
        split_ifs <;> simp only [hu] <;> omega

/-- C15: an `on_application_read` whose offset is more than `ra_bytes` away from
`max_byte_read` restarts tracking with `num_reads = 1`; after it, and still after one further
read, `is_sequential()` is false and `get_next_ra` returns 0 without changing the state,
whatever `ra_ongoing` is: at least two further reads are needed. (Holds for every `ra_bytes`,
in particular for those in [128 KiB, 1 GiB].) -/
theorem reset_disqualifies (AZNFSC_MAX_FILE_SIZE : Nat) (s : ra_state) (offset length : Nat)
    (hwf : s.wf) (hoff : offset < 18446744073709551616) (hlen : 0 < length)
    (hgap : s.ra_bytes < ((offset : Int) - (s.max_byte_read : Int)).natAbs) :
    ∃ s1 : ra_state,
      s.on_application_read offset length = some s1 ∧
      s1.num_reads = 1 ∧ s1.num_bytes_read = length ∧ s1.min_byte_read = offset ∧
      (∀ ra : Nat,
        ({ s1 with ra_ongoing := ra } : ra_state).is_sequential = some false ∧
        ∀ len, ({ s1 with ra_ongoing := ra } : ra_state).get_next_ra AZNFSC_MAX_FILE_SIZE len
          = some (0, { s1 with ra_ongoing := ra })) ∧
      (∀ (ra o2 l2 : Nat) (s2 : ra_state),
        ({ s1 with ra_ongoing := ra } : ra_state).on_application_read o2 l2 = some s2 →
        ∀ ra2 : Nat,
          ({ s2 with ra_ongoing := ra2 } : ra_state).is_sequential = some false ∧
          ∀ len, ({ s2 with ra_ongoing := ra2 } : ra_state).get_next_ra AZNFSC_MAX_FILE_SIZE len
            = some (0, { s2 with ra_ongoing := ra2 })) := by
  have hreset := reset_readahead_of_gap s offset hwf hoff hgap
  have hz : length ≠ 0 := by omega
  have hfew : ∀ t : ra_state, t.num_reads ≤ 2 →
      t.is_sequential = some false ∧
      ∀ len, t.get_next_ra AZNFSC_MAX_FILE_SIZE len = some (0, t) := fun t ht =>
    ⟨is_sequential_of_few_reads t (by omega),
      fun len => get_next_ra_of_few_reads AZNFSC_MAX_FILE_SIZE t len (by omega)⟩
  have hstep : ∃ s1 : ra_state, s.on_application_read offset length = some s1 ∧
      s1.num_reads = 1 ∧ s1.num_bytes_read = length ∧ s1.min_byte_read = offset := by
    unfold ra_state.on_application_read
    rw [if_neg hz, hreset]
    simp only [if_true]
    split_ifs <;> exact ⟨_, rfl, rfl, rfl, rfl⟩
  obtain ⟨s1, h1, hn, hb, hm⟩ := hstep
  refine ⟨s1, h1, hn, hb, hm, ?_, ?_⟩
  · intro ra
    exact hfew _ (by simp only; omega)
  · intro ra o2 l2 s2 h2 ra2
    have := num_reads_after_second_read _ s2 o2 l2 (by simp only; exact hn) h2
    exact hfew _ (by simp only; omega)

/-- Witness for C15: with a 128 KiB window, after a 1 GiB read at offset 0 the read at offset
2 GiB is more than `ra_bytes` away and restarts tracking. -/
theorem reset_disqualifies_witness :
    ∃ s1 : ra_state,
      ({ ra_bytes := 131072, last_byte_readahead := 1073741823, min_byte_read := 0,
         max_byte_read := 1073741823, ra_ongoing := 0, num_reads := 1,
         num_bytes_read := 1073741824 } : ra_state).on_application_read 2147483648 1073741824
        = some s1 ∧
      s1.num_reads = 1 ∧ s1.num_bytes_read = 1073741824 ∧ s1.min_byte_read = 2147483648 ∧
      (∀ ra : Nat,
        ({ s1 with ra_ongoing := ra } : ra_state).is_sequential = some false ∧
        ∀ len, ({ s1 with ra_ongoing := ra } : ra_state).get_next_ra sample_max_file_size len
          = some (0, { s1 with ra_ongoing := ra })) ∧
      (∀ (ra o2 l2 : Nat) (s2 : ra_state),
        ({ s1 with ra_ongoing := ra } : ra_state).on_application_read o2 l2 = some s2 →
        ∀ ra2 : Nat,
          ({ s2 with ra_ongoing := ra2 } : ra_state).is_sequential = some false ∧
          ∀ len, ({ s2 with ra_ongoing := ra2 } : ra_state).get_next_ra sample_max_file_size len
            = some (0, { s2 with ra_ongoing := ra2 })) :=
  reset_disqualifies sample_max_file_size
    { ra_bytes := 131072, last_byte_readahead := 1073741823, min_byte_read := 0,
      max_byte_read := 1073741823, ra_ongoing := 0, num_reads := 1,
      num_bytes_read := 1073741824 }
    2147483648 1073741824 (by unfold ra_state.wf; decide) (by decide) (by decide) (by decide)

/-- The scenario of C15 evaluated: 1 GiB reads at offsets 0, 2 GiB and 4 GiB on a fresh state
with a 128 KiB window, each followed by `is_sequential` being false and `get_next_ra`
returning 0. -/
theorem jumping_reads_scenario :
    ra_run sample_max_file_size (ra_state.create 128)
        [ra_call.app_read 0 1073741824, ra_call.next_ra 65536,
         ra_call.app_read 2147483648 1073741824, ra_call.next_ra 65536,
         ra_call.app_read 4294967296 1073741824, ra_call.next_ra 65536]
      = some ({ ra_bytes := 131072, last_byte_readahead := 5368709119,
                min_byte_read := 4294967296, max_byte_read := 5368709119, ra_ongoing := 0,
                num_reads := 1, num_bytes_read := 1073741824 }, [0, 0, 0]) ∧
    ({ ra_bytes := 131072, last_byte_readahead := 5368709119, min_byte_read := 4294967296,
       max_byte_read := 5368709119, ra_ongoing := 0, num_reads := 1,
       num_bytes_read := 1073741824 } : ra_state).is_sequential = some false := by
  decide

/-! ## Maps kept as lists of pairs -/

/-- A key that `map_find` does not find is the key of no pair. -/
theorem map_find_eq_none {K V : Type} [DecidableEq K] (m : List (K × V)) (k : K) :
    map_find m k = none ↔ ∀ p ∈ m, p.1 ≠ k := by
  induction m with
  | nil => simp [map_find]
  | cons hd tl ih =>
    obtain ⟨k1, v1⟩ := hd
    by_cases hk : k1 = k
    · simp [map_find, hk]
    · simp [map_find, hk, ih]

/-- What `map_find` returns is a pair of the list. -/
theorem map_find_mem {K V : Type} [DecidableEq K] (m : List (K × V)) (k : K) (v : V)
    (h : map_find m k = some v) : (k, v) ∈ m := by
  induction m with
  | nil => simp [map_find] at h
  | cons hd tl ih =>
    obtain ⟨k1, v1⟩ := hd
    by_cases hk : k1 = k
    · simp only [map_find, hk, if_true, Option.some.injEq] at h
      subst h
      subst hk
      exact List.mem_cons_self _ _
    · simp only [map_find, hk, if_false] at h
      exact List.mem_cons_of_mem _ (ih h)

/-- With unique keys, two pairs with the same key are the same pair. -/
theorem map_value_unique {K V : Type} (m : List (K × V)) (k : K) (v1 v2 : V)
    (hnd : (m.map Prod.fst).Nodup) (h1 : (k, v1) ∈ m) (h2 : (k, v2) ∈ m) : v1 = v2 := by
  induction m with
  | nil => cases h1
  | cons hd tl ih =>
    simp only [List.map_cons, List.nodup_cons, List.mem_map, not_exists, not_and] at hnd
    rcases List.mem_cons.1 h1 with e1 | m1
    · rcases List.mem_cons.1 h2 with e2 | m2
      · rw [← e2] at e1
        exact (Prod.mk.inj e1).2
      · exact absurd (by rw [← e1]) (hnd.1 (k, v2) m2)
    · rcases List.mem_cons.1 h2 with e2 | m2
      · exact absurd (by rw [← e2]) (hnd.1 (k, v1) m1)
      · exact ih hnd.2 m1 m2

/-- With unique keys, `map_find` returns exactly the values paired with the key. -/
theorem map_find_eq_some {K V : Type} [DecidableEq K] (m : List (K × V)) (k : K) (v : V)
    (hnd : (m.map Prod.fst).Nodup) : map_find m k = some v ↔ (k, v) ∈ m := by
  constructor
  · exact map_find_mem m k v
  · intro hmem
    cases hf : map_find m k with
    | none => exact absurd rfl ((map_find_eq_none m k).1 hf (k, v) hmem)
    | some w => rw [map_value_unique m k w v hnd (map_find_mem m k w hf) hmem]

/-- The pairs left by `map_erase` are those with another key. -/
theorem mem_map_erase {K V : Type} [DecidableEq K] (m : List (K × V)) (k : K) (q : K × V) :
    q ∈ map_erase m k ↔ q ∈ m ∧ q.1 ≠ k := by
  simp [map_erase, List.mem_filter]

/-- Erasing keeps keys unique. -/
theorem map_erase_nodup {K V : Type} [DecidableEq K] (m : List (K × V)) (k : K)
    (hnd : (m.map Prod.fst).Nodup) : ((map_erase m k).map Prod.fst).Nodup :=
  List.Nodup.sublist (List.Sublist.map Prod.fst (List.filter_sublist m)) hnd

/-- Erasing a key that is present, with unique keys, removes exactly one pair. -/
theorem map_erase_length {K V : Type} [DecidableEq K] (m : List (K × V)) (k : K) (v : V)
    (hnd : (m.map Prod.fst).Nodup) (h : (k, v) ∈ m) :
    (map_erase m k).length + 1 = m.length := by
  induction m with
  | nil => cases h
  | cons hd tl ih =>
    obtain ⟨k1, v1⟩ := hd
    simp only [List.map_cons, List.nodup_cons, List.mem_map, not_exists, not_and] at hnd
    by_cases hk : k1 = k
    · subst hk
      have hall : ∀ p ∈ tl, p.1 ≠ k1 := fun p hp e => hnd.1 p hp e
      have hfil : map_erase tl k1 = tl := by
        unfold map_erase
        exact List.filter_eq_self.2 (fun p hp => by simpa using hall p hp)
      have hcons : map_erase ((k1, v1) :: tl) k1 = map_erase tl k1 := by
        simp [map_erase]
      rw [hcons, hfil, List.length_cons]
    · have htl : (k, v) ∈ tl := by
        rcases List.mem_cons.1 h with e | hm
        · exact absurd (Prod.mk.inj e).1.symm hk
        · exact hm
      have hrec := ih hnd.2 htl
      have hcons : map_erase ((k1, v1) :: tl) k = (k1, v1) :: map_erase tl k := by
        simp [map_erase, hk]
      rw [hcons, List.length_cons, List.length_cons, hrec]

/-- Inserting a key that is absent gives the old pairs and the new one, in ascending
position. -/
theorem map_emplace_perm {V : Type} (m : List (Nat × V)) (k : Nat) (v : V)
    (h : ∀ p ∈ m, p.1 ≠ k) : List.Perm (map_emplace m k v) ((k, v) :: m) := by
  induction m with
  | nil => exact List.Perm.refl _
  | cons hd tl ih =>
    obtain ⟨k1, v1⟩ := hd
    have hne : k1 ≠ k := h (k1, v1) (List.mem_cons_self _ _)
    by_cases hlt : k < k1
    · simp only [map_emplace, hlt, if_true]
      exact List.Perm.refl _
    · have hne2 : ¬ k = k1 := fun e => hne e.symm
      simp only [map_emplace, hlt, hne2, if_false]
      exact List.Perm.trans
        (List.Perm.cons _ (ih (fun p hp => h p (List.mem_cons_of_mem _ hp))))
        (List.Perm.swap _ _ _)

/-- Replacing a value in place leaves the keys as they are. -/
theorem map_replace_keys {K V : Type} [DecidableEq K] (m : List (K × V)) (k : K) (v : V) :
    (map_replace m k v).map Prod.fst = m.map Prod.fst := by
  unfold map_replace
  rw [List.map_map]
  apply List.map_congr_left
  intro p _
  by_cases hk : p.1 = k
  · simp [hk]
  · simp [hk]

/-- The pairs after replacing the value under `k`. -/
theorem mem_map_replace {K V : Type} [DecidableEq K] (m : List (K × V)) (k : K) (v : V)
    (q : K × V) :
    q ∈ map_replace m k v ↔ (q = (k, v) ∧ ∃ p ∈ m, p.1 = k) ∨ (q ∈ m ∧ q.1 ≠ k) := by
  unfold map_replace
  simp only [List.mem_map]
  constructor
  · rintro ⟨p, hp, rfl⟩
    by_cases hk : p.1 = k
    · left
      simp only [hk, if_true]
      exact ⟨trivial, p, hp, hk⟩
    · right
      simp only [hk, if_false]
      exact ⟨hp, hk⟩
  · rintro (⟨rfl, p, hp, hk⟩ | ⟨hq, hk⟩)
    · exact ⟨p, hp, by simp [hk]⟩
    · exact ⟨q, hq, by simp [hk]⟩

/-! ## Directory cache: consistency of the two maps -/

/-- What `remove` does to the cache: nothing when it returns false, and otherwise it erases
the entry found under the cookie, and that entry's name. -/
theorem remove_result (st st1 : dir_state) (cookie : Nat) (filename_hint : Option String)
    (b : Bool) (h : readdirectory_cache.remove st cookie filename_hint = some (b, st1)) :
    (b = false ∧ st1 = st ∧
      ((filename_hint.isSome = true ∧ st.cache.resolve_cookie cookie filename_hint = 0) ∨
        map_find st.cache.dir_entries (st.cache.resolve_cookie cookie filename_hint) = none)) ∨
    (∃ cookie1 dirent,
      cookie1 = st.cache.resolve_cookie cookie filename_hint ∧
      map_find st.cache.dir_entries cookie1 = some dirent ∧ b = true ∧
      st1.cache = { st.cache with dnlc_map := map_erase st.cache.dnlc_map dirent.name,
                                  dir_entries := map_erase st.cache.dir_entries cookie1 } ∧
      st1.bigcookie = st.bigcookie) := by
  obtain ⟨cookie1, hck⟩ : ∃ c1, c1 = st.cache.resolve_cookie cookie filename_hint := ⟨_, rfl⟩
  unfold readdirectory_cache.remove at h
  simp only at h
  rw [← hck] at h
  by_cases hz : filename_hint.isSome = true ∧ cookie1 = 0
  · rw [if_pos hz] at h
    simp only [Option.some.injEq, Prod.mk.injEq] at h
    rw [hck] at hz
    exact Or.inl ⟨h.1.symm, h.2.symm, Or.inl hz⟩
  · rw [if_neg hz] at h
    cases hf : map_find st.cache.dir_entries cookie1 with
    | none =>
      rw [hf] at h
      simp only [Option.some.injEq, Prod.mk.injEq] at h
      rw [hck] at hf
      exact Or.inl ⟨h.1.symm, h.2.symm, Or.inr hf⟩
    | some dirent =>
      rw [hf] at h
      right
      refine ⟨cookie1, dirent, hck, hf, ?_⟩
      cases hino : dirent.nfs_inode with
      | none =>
        simp only [hino, Option.some.injEq, Prod.mk.injEq] at h
        obtain ⟨hb, hs⟩ := h
        subst hs
        exact ⟨hb.symm, rfl, rfl⟩
      | some inode =>
        simp only [hino] at h
        split_ifs at h with hone
        · cases hd : dirent.destroy (incref st.inodes inode) with
          | none => rw [hd] at h; cases h
          | some tbl1 =>
            rw [hd] at h
            simp only at h
            cases hdec : decref tbl1 inode with
            | none => rw [hdec] at h; cases h
            | some tbl2 =>
              rw [hdec] at h
              simp only [Option.some.injEq, Prod.mk.injEq] at h
              obtain ⟨hb, hs⟩ := h
              subst hs
              exact ⟨hb.symm, rfl, rfl⟩
        · cases hd : dirent.destroy st.inodes with
          | none => rw [hd] at h; cases h
          | some tbl1 =>
            rw [hd] at h
            simp only [Option.some.injEq, Prod.mk.injEq] at h
            obtain ⟨hb, hs⟩ := h
            subst hs
            exact ⟨hb.symm, rfl, rfl⟩

/-- Erasing an entry and its name keeps the two maps consistent. -/
theorem consistent_erase (c : readdirectory_cache) (cookie : Nat) (dirent : directory_entry)
    (hc : c.consistent) (hf : map_find c.dir_entries cookie = some dirent) :
    ({ c with dnlc_map := map_erase c.dnlc_map dirent.name,
              dir_entries := map_erase c.dir_entries cookie } : readdirectory_cache).consistent ∧
    (∀ p ∈ map_erase c.dnlc_map dirent.name, p.1 ≠ dirent.name) := by
  obtain ⟨hnd1, hnd2, h3, h4⟩ := hc
  have hmem : (cookie, dirent) ∈ c.dir_entries := map_find_mem _ _ _ hf
  refine ⟨⟨map_erase_nodup _ _ hnd1, map_erase_nodup _ _ hnd2, ?_, ?_⟩, ?_⟩
  · intro ck e he
    obtain ⟨hin, hne⟩ := (mem_map_erase _ _ _).1 he
    obtain ⟨h0, hck, hname⟩ := h3 ck e hin
    refine ⟨h0, hck, (mem_map_erase _ _ _).2 ⟨hname, ?_⟩⟩
    intro heq
    simp only at heq
    have hd := (h3 cookie dirent hmem).2.2
    rw [← heq] at hd
    exact hne (map_value_unique _ _ _ _ hnd2 hname hd)
  · intro name ck hn
    obtain ⟨hin, hne⟩ := (mem_map_erase _ _ _).1 hn
    obtain ⟨e, he, hename⟩ := h4 name ck hin
    refine ⟨e, (mem_map_erase _ _ _).2 ⟨he, ?_⟩, hename⟩
    intro heq
    simp only at heq
    rw [heq] at he
    have : e = dirent := map_value_unique _ _ _ _ hnd1 he hmem
    rw [this] at hename
    exact hne hename.symm
  · intro p hp
    exact ((mem_map_erase _ _ _).1 hp).2

/-- `remove` keeps the two maps consistent and does not touch `bigcookie`. -/
theorem remove_consistent (st st1 : dir_state) (cookie : Nat) (filename_hint : Option String)
    (b : Bool) (hc : st.cache.consistent)
    (h : readdirectory_cache.remove st cookie filename_hint = some (b, st1)) :
    st1.cache.consistent ∧ st1.bigcookie = st.bigcookie := by
  rcases remove_result st st1 cookie filename_hint b h with
    ⟨_, hs, _⟩ | ⟨ck1, dirent, _, hf, _, hcache, hbig⟩
  · subst hs
    exact ⟨hc, rfl⟩
  · rw [hcache]
    exact ⟨(consistent_erase st.cache ck1 dirent hc hf).1, hbig⟩

/-- In a consistent cache, `filename_to_cookie` returns 0 exactly for names that are not
cached, and otherwise the cookie of an entry with that name. -/
theorem filename_to_cookie_spec (c : readdirectory_cache) (filename : String)
    (hc : c.consistent) :
    (c.filename_to_cookie filename = 0 ∧ ∀ p ∈ c.dnlc_map, p.1 ≠ filename) ∨
    (c.filename_to_cookie filename ≠ 0 ∧
      ∃ e, map_find c.dir_entries (c.filename_to_cookie filename) = some e ∧
        e.name = filename) := by
  obtain ⟨hnd1, _, h3, h4⟩ := hc
  unfold readdirectory_cache.filename_to_cookie
  cases hf : map_find c.dnlc_map filename with
  | none => exact Or.inl ⟨rfl, (map_find_eq_none _ _).1 hf⟩
  | some cookie =>
    right
    obtain ⟨e, he, hname⟩ := h4 filename cookie (map_find_mem _ _ _ hf)
    exact ⟨(h3 cookie e he).1, e, (map_find_eq_some _ _ _ hnd1).2 he, hname⟩

/-- Inserting an entry whose non-zero cookie and whose name are both new keeps the two maps
consistent. -/
theorem consistent_insert (c : readdirectory_cache) (entry : directory_entry)
    (size seq : Nat) (hc : c.consistent) (hck : entry.cookie ≠ 0)
    (hnew : ∀ p ∈ c.dir_entries, p.1 ≠ entry.cookie)
    (hname : ∀ p ∈ c.dnlc_map, p.1 ≠ entry.name) :
    ({ c with dir_entries := map_emplace c.dir_entries entry.cookie entry,
              cache_size := size,
              dnlc_map := map_assign c.dnlc_map entry.name entry.cookie,
              seq_last_cookie := seq } : readdirectory_cache).consistent := by
  obtain ⟨hnd1, hnd2, h3, h4⟩ := hc
  have hperm := map_emplace_perm c.dir_entries entry.cookie entry hnew
  have hmemdir : ∀ q, q ∈ map_emplace c.dir_entries entry.cookie entry ↔
      q = (entry.cookie, entry) ∨ q ∈ c.dir_entries := fun q => by
    rw [hperm.mem_iff, List.mem_cons]
  have hmemdnlc : ∀ q, q ∈ map_assign c.dnlc_map entry.name entry.cookie ↔
      q = (entry.name, entry.cookie) ∨ q ∈ c.dnlc_map := fun q => by
    unfold map_assign
    rw [List.mem_cons, mem_map_erase]
    constructor
    · rintro (h | ⟨h, _⟩)
      · exact Or.inl h
      · exact Or.inr h
    · rintro (h | h)
      · exact Or.inl h
      · exact Or.inr ⟨h, hname q h⟩
  refine ⟨?_, ?_, ?_, ?_⟩
  · have hk := (hperm.map Prod.fst).nodup_iff
    simp only at hk ⊢
    rw [hk, List.map_cons, List.nodup_cons]
    refine ⟨?_, hnd1⟩
    intro hin
    obtain ⟨p, hp, hpk⟩ := List.mem_map.1 hin
    exact hnew p hp hpk
  · simp only [map_assign, List.map_cons, List.nodup_cons]
    refine ⟨?_, map_erase_nodup _ _ hnd2⟩
    intro hin
    obtain ⟨p, hp, hpk⟩ := List.mem_map.1 hin
    exact ((mem_map_erase _ _ _).1 hp).2 hpk
  · intro ck e he
    simp only at he ⊢
    rcases (hmemdir _).1 he with heq | hold
    · obtain ⟨h1, h2⟩ := Prod.mk.inj heq
      subst h2
      subst h1
      exact ⟨hck, rfl, (hmemdnlc _).2 (Or.inl rfl)⟩
    · obtain ⟨a, b, d⟩ := h3 ck e hold
      exact ⟨a, b, (hmemdnlc _).2 (Or.inr d)⟩
  · intro name ck hn
    simp only at hn ⊢
    rcases (hmemdnlc _).1 hn with heq | hold
    · obtain ⟨h1, h2⟩ := Prod.mk.inj heq
      subst h1
      subst h2
      exact ⟨entry, (hmemdir _).2 (Or.inl rfl), rfl⟩
    · obtain ⟨e, he, hen⟩ := h4 name ck hold
      exact ⟨e, (hmemdir _).2 (Or.inr he), hen⟩

/-- The state `add` goes on with after it has removed the entry cached under the same name, if
there was one: still consistent, and the name is not cached any more. -/
theorem add_after_remove (st st0 : dir_state) (filename : String) (hc : st.cache.consistent)
    (h : (if st.cache.filename_to_cookie filename ≠ 0 then
            match readdirectory_cache.remove st (st.cache.filename_to_cookie filename) none with
            | none => none
            | some (_, st1) => some st1
          else some st) = some st0) :
    st0.cache.consistent ∧ st0.bigcookie = st.bigcookie ∧
    ∀ p ∈ st0.cache.dnlc_map, p.1 ≠ filename := by
  rcases filename_to_cookie_spec st.cache filename hc with ⟨hz, habs⟩ | ⟨hnz, e, hfind, hname⟩
  · rw [if_neg (by simp [hz])] at h
    simp only [Option.some.injEq] at h
    subst h
    exact ⟨hc, rfl, habs⟩
  · rw [if_pos hnz] at h
    cases hrem : readdirectory_cache.remove st (st.cache.filename_to_cookie filename) none with
    | none => rw [hrem] at h; cases h
    | some res =>
      obtain ⟨b, st1⟩ := res
      rw [hrem] at h
      simp only [Option.some.injEq] at h
      subst h
      rcases remove_result st st1 _ none b hrem with
        ⟨_, _, hcase⟩ | ⟨ck1, dirent, hck1, hf, _, hcache, hbig⟩
      · rcases hcase with ⟨hsome, _⟩ | hnone
        · simp at hsome
        · simp only [readdirectory_cache.resolve_cookie] at hnone
          rw [hnone] at hfind
          cases hfind
      · simp only [readdirectory_cache.resolve_cookie] at hck1
        subst hck1
        rw [hfind] at hf
        simp only [Option.some.injEq] at hf
        subst hf
        obtain ⟨hcons, habs⟩ := consistent_erase st.cache _ e hc hfind
        rw [hcache]
        refine ⟨hcons, hbig, ?_⟩
        intro p hp
        rw [← hname]
        exact habs p hp

/-- `add` keeps the two maps consistent and does not touch `bigcookie`. -/
theorem add_consistent (P : cache_params) (st st1 : dir_state) (entry : directory_entry)
    (b : Bool) (hc : st.cache.consistent) (hck : entry.cookie ≠ 0)
    (h : readdirectory_cache.add P st entry = some (b, st1)) :
    st1.cache.consistent ∧ st1.bigcookie = st.bigcookie := by
  unfold readdirectory_cache.add at h
  by_cases hcap : st.cache.cache_size ≥ P.MAX_CACHE_SIZE_LIMIT
  · rw [if_pos hcap] at h
    simp only [Option.some.injEq, Prod.mk.injEq] at h
    rw [← h.2]
    exact ⟨hc, rfl⟩
  · rw [if_neg hcap] at h
    simp only at h
    generalize hrem : (if st.cache.filename_to_cookie entry.name ≠ 0 then
            match readdirectory_cache.remove st (st.cache.filename_to_cookie entry.name) none with
            | none => none
            | some (_, st1) => some st1
          else some st) = removed at h
    cases removed with
    | none => cases h
    | some st0 =>
      obtain ⟨hc0, hbig0, habs⟩ := add_after_remove st st0 entry.name hc hrem
      simp only at h
      cases hf : map_find st0.cache.dir_entries entry.cookie with
      | some old =>
        rw [hf] at h
        simp only [Option.some.injEq, Prod.mk.injEq] at h
        rw [← h.2]
        exact ⟨hc0, hbig0⟩
      | none =>
        rw [hf] at h
        simp only [Option.some.injEq, Prod.mk.injEq] at h
        rw [← h.2]
        exact ⟨consistent_insert st0.cache entry _ _ hc0 hck ((map_find_eq_none _ _).1 hf) habs,
          hbig0⟩

/-- `lookup` leaves the cache and `bigcookie` as they are, and by cookie it returns what
`dir_entries` holds under that cookie. -/
theorem lookup_by_cookie (st : dir_state) (cookie : Nat) :
    (readdirectory_cache.lookup st cookie none).1 = map_find st.cache.dir_entries cookie ∧
    (readdirectory_cache.lookup st cookie none).2.cache = st.cache ∧
    (readdirectory_cache.lookup st cookie none).2.bigcookie = st.bigcookie := by
  unfold readdirectory_cache.lookup
  simp only [readdirectory_cache.resolve_cookie, Option.isSome_none, Bool.false_eq_true,
    false_and, if_false]
  cases hf : map_find st.cache.dir_entries cookie with
  | none => exact ⟨rfl, rfl, rfl⟩
  | some dirent =>
    cases hino : dirent.nfs_inode with
    | none => simp [hino]
    | some inode => simp [hino]

/-- The tail of `dnlc_add` keeps the two maps consistent when the cookie is non-zero. -/
theorem dnlc_add_new_consistent (P : cache_params) (st st1 : dir_state) (filename : String)
    (cookie inode : Nat) (hc : st.cache.consistent) (hck : cookie ≠ 0)
    (h : readdirectory_cache.dnlc_add_new P st filename cookie inode = some st1) :
    st1.cache.consistent := by
  unfold readdirectory_cache.dnlc_add_new at h
  simp only at h
  cases hadd : readdirectory_cache.add P
      { st with inodes := (directory_entry.create filename cookie (st.inodes inode).attr inode
          st.inodes).2 }
      (directory_entry.create filename cookie (st.inodes inode).attr inode st.inodes).1 with
  | none => rw [hadd] at h; cases h
  | some res =>
    obtain ⟨b, st2⟩ := res
    rw [hadd] at h
    simp only [Option.some.injEq] at h
    subst h
    exact (add_consistent P
      { st with inodes := (directory_entry.create filename cookie (st.inodes inode).attr inode
          st.inodes).2 } st2
      (directory_entry.create filename cookie (st.inodes inode).attr inode st.inodes).1
      b hc hck hadd).1

/-- Promoting a stub entry in place keeps the two maps consistent. -/
theorem consistent_replace (c : readdirectory_cache) (cookie : Nat) (de de1 : directory_entry)
    (hc : c.consistent) (hf : map_find c.dir_entries cookie = some de)
    (hname : de1.name = de.name) (hcookie : de1.cookie = de.cookie) :
    ({ c with dir_entries := map_replace c.dir_entries cookie de1 } :
      readdirectory_cache).consistent := by
  obtain ⟨hnd1, hnd2, h3, h4⟩ := hc
  have hmem : (cookie, de) ∈ c.dir_entries := map_find_mem _ _ _ hf
  refine ⟨?_, hnd2, ?_, ?_⟩
  · simp only [map_replace_keys]
    exact hnd1
  · intro ck e he
    simp only at he ⊢
    rcases (mem_map_replace _ _ _ _).1 he with ⟨heq, _⟩ | ⟨hold, _⟩
    · obtain ⟨h1, h2⟩ := Prod.mk.inj heq
      subst h1
      subst h2
      obtain ⟨a, b, d⟩ := h3 ck de hmem
      refine ⟨a, by rw [hcookie]; exact b, by rw [hname]; exact d⟩
    · exact h3 ck e hold
  · intro name ck hn
    simp only at hn ⊢
    obtain ⟨e, he, hen⟩ := h4 name ck hn
    by_cases hk : ck = cookie
    · subst hk
      have hede : e = de := map_value_unique _ _ _ _ hnd1 he hmem
      refine ⟨de1, (mem_map_replace _ _ _ _).2 (Or.inl ⟨rfl, (ck, de), hmem, rfl⟩), ?_⟩
      rw [hname, ← hede]
      exact hen
    · exact ⟨e, (mem_map_replace _ _ _ _).2 (Or.inr ⟨he, hk⟩), hen⟩

/-- `dnlc_add` keeps the two maps consistent as long as `bigcookie` is non-zero. -/
theorem dnlc_add_consistent (P : cache_params) (st st1 : dir_state) (filename : String)
    (inode : Nat) (hc : st.cache.consistent) (hbig : st.bigcookie ≠ 0)
    (h : readdirectory_cache.dnlc_add P st filename inode = some st1) :
    st1.cache.consistent := by
  unfold readdirectory_cache.dnlc_add at h
  simp only at h
  by_cases hck : st.cache.filename_to_cookie filename ≠ 0
  · rw [if_pos hck] at h
    obtain ⟨hl1, hl2, hl3⟩ := lookup_by_cookie st (st.cache.filename_to_cookie filename)
    generalize hlk : readdirectory_cache.lookup st (st.cache.filename_to_cookie filename) none
      = lk at h hl1 hl2 hl3
    obtain ⟨r, stl⟩ := lk
    simp only at hl1 hl2 hl3
    cases r with
    | none => cases h
    | some de =>
      simp only at h
      by_cases hsame : de.nfs_inode = some inode
      · rw [if_pos hsame] at h
        cases hdec : dircachecnt_dec stl.inodes inode with
        | none => rw [hdec] at h; cases h
        | some tbl =>
          rw [hdec] at h
          simp only [Option.some.injEq] at h
          subst h
          simp only [hl2]
          exact hc
      · rw [if_neg hsame] at h
        cases hino : de.nfs_inode with
        | none =>
          simp only [hino, Option.some.injEq] at h
          subst h
          simp only [hl2]
          exact consistent_replace st.cache _ de _ hc hl1.symm rfl rfl
        | some stale =>
          simp only [hino] at h
          cases hdec : dircachecnt_dec stl.inodes stale with
          | none => rw [hdec] at h; cases h
          | some tbl =>
            rw [hdec] at h
            simp only at h
            cases hrem : readdirectory_cache.remove { stl with inodes := tbl }
                (st.cache.filename_to_cookie filename) none with
            | none => rw [hrem] at h; cases h
            | some res =>
              obtain ⟨b, st2⟩ := res
              rw [hrem] at h
              simp only at h
              have hcl : ({ stl with inodes := tbl } : dir_state).cache.consistent := by
                simp only [hl2]
                exact hc
              obtain ⟨hc2, hb2⟩ := remove_consistent _ st2 _ none b hcl hrem
              simp only [hl3] at hb2
              exact dnlc_add_new_consistent P
                { st2 with bigcookie := u64 (st2.bigcookie + 1) } st1 filename st2.bigcookie
                inode hc2 (by rw [hb2]; exact hbig) h
  · rw [if_neg hck] at h
    exact dnlc_add_new_consistent P { st with bigcookie := u64 (st.bigcookie + 1) } st1
      filename st.bigcookie inode hc hbig h

/-- An empty cache is consistent. -/
theorem consistent_empty (c : readdirectory_cache) (h1 : c.dir_entries = [])
    (h2 : c.dnlc_map = []) : c.consistent := by
  unfold readdirectory_cache.consistent
  rw [h1, h2]
  simp

/-- `clear` leaves both maps empty. -/
theorem clear_maps (st st1 : dir_state) (h : readdirectory_cache.clear st = some st1) :
    st1.cache.dir_entries = [] ∧ st1.cache.dnlc_map = [] := by
  unfold readdirectory_cache.clear at h
  cases hl : clear_loop st.cache.dir_entries st.inodes [] with
  | none => rw [hl] at h; cases h
  | some res =>
    obtain ⟨tbl1, tofree_vec⟩ := res
    rw [hl] at h
    simp only at h
    cases hd : decref_all tofree_vec tbl1 with
    | none => rw [hd] at h; cases h
    | some tbl2 =>
      rw [hd] at h
      simp only [Option.some.injEq] at h
      subst h
      exact ⟨rfl, rfl⟩

/-- Every reachable state has consistent maps. -/
theorem dir_reach_consistent (P : cache_params) (st : dir_state) (h : dir_reach P st) :
    st.cache.consistent := by
  induction h with
  | init tbl => exact consistent_empty _ rfl rfl
  | env tbl _ ih => exact ih
  | add entry b _ hck hstep ih => exact (add_consistent P _ _ entry b ih hck hstep).1
  | dnlc_add filename inode _ hbig hstep ih =>
    exact dnlc_add_consistent P _ _ filename inode ih hbig hstep
  | remove cookie filename_hint b _ hstep ih =>
    exact (remove_consistent _ _ cookie filename_hint b ih hstep).1
  | clear _ hstep ih =>
    obtain ⟨h1, h2⟩ := clear_maps _ _ hstep
    exact consistent_empty _ h1 h2

/-- In a consistent cache the two maps have the same number of elements. -/
theorem consistent_length (c : readdirectory_cache) (hc : c.consistent) :
    c.dir_entries.length = c.dnlc_map.length := by
  obtain ⟨hnd1, hnd2, h3, h4⟩ := hc
  have hnd1p : (c.dir_entries.map (fun p => (p.2.name, p.1))).Nodup := by
    have hk : (c.dir_entries.map (fun p => (p.2.name, p.1))).map Prod.snd
        = c.dir_entries.map Prod.fst := by
      rw [List.map_map]
      rfl
    exact List.Nodup.of_map Prod.snd (by rw [hk]; exact hnd1)
  have hnd2p : c.dnlc_map.Nodup := List.Nodup.of_map Prod.fst hnd2
  have hperm : List.Perm (c.dir_entries.map (fun p => (p.2.name, p.1))) c.dnlc_map := by
    rw [List.perm_ext_iff_of_nodup hnd1p hnd2p]
    intro q
    constructor
    · intro hq
      obtain ⟨p, hp, rfl⟩ := List.mem_map.1 hq
      exact (h3 p.1 p.2 hp).2.2
    · intro hq
      obtain ⟨e, he, hen⟩ := h4 q.1 q.2 hq
      exact List.mem_map.2 ⟨(q.2, e), he, by simp [hen]⟩
  have := hperm.length_eq
  simpa using this

/-- C16: in every state reachable from an empty `readdirectory_cache` by any sequence of
`add`, `dnlc_add`, `remove` and `clear` calls (with the inodes changing in any way between
calls), `dir_entries` and `dnlc_map` have the same number of elements, every name in `dnlc_map`
maps to a cookie that is a key of `dir_entries` whose entry has that name, and every entry in
`dir_entries` is stored under its own cookie and has its name mapped to that cookie in
`dnlc_map`. -/
theorem dir_entries_dnlc_map_consistent (P : cache_params) (st : dir_state)
    (h : dir_reach P st) :
    st.cache.dir_entries.length = st.cache.dnlc_map.length ∧
    (∀ name cookie, map_find st.cache.dnlc_map name = some cookie →
      ∃ e, map_find st.cache.dir_entries cookie = some e ∧ e.name = name) ∧
    (∀ cookie e, map_find st.cache.dir_entries cookie = some e →
      e.cookie = cookie ∧ map_find st.cache.dnlc_map e.name = some cookie) := by
  have hc := dir_reach_consistent P st h
  have hlen := consistent_length st.cache hc
  obtain ⟨hnd1, hnd2, h3, h4⟩ := hc
  refine ⟨hlen, ?_, ?_⟩
  · intro name cookie hf
    obtain ⟨e, he, hen⟩ := h4 name cookie (map_find_mem _ _ _ hf)
    exact ⟨e, (map_find_eq_some _ _ _ hnd1).2 he, hen⟩
  · intro cookie e hf
    obtain ⟨_, hck, hname⟩ := h3 cookie e (map_find_mem _ _ _ hf)
    exact ⟨hck, (map_find_eq_some _ _ _ hnd2).2 hname⟩

/-- Witness for C16: after `add` of a READDIR entry "a" under cookie 1 and `dnlc_add("b", 7)`
on an empty cache, the two maps have two elements each and agree. -/
theorem dir_entries_dnlc_map_consistent_witness :
    ∃ st : dir_state,
      dir_reach sample_cache_params st ∧
      st.cache.dir_entries.map Prod.fst = [1, 9223372036854775807] ∧
      st.cache.dnlc_map = [("b", 9223372036854775807), ("a", 1)] ∧
      st.cache.dir_entries.length = st.cache.dnlc_map.length ∧
      (∀ name cookie, map_find st.cache.dnlc_map name = some cookie →
        ∃ e, map_find st.cache.dir_entries cookie = some e ∧ e.name = name) ∧
      (∀ cookie e, map_find st.cache.dir_entries cookie = some e →
        e.cookie = cookie ∧ map_find st.cache.dnlc_map e.name = some cookie) :=
  have r1 : dir_reach sample_cache_params
      { cache := { dir_entries := [(1, directory_entry.create_stub "a" 1 100)],
                   dnlc_map := [("a", 1)], eof := false, eof_cookie := 0,
                   seq_last_cookie := 1, confirmed_msecs := 0, cookie_verifier := 0,
                   cache_size := 65 },
        inodes := sample_inodes, bigcookie := UINT64_MAX / 2 } :=
    dir_reach.add (directory_entry.create_stub "a" 1 100) true
      (dir_reach.init sample_inodes) (by decide) rfl
  have r2 : dir_reach sample_cache_params
      { cache := { dir_entries := [(1, directory_entry.create_stub "a" 1 100),
                     (9223372036854775807,
                       (directory_entry.create "b" 9223372036854775807
                         (sample_inodes 7).attr 7 sample_inodes).1)],
                   dnlc_map := [("b", 9223372036854775807), ("a", 1)], eof := false,
                   eof_cookie := 0, seq_last_cookie := 1, confirmed_msecs := 0,
                   cookie_verifier := 0, cache_size := 130 },
        inodes := dircachecnt_inc sample_inodes 7, bigcookie := 9223372036854775808 } :=
    dir_reach.dnlc_add "b" 7 r1 (by decide) rfl
  ⟨_, r2, rfl, rfl, dir_entries_dnlc_map_consistent sample_cache_params _ r2⟩

/-! ## Directory cache: reference counts, lookup, round trip -/

/-- At the size cap `dnlc_add` of a name that is not cached constructs the entry, which takes
a `dircachecnt` reference, and then `add` refuses it: the maps stay as they are and the
reference stays taken. -/
theorem dnlc_add_at_cap (P : cache_params) (st : dir_state) (filename : String) (inode : Nat)
    (hcap : st.cache.cache_size ≥ P.MAX_CACHE_SIZE_LIMIT)
    (hnew : st.cache.filename_to_cookie filename = 0) :
    readdirectory_cache.dnlc_add P st filename inode
      = some { st with inodes := dircachecnt_inc st.inodes inode,
                       bigcookie := u64 (st.bigcookie + 1) } := by
  unfold readdirectory_cache.dnlc_add
  simp only [hnew, ne_eq, not_true_eq_false, if_false]
  unfold readdirectory_cache.dnlc_add_new readdirectory_cache.add
  simp only [directory_entry.create]
  rw [if_pos hcap]

/-- C17: on an empty cache with all inodes unreferenced, `add` of READDIR entries "a" (cookie
1) and "b" (cookie 2) brings `cache_size` to 130, past the cap of 100; `dnlc_add("c", 7)` then
leaves inode 7 with `dircachecnt == 1` while no cached entry references inode 7: the entry
that `dnlc_add` constructed was refused by `add` and never released. -/
theorem dnlc_add_leaks_dircachecnt :
    let s1 : dir_state :=
      { cache := { dir_entries := [(1, directory_entry.create_stub "a" 1 100)],
                   dnlc_map := [("a", 1)], eof := false, eof_cookie := 0,
                   seq_last_cookie := 1, confirmed_msecs := 0, cookie_verifier := 0,
                   cache_size := 65 },
        inodes := sample_inodes, bigcookie := UINT64_MAX / 2 }
    let s2 : dir_state :=
      { cache := { dir_entries := [(1, directory_entry.create_stub "a" 1 100),
                                   (2, directory_entry.create_stub "b" 2 101)],
                   dnlc_map := [("b", 2), ("a", 1)], eof := false, eof_cookie := 0,
                   seq_last_cookie := 2, confirmed_msecs := 0, cookie_verifier := 0,
                   cache_size := 130 },
        inodes := sample_inodes, bigcookie := UINT64_MAX / 2 }
    readdirectory_cache.add sample_cache_params (dir_state.init sample_inodes)
        (directory_entry.create_stub "a" 1 100) = some (true, s1) ∧
    readdirectory_cache.add sample_cache_params s1
        (directory_entry.create_stub "b" 2 101) = some (true, s2) ∧
    ∃ s3 : dir_state,
      readdirectory_cache.dnlc_add sample_cache_params s2 "c" 7 = some s3 ∧
      s3.cache = s2.cache ∧
      (s3.inodes 7).dircachecnt = 1 ∧
      entry_refs s3.cache.dir_entries 7 = 0 :=
  ⟨rfl, rfl, _, rfl, rfl, rfl, rfl⟩

/-- C20: on an empty cache, `add` of a READDIR entry "a" under cookie 1 followed by
`remove(1)` empties both maps again, but `cache_size` stays at 65 and `seq_last_cookie` stays
at 1, the values `add` gave them; before the `add` both were 0. `remove` updates neither. -/
theorem add_remove_keeps_size_and_seq :
    let s1 : dir_state :=
      { cache := { dir_entries := [(1, directory_entry.create_stub "a" 1 100)],
                   dnlc_map := [("a", 1)], eof := false, eof_cookie := 0,
                   seq_last_cookie := 1, confirmed_msecs := 0, cookie_verifier := 0,
                   cache_size := 65 },
        inodes := sample_inodes, bigcookie := UINT64_MAX / 2 }
    let s2 : dir_state :=
      { cache := { dir_entries := [], dnlc_map := [], eof := false, eof_cookie := 0,
                   seq_last_cookie := 1, confirmed_msecs := 0, cookie_verifier := 0,
                   cache_size := 65 },
        inodes := sample_inodes, bigcookie := UINT64_MAX / 2 }
    (dir_state.init sample_inodes).cache.cache_size = 0 ∧
    (dir_state.init sample_inodes).cache.seq_last_cookie = 0 ∧
    readdirectory_cache.add sample_cache_params (dir_state.init sample_inodes)
        (directory_entry.create_stub "a" 1 100) = some (true, s1) ∧
    readdirectory_cache.remove s1 1 none = some (true, s2) ∧
    s2.cache.cache_size = 65 ∧ s2.cache.seq_last_cookie = 1 :=
  ⟨rfl, rfl, rfl, rfl, rfl, rfl⟩

/-- `remove` never changes `cache_size` or `seq_last_cookie`. -/
theorem remove_keeps_size_and_seq (st st1 : dir_state) (cookie : Nat)
    (filename_hint : Option String) (b : Bool)
    (h : readdirectory_cache.remove st cookie filename_hint = some (b, st1)) :
    st1.cache.cache_size = st.cache.cache_size ∧
    st1.cache.seq_last_cookie = st.cache.seq_last_cookie := by
  rcases remove_result st st1 cookie filename_hint b h with
    ⟨_, hs, _⟩ | ⟨_, _, _, _, _, hcache, _⟩
  · subst hs
    exact ⟨rfl, rfl⟩
  · rw [hcache]
    exact ⟨rfl, rfl⟩

/-- When every cached entry with an inode holds a `dircachecnt` reference on it, `remove`
returns. -/
theorem remove_returns (st : dir_state) (cookie : Nat) (filename_hint : Option String)
    (href : ∀ ck e i, map_find st.cache.dir_entries ck = some e → e.nfs_inode = some i →
      1 ≤ (st.inodes i).dircachecnt) :
    ∃ b st1, readdirectory_cache.remove st cookie filename_hint = some (b, st1) := by
  unfold readdirectory_cache.remove
  simp only
  split_ifs with hz
  · exact ⟨_, _, rfl⟩
  · cases hf : map_find st.cache.dir_entries (st.cache.resolve_cookie cookie filename_hint) with
    | none => exact ⟨_, _, rfl⟩
    | some dirent =>
      simp only
      cases hino : dirent.nfs_inode with
      | none => exact ⟨_, _, rfl⟩
      | some inode =>
        have hge := href _ dirent inode hf hino
        simp only
        by_cases hone : (st.inodes inode).dircachecnt = 1
        · rw [if_pos hone]
          simp only [directory_entry.destroy, hino, dircachecnt_dec, incref,
            Function.update_same, hone, decref]
          simp
        · rw [if_neg hone]
          have hnz : (st.inodes inode).dircachecnt ≠ 0 := by omega
          simp only [directory_entry.destroy, hino, dircachecnt_dec, hnz, if_false]
          exact ⟨_, _, rfl⟩

/-- A key that is absent stays absent after erasing another key. -/
theorem map_find_erase_none {K V : Type} [DecidableEq K] (m : List (K × V)) (k k1 : K)
    (h : map_find m k = none) : map_find (map_erase m k1) k = none := by
  rw [map_find_eq_none] at h ⊢
  intro p hp
  exact h p ((mem_map_erase _ _ _).1 hp).1

/-- After inserting under a key that was absent, `map_find` returns the inserted value. -/
theorem map_find_emplace {V : Type} (m : List (Nat × V)) (k : Nat) (v : V)
    (h : ∀ p ∈ m, p.1 ≠ k) : map_find (map_emplace m k v) k = some v := by
  induction m with
  | nil => simp [map_emplace, map_find]
  | cons hd tl ih =>
    obtain ⟨k1, v1⟩ := hd
    have hne : k1 ≠ k := h (k1, v1) (List.mem_cons_self _ _)
    have hne2 : ¬ k = k1 := fun e => hne e.symm
    by_cases hlt : k < k1
    · simp [map_emplace, hlt, map_find]
    · simp only [map_emplace, hlt, hne2, if_false, map_find, hne]
      exact ih (fun p hp => h p (List.mem_cons_of_mem _ hp))

/-- When `add` returns true, its result is the insertion of the entry into a state whose
`dir_entries` did not hold the entry's cookie. -/
theorem add_true_result (P : cache_params) (st st1 : dir_state) (entry : directory_entry)
    (h : readdirectory_cache.add P st entry = some (true, st1)) :
    ∃ st0 : dir_state, map_find st0.cache.dir_entries entry.cookie = none ∧
      st1 = readdirectory_cache.inserted P st0 entry := by
  unfold readdirectory_cache.add at h
  by_cases hcap : st.cache.cache_size ≥ P.MAX_CACHE_SIZE_LIMIT
  · rw [if_pos hcap] at h
    simp at h
  · rw [if_neg hcap] at h
    simp only at h
    generalize (if st.cache.filename_to_cookie entry.name ≠ 0 then
            match readdirectory_cache.remove st (st.cache.filename_to_cookie entry.name) none with
            | none => none
            | some (_, st1) => some st1
          else some st) = removed at h
    cases removed with
    | none => cases h
    | some st0 =>
      simp only at h
      cases hf : map_find st0.cache.dir_entries entry.cookie with
      | some old =>
        rw [hf] at h
        simp at h
      | none =>
        rw [hf] at h
        simp only [Option.some.injEq, Prod.mk.injEq, true_and] at h
        exact ⟨st0, hf, h.symm⟩

/-- Below the cap, with the cookie absent and every cached entry holding its `dircachecnt`
reference, `add` returns true. -/
theorem add_returns_true (P : cache_params) (st : dir_state) (entry : directory_entry)
    (hcap : st.cache.cache_size < P.MAX_CACHE_SIZE_LIMIT)
    (hnew : map_find st.cache.dir_entries entry.cookie = none)
    (href : ∀ ck e i, map_find st.cache.dir_entries ck = some e → e.nfs_inode = some i →
      1 ≤ (st.inodes i).dircachecnt) :
    ∃ st1 : dir_state, readdirectory_cache.add P st entry = some (true, st1) := by
  have hstate : ∃ st0 : dir_state,
      (if st.cache.filename_to_cookie entry.name ≠ 0 then
          match readdirectory_cache.remove st (st.cache.filename_to_cookie entry.name) none with
          | none => none
          | some (_, st1) => some st1
        else some st) = some st0 ∧
      map_find st0.cache.dir_entries entry.cookie = none := by
    by_cases hname : st.cache.filename_to_cookie entry.name ≠ 0
    · rw [if_pos hname]
      obtain ⟨b, st1, hrem⟩ := remove_returns st (st.cache.filename_to_cookie entry.name) none
        href
      rw [hrem]
      refine ⟨st1, rfl, ?_⟩
      rcases remove_result st st1 _ none b hrem with
        ⟨_, hs, _⟩ | ⟨_, _, _, _, _, hcache, _⟩
      · subst hs
        exact hnew
      · rw [hcache]
        exact map_find_erase_none _ _ _ hnew
    · rw [if_neg hname]
      exact ⟨st, rfl, hnew⟩
  obtain ⟨st0, hrem, hnew0⟩ := hstate
  refine ⟨readdirectory_cache.inserted P st0 entry, ?_⟩
  unfold readdirectory_cache.add
  rw [if_neg (by omega)]
  simp only
  rw [hrem]
  simp only [hnew0]
  rfl

/-- Right after an insertion, `lookup` by the entry's cookie and `lookup` by its name both
return the entry and take one `dircachecnt` reference on its inode, if it has one. -/
theorem lookup_inserted (P : cache_params) (st0 : dir_state) (entry : directory_entry)
    (hck : entry.cookie ≠ 0) (hnew0 : map_find st0.cache.dir_entries entry.cookie = none) :
    readdirectory_cache.lookup (readdirectory_cache.inserted P st0 entry) entry.cookie none
      = (some entry,
          { readdirectory_cache.inserted P st0 entry with inodes := match entry.nfs_inode with
              | some inode => dircachecnt_inc (readdirectory_cache.inserted P st0 entry).inodes
                  inode
              | none => (readdirectory_cache.inserted P st0 entry).inodes }) ∧
    readdirectory_cache.lookup (readdirectory_cache.inserted P st0 entry) 0 (some entry.name)
      = (some entry,
          { readdirectory_cache.inserted P st0 entry with inodes := match entry.nfs_inode with
              | some inode => dircachecnt_inc (readdirectory_cache.inserted P st0 entry).inodes
                  inode
              | none => (readdirectory_cache.inserted P st0 entry).inodes }) := by
  constructor
  · unfold readdirectory_cache.lookup readdirectory_cache.inserted
    simp only [readdirectory_cache.resolve_cookie, Option.isSome_none, Bool.false_eq_true,
      false_and, if_false]
    rw [map_find_emplace _ _ _ ((map_find_eq_none _ _).1 hnew0)]
    simp only
    cases entry.nfs_inode <;> rfl
  · unfold readdirectory_cache.lookup readdirectory_cache.inserted
    have hcookie : readdirectory_cache.filename_to_cookie
        { st0.cache with
          dir_entries := map_emplace st0.cache.dir_entries entry.cookie entry,
          cache_size := st0.cache.cache_size + P.get_cache_size entry,
          dnlc_map := map_assign st0.cache.dnlc_map entry.name entry.cookie,
          seq_last_cookie :=
            if entry.cookie = u64 (st0.cache.seq_last_cookie + 1) then entry.cookie
            else st0.cache.seq_last_cookie } entry.name = entry.cookie := by
      simp [readdirectory_cache.filename_to_cookie, map_assign, map_find]
    simp only [readdirectory_cache.resolve_cookie, hcookie, Option.isSome_some, true_and,
      hck, if_false]
    rw [map_find_emplace _ _ _ ((map_find_eq_none _ _).1 hnew0)]
    simp only
    cases entry.nfs_inode <;> rfl

/-- C19: for every cache state below the size cap and every entry `e` with non-zero cookie not
already a key of `dir_entries`: whenever `add(e)` returns true, both `lookup(e.cookie)` and
`lookup` by `e.name` return `e`, and each such lookup increments the `dircachecnt` of the inode
of `e` (when `e` has one) by exactly one and changes nothing else; and `add(e)` does return true
when every cached entry with an inode holds its `dircachecnt` reference on it. -/
theorem add_then_lookup (P : cache_params) (st : dir_state) (entry : directory_entry)
    (hcap : st.cache.cache_size < P.MAX_CACHE_SIZE_LIMIT) (hck : entry.cookie ≠ 0)
    (hnew : map_find st.cache.dir_entries entry.cookie = none) :
    (∀ st1 : dir_state, readdirectory_cache.add P st entry = some (true, st1) →
      readdirectory_cache.lookup st1 entry.cookie none
        = (some entry,
            { st1 with inodes := match entry.nfs_inode with
                | some inode => dircachecnt_inc st1.inodes inode
                | none => st1.inodes }) ∧
      readdirectory_cache.lookup st1 0 (some entry.name)
        = (some entry,
            { st1 with inodes := match entry.nfs_inode with
                | some inode => dircachecnt_inc st1.inodes inode
                | none => st1.inodes })) ∧
    ((∀ ck e i, map_find st.cache.dir_entries ck = some e → e.nfs_inode = some i →
        1 ≤ (st.inodes i).dircachecnt) →
      ∃ st1 : dir_state, readdirectory_cache.add P st entry = some (true, st1)) := by
  constructor
  · intro st1 hadd
    obtain ⟨st0, hnew0, hst1⟩ := add_true_result P st st1 entry hadd
    subst hst1
    exact lookup_inserted P st0 entry hck hnew0
  · intro href
    exact add_returns_true P st entry hcap hnew href

/-- Witness for C19: on an empty cache (cap 100), `add` of an entry "a" with cookie 1 that
references inode 7 returns true, and afterwards `lookup(1)` and `lookup("a")` return the entry
and take one more `dircachecnt` on inode 7. -/
theorem add_then_lookup_witness :
    (readdirectory_cache.empty.cache_size < sample_cache_params.MAX_CACHE_SIZE_LIMIT ∧
      (directory_entry.create "a" 1 (sample_inodes 7).attr 7 sample_inodes).1.cookie ≠ 0 ∧
      map_find readdirectory_cache.empty.dir_entries
        (directory_entry.create "a" 1 (sample_inodes 7).attr 7 sample_inodes).1.cookie = none) ∧
    ∃ st1 : dir_state,
      readdirectory_cache.add sample_cache_params
          { cache := readdirectory_cache.empty, inodes := dircachecnt_inc sample_inodes 7,
            bigcookie := UINT64_MAX / 2 }
          (directory_entry.create "a" 1 (sample_inodes 7).attr 7 sample_inodes).1
        = some (true, st1) ∧
      (readdirectory_cache.lookup st1 1 none).1
        = some (directory_entry.create "a" 1 (sample_inodes 7).attr 7 sample_inodes).1 ∧
      ((readdirectory_cache.lookup st1 1 none).2.inodes 7).dircachecnt = 2 ∧
      (readdirectory_cache.lookup st1 0 (some "a")).1
        = some (directory_entry.create "a" 1 (sample_inodes 7).attr 7 sample_inodes).1 ∧
      ((readdirectory_cache.lookup st1 0 (some "a")).2.inodes 7).dircachecnt = 2 := by
  have hthm := add_then_lookup sample_cache_params
    { cache := readdirectory_cache.empty, inodes := dircachecnt_inc sample_inodes 7,
      bigcookie := UINT64_MAX / 2 }
    (directory_entry.create "a" 1 (sample_inodes 7).attr 7 sample_inodes).1
    (by decide) (by decide) rfl
  refine ⟨⟨by decide, by decide, rfl⟩, ?_⟩
  obtain ⟨st1, hadd⟩ := hthm.2
    (fun ck e i hf _ => by simp [readdirectory_cache.empty, map_find] at hf)
  have hlk := hthm.1 st1 hadd
  have hst1 : some (true, st1) = some (true, readdirectory_cache.inserted sample_cache_params
      { cache := readdirectory_cache.empty, inodes := dircachecnt_inc sample_inodes 7,
        bigcookie := UINT64_MAX / 2 }
      (directory_entry.create "a" 1 (sample_inodes 7).attr 7 sample_inodes).1) := by
    rw [← hadd]
    rfl
  simp only [Option.some.injEq, Prod.mk.injEq, true_and] at hst1
  have hbycookie : readdirectory_cache.lookup st1 1 none = _ := hlk.1
  have hbyname : readdirectory_cache.lookup st1 0 (some "a") = _ := hlk.2
  refine ⟨st1, hadd, ?_, ?_, ?_, ?_⟩
  · exact congrArg Prod.fst hbycookie
  · rw [hbycookie, hst1]
    rfl
  · exact congrArg Prod.fst hbyname
  · rw [hbyname, hst1]
    rfl

/-! ## Directory cache: destruction of inodes -/

/-- What `remove` does to the inodes: nothing, or it drops one `dircachecnt` of the inode of
the removed entry, keeps its `lookupcnt`, and destroys it exactly when that was its last
`dircachecnt` and its `lookupcnt` is 0. -/
theorem remove_inodes (st st1 : dir_state) (cookie : Nat) (filename_hint : Option String)
    (b : Bool) (h : readdirectory_cache.remove st cookie filename_hint = some (b, st1)) :
    st1.inodes = st.inodes ∨
    ∃ dirent inode,
      map_find st.cache.dir_entries (st.cache.resolve_cookie cookie filename_hint)
        = some dirent ∧
      dirent.nfs_inode = some inode ∧ 1 ≤ (st.inodes inode).dircachecnt ∧
      st1.cache.dir_entries
        = map_erase st.cache.dir_entries (st.cache.resolve_cookie cookie filename_hint) ∧
      (∀ i, i ≠ inode → st1.inodes i = st.inodes i) ∧
      st1.inodes inode =
        { st.inodes inode with
          dircachecnt := (st.inodes inode).dircachecnt - 1,
          destroyed := (st.inodes inode).destroyed ||
            decide ((st.inodes inode).lookupcnt = 0 ∧ (st.inodes inode).dircachecnt = 1) } := by
  unfold readdirectory_cache.remove at h
  simp only at h
  by_cases hz : filename_hint.isSome = true ∧ st.cache.resolve_cookie cookie filename_hint = 0
  · rw [if_pos hz] at h
    simp only [Option.some.injEq, Prod.mk.injEq] at h
    rw [← h.2]
    exact Or.inl rfl
  · rw [if_neg hz] at h
    cases hf : map_find st.cache.dir_entries (st.cache.resolve_cookie cookie filename_hint) with
    | none =>
      rw [hf] at h
      simp only [Option.some.injEq, Prod.mk.injEq] at h
      rw [← h.2]
      exact Or.inl rfl
    | some dirent =>
      rw [hf] at h
      simp only at h
      cases hino : dirent.nfs_inode with
      | none =>
        rw [hino] at h
        simp only [Option.some.injEq, Prod.mk.injEq] at h
        rw [← h.2]
        exact Or.inl rfl
      | some inode =>
        rw [hino] at h
        simp only at h
        right
        by_cases hone : (st.inodes inode).dircachecnt = 1
        · rw [if_pos hone] at h
          simp [directory_entry.destroy, hino, dircachecnt_dec, incref, decref, hone] at h
          refine ⟨dirent, inode, rfl, hino, by omega, ?_, ?_, ?_⟩
          · rw [← h.2]
          · intro i hi
            rw [← h.2]
            simp only [Function.update_noteq hi]
          · rw [← h.2]
            simp [hone]
        · rw [if_neg hone] at h
          by_cases hzero : (st.inodes inode).dircachecnt = 0
          · simp [directory_entry.destroy, hino, dircachecnt_dec, hzero] at h
          · simp only [directory_entry.destroy, hino, dircachecnt_dec, hzero, if_false,
              Option.some.injEq, Prod.mk.injEq] at h
            refine ⟨dirent, inode, rfl, hino, by omega, ?_, ?_, ?_⟩
            · rw [← h.2]
            · intro i hi
              rw [← h.2]
              simp only [Function.update_noteq hi]
            · rw [← h.2]
              simp only [Function.update_same, hone, and_false, decide_False, Bool.or_false]

/-- Erasing the key under which an entry pointing to the inode is found removes at least one
of the entries that point to the inode. -/
theorem entry_refs_erase (m : List (Nat × directory_entry)) (k : Nat) (e : directory_entry)
    (i : Nat) (hf : map_find m k = some e) (hino : e.nfs_inode = some i) :
    entry_refs (map_erase m k) i + 1 ≤ entry_refs m i := by
  induction m with
  | nil => simp [map_find] at hf
  | cons hd tl ih =>
    obtain ⟨k1, v1⟩ := hd
    by_cases hk : k1 = k
    · simp only [map_find, hk, if_true, Option.some.injEq] at hf
      subst hf
      have hle : entry_refs (map_erase tl k) i ≤ entry_refs tl i :=
        List.Sublist.length_le (List.Sublist.filter _ (List.filter_sublist tl))
      simp only [entry_refs, map_erase, hk, List.filter_cons, ne_eq, not_true_eq_false,
        decide_False, Bool.false_eq_true, if_false, hino, decide_True, if_true,
        List.length_cons] at hle ⊢
      omega
    · simp only [map_find, hk, if_false] at hf
      have h1 := ih hf
      by_cases hv : v1.nfs_inode = some i
      · simp only [entry_refs, map_erase, List.filter_cons, ne_eq, hk, not_false_eq_true,
          decide_True, if_true, hv, List.length_cons] at h1 ⊢
        omega
      · simp only [entry_refs, map_erase, List.filter_cons, ne_eq, hk, not_false_eq_true,
          decide_True, if_true, hv, decide_False, Bool.false_eq_true, if_false] at h1 ⊢
        omega

/-- Counting the entries that point to an inode, one entry at a time. -/
theorem entry_refs_cons (k : Nat) (e : directory_entry) (rest : List (Nat × directory_entry))
    (i : Nat) :
    entry_refs ((k, e) :: rest) i
      = entry_refs rest i + (if e.nfs_inode = some i then 1 else 0) := by
  by_cases h : e.nfs_inode = some i
  · simp [entry_refs, List.filter_cons, h]
  · simp [entry_refs, List.filter_cons, h]

/-- An entry found in the map counts among the entries that point to its inode. -/
theorem entry_refs_pos (m : List (Nat × directory_entry)) (k : Nat) (e : directory_entry)
    (i : Nat) (hmem : (k, e) ∈ m) (hino : e.nfs_inode = some i) : 1 ≤ entry_refs m i := by
  unfold entry_refs
  have hin : (k, e) ∈ List.filter (fun p => decide (p.2.nfs_inode = some i)) m :=
    List.mem_filter.2 ⟨hmem, by simp [hino]⟩
  exact List.length_pos_of_mem hin

/-- The destructor of an entry with an inode whose `dircachecnt` is not 0. -/
theorem destroy_of_pos (e : directory_entry) (tbl : inode_table) (j : Nat)
    (hino : e.nfs_inode = some j) (hpos : (tbl j).dircachecnt ≠ 0) :
    e.destroy tbl
      = some (Function.update tbl j
          { tbl j with dircachecnt := (tbl j).dircachecnt - 1 }) := by
  simp [directory_entry.destroy, hino, dircachecnt_dec, hpos]

/-- The destructor of an entry with an inode whose `dircachecnt` is 0 does not return. -/
theorem destroy_of_zero (e : directory_entry) (tbl : inode_table) (j : Nat)
    (hino : e.nfs_inode = some j) (hz : (tbl j).dircachecnt = 0) :
    e.destroy tbl = none := by
  simp [directory_entry.destroy, hino, dircachecnt_dec, hz]

/-- The first loop of `clear` returns when every inode has at least as many `dircachecnt`
references as there are cached entries pointing to it. -/
theorem clear_loop_returns (entries : List (Nat × directory_entry)) :
    ∀ (tbl : inode_table) (tofree_vec : List Nat),
      (∀ i, entry_refs entries i ≤ (tbl i).dircachecnt) →
      ∃ r, clear_loop entries tbl tofree_vec = some r := by
  induction entries with
  | nil => exact fun tbl tf _ => ⟨_, rfl⟩
  | cons hd rest ih =>
    obtain ⟨k, e⟩ := hd
    intro tbl tf hacc
    cases hino : e.nfs_inode with
    | none =>
      simp only [clear_loop, hino]
      apply ih
      intro i
      have h := hacc i
      rw [entry_refs_cons, hino] at h
      simpa using h
    | some j =>
      have hj := hacc j
      rw [entry_refs_cons, if_pos hino] at hj
      simp only [clear_loop, hino]
      by_cases hone : (tbl j).dircachecnt = 1
      · rw [if_pos hone]
        have hpos : (incref tbl j j).dircachecnt ≠ 0 := by
          simp [incref, hone]
        rw [destroy_of_pos e _ j hino hpos]
        apply ih
        intro i
        by_cases hij : i = j
        · subst hij
          simp only [Function.update_same]
          omega
        · have h := hacc i
          rw [entry_refs_cons, if_neg (by
            rw [hino]
            intro h
            exact hij (Option.some.inj h).symm)] at h
          simp only [Function.update_noteq hij, incref]
          simpa using h
      · rw [if_neg hone]
        have hpos : (tbl j).dircachecnt ≠ 0 := by omega
        rw [destroy_of_pos e _ j hino hpos]
        apply ih
        intro i
        by_cases hij : i = j
        · subst hij
          simp only [Function.update_same]
          omega
        · have h := hacc i
          rw [entry_refs_cons, if_neg (by
            rw [hino]
            intro h
            exact hij (Option.some.inj h).symm)] at h
          simp only [Function.update_noteq hij]
          simpa using h

/-- What the first loop of `clear` has done when it returns: the inodes appended to
`tofree_vec` are distinct, each of them got one `lookupcnt` and is left with `dircachecnt` 0,
every inode lost one `dircachecnt` per entry pointing to it (and had that many), and no inode
was destroyed. -/
theorem clear_loop_spec (entries : List (Nat × directory_entry)) :
    ∀ (tbl tbl1 : inode_table) (tofree_vec out : List Nat),
      clear_loop entries tbl tofree_vec = some (tbl1, out) →
      ∃ new : List Nat, out = tofree_vec ++ new ∧ new.Nodup ∧ ∀ i,
        entry_refs entries i ≤ (tbl i).dircachecnt ∧
        (tbl1 i).dircachecnt = (tbl i).dircachecnt - entry_refs entries i ∧
        (tbl1 i).destroyed = (tbl i).destroyed ∧
        (tbl1 i).lookupcnt = (tbl i).lookupcnt + (if i ∈ new then 1 else 0) ∧
        (i ∈ new → (tbl1 i).dircachecnt = 0 ∧ 1 ≤ entry_refs entries i) := by
  induction entries with
  | nil =>
    intro tbl tbl1 tf out h
    simp only [clear_loop, Option.some.injEq, Prod.mk.injEq] at h
    refine ⟨[], by simp [h.2], List.nodup_nil, fun i => ?_⟩
    rw [← h.1]
    simp [entry_refs]
  | cons hd rest ih =>
    obtain ⟨k, e⟩ := hd
    intro tbl tbl1 tf out h
    cases hino : e.nfs_inode with
    | none =>
      simp only [clear_loop, hino] at h
      obtain ⟨new, hout, hnd, hI⟩ := ih tbl tbl1 tf out h
      refine ⟨new, hout, hnd, fun i => ?_⟩
      rw [entry_refs_cons, hino]
      simpa using hI i
    | some j =>
      simp only [clear_loop, hino] at h
      by_cases hone : (tbl j).dircachecnt = 1
      · rw [if_pos hone] at h
        have hpos : (incref tbl j j).dircachecnt ≠ 0 := by
          simp [incref, hone]
        rw [destroy_of_pos e _ j hino hpos] at h
        simp only at h
        obtain ⟨new, hout, hnd, hI⟩ := ih _ tbl1 _ out h
        have hIj := hI j
        simp only [Function.update_same, incref, hone, Nat.sub_self] at hIj
        have hjnew : j ∉ new := fun hmem => by
          have := (hIj.2.2.2.2 hmem).2
          omega
        refine ⟨j :: new, by simp [hout], List.nodup_cons.2 ⟨hjnew, hnd⟩, fun i => ?_⟩
        by_cases hij : i = j
        · subst hij
          rw [entry_refs_cons, if_pos hino]
          simp only [if_neg hjnew, Nat.add_zero] at hIj
          simp only [List.mem_cons, true_or, if_true, hone]
          refine ⟨by omega, by omega, hIj.2.2.1, hIj.2.2.2.1, fun _ => ⟨by omega, by omega⟩⟩
        · have hIi := hI i
          have hne : ¬ e.nfs_inode = some i := by
            rw [hino]
            intro h
            exact hij (Option.some.inj h).symm
          simp only [Function.update_noteq hij, incref] at hIi
          rw [entry_refs_cons, if_neg hne]
          simp only [List.mem_cons, hij, false_or, Nat.add_zero]
          exact hIi
      · rw [if_neg hone] at h
        by_cases hzero : (tbl j).dircachecnt = 0
        · rw [destroy_of_zero e _ j hino hzero] at h
          cases h
        · rw [destroy_of_pos e _ j hino hzero] at h
          simp only at h
          obtain ⟨new, hout, hnd, hI⟩ := ih _ tbl1 _ out h
          refine ⟨new, hout, hnd, fun i => ?_⟩
          by_cases hij : i = j
          · subst hij
            have hIj := hI i
            simp only [Function.update_same] at hIj
            rw [entry_refs_cons, if_pos hino]
            refine ⟨by omega, by omega, hIj.2.2.1, hIj.2.2.2.1, fun hmem =>
              ⟨(hIj.2.2.2.2 hmem).1, by omega⟩⟩
          · have hIi := hI i
            have hne : ¬ e.nfs_inode = some i := by
              rw [hino]
              intro h
              exact hij (Option.some.inj h).symm
            simp only [Function.update_noteq hij] at hIi
            rw [entry_refs_cons, if_neg hne]
            simpa using hIi

/-- The second loop of `clear`, over distinct inodes that each hold a `lookupcnt`: it returns,
takes one `lookupcnt` from each of them, and destroys exactly those whose `lookupcnt` was 1
and whose `dircachecnt` is 0. -/
theorem decref_all_spec (tofree_vec : List Nat) :
    ∀ tbl : inode_table, tofree_vec.Nodup → (∀ i ∈ tofree_vec, 1 ≤ (tbl i).lookupcnt) →
      ∃ tbl2, decref_all tofree_vec tbl = some tbl2 ∧ ∀ i,
        (tbl2 i).dircachecnt = (tbl i).dircachecnt ∧
        (tbl2 i).lookupcnt = (tbl i).lookupcnt - (if i ∈ tofree_vec then 1 else 0) ∧
        ((tbl2 i).destroyed = true ↔
          ((tbl i).destroyed = true ∨
            (i ∈ tofree_vec ∧ (tbl i).lookupcnt = 1 ∧ (tbl i).dircachecnt = 0))) := by
  induction tofree_vec with
  | nil =>
    intro tbl _ _
    exact ⟨tbl, rfl, fun i => by simp⟩
  | cons j rest ih =>
    intro tbl hnd hpos
    have hj : (tbl j).lookupcnt ≠ 0 := by
      have := hpos j (List.mem_cons_self _ _)
      omega
    obtain ⟨hjrest, hndrest⟩ := List.nodup_cons.1 hnd
    have hdec : decref tbl j = some (Function.update tbl j
        { tbl j with
          lookupcnt := (tbl j).lookupcnt - 1,
          destroyed := (tbl j).destroyed ||
            decide ((tbl j).lookupcnt - 1 = 0 ∧ (tbl j).dircachecnt = 0) }) := by
      simp [decref, hj]
    have hpos1 : ∀ i ∈ rest, 1 ≤ ((Function.update tbl j
        { tbl j with
          lookupcnt := (tbl j).lookupcnt - 1,
          destroyed := (tbl j).destroyed ||
            decide ((tbl j).lookupcnt - 1 = 0 ∧ (tbl j).dircachecnt = 0) }) i).lookupcnt := by
      intro i hi
      have hij : i ≠ j := fun h => hjrest (h ▸ hi)
      rw [Function.update_noteq hij]
      exact hpos i (List.mem_cons_of_mem _ hi)
    obtain ⟨tbl2, hall, hI⟩ := ih _ hndrest hpos1
    refine ⟨tbl2, by simp only [decref_all, hdec, hall], fun i => ?_⟩
    have hIi := hI i
    by_cases hij : i = j
    · subst hij
      simp only [Function.update_same, if_neg hjrest, Nat.sub_zero, hjrest, false_and,
        or_false, Bool.or_eq_true, decide_eq_true_eq] at hIi
      simp only [List.mem_cons, true_or, if_true, true_and]
      refine ⟨hIi.1, hIi.2.1, ?_⟩
      rw [hIi.2.2]
      constructor
      · rintro (h | ⟨h1, h2⟩)
        · exact Or.inl h
        · exact Or.inr ⟨by omega, h2⟩
      · rintro (h | ⟨h1, h2⟩)
        · exact Or.inl h
        · exact Or.inr ⟨by omega, h2⟩
    · simp only [Function.update_noteq hij] at hIi
      simp only [List.mem_cons, hij, false_or]
      exact hIi

/-- What `clear` has done to the inodes when it returns: every inode keeps its `lookupcnt`,
lost one `dircachecnt` per entry that pointed to it (and had that many), stays destroyed if it
was, and is destroyed otherwise only with `lookupcnt` 0 and `dircachecnt` 0. -/
theorem clear_inodes (st st1 : dir_state) (h : readdirectory_cache.clear st = some st1) :
    ∀ i,
      entry_refs st.cache.dir_entries i ≤ (st.inodes i).dircachecnt ∧
      (st1.inodes i).lookupcnt = (st.inodes i).lookupcnt ∧
      (st1.inodes i).dircachecnt
        = (st.inodes i).dircachecnt - entry_refs st.cache.dir_entries i ∧
      ((st.inodes i).destroyed = true → (st1.inodes i).destroyed = true) ∧
      ((st1.inodes i).destroyed = true →
        (st.inodes i).destroyed = true ∨
          ((st1.inodes i).lookupcnt = 0 ∧ (st1.inodes i).dircachecnt = 0)) := by
  unfold readdirectory_cache.clear at h
  cases hloop : clear_loop st.cache.dir_entries st.inodes [] with
  | none =>
    rw [hloop] at h
    cases h
  | some r =>
    obtain ⟨tbl1, out⟩ := r
    rw [hloop] at h
    simp only at h
    obtain ⟨new, hout, hnd, hI⟩ := clear_loop_spec _ _ _ _ _ hloop
    rw [List.nil_append] at hout
    subst hout
    have hpos : ∀ i ∈ out, 1 ≤ (tbl1 i).lookupcnt := by
      intro i hi
      have := (hI i).2.2.2.1
      rw [if_pos hi] at this
      omega
    obtain ⟨tbl2, hall, hD⟩ := decref_all_spec out tbl1 hnd hpos
    rw [hall] at h
    simp only [Option.some.injEq] at h
    intro i
    obtain ⟨h1, h2, h3, h4, h5⟩ := hI i
    obtain ⟨d1, d2, d3⟩ := hD i
    rw [← h]
    simp only
    by_cases hmem : i ∈ out
    · rw [if_pos hmem] at h4 d2
      refine ⟨h1, by omega, by omega, fun hd => d3.2 (Or.inl (h3 ▸ hd)), fun hd => ?_⟩
      rcases d3.1 hd with hd1 | ⟨_, hl, hz⟩
      · exact Or.inl (h3 ▸ hd1)
      · exact Or.inr ⟨by omega, by omega⟩
    · rw [if_neg hmem] at h4 d2
      refine ⟨h1, by omega, by omega, fun hd => d3.2 (Or.inl (h3 ▸ hd)), fun hd => ?_⟩
      rcases d3.1 hd with hd1 | ⟨hin, _, _⟩
      · exact Or.inl (h3 ▸ hd1)
      · exact absurd hin hmem

/-- When every inode has at least as many `dircachecnt` references as there are cached entries
pointing to it, `clear` returns. -/
theorem clear_returns (st : dir_state)
    (hacc : ∀ i, entry_refs st.cache.dir_entries i ≤ (st.inodes i).dircachecnt) :
    ∃ st1, readdirectory_cache.clear st = some st1 := by
  obtain ⟨⟨tbl1, out⟩, hloop⟩ := clear_loop_returns st.cache.dir_entries st.inodes [] hacc
  obtain ⟨new, hout, hnd, hI⟩ := clear_loop_spec _ _ _ _ _ hloop
  rw [List.nil_append] at hout
  subst hout
  have hpos : ∀ i ∈ out, 1 ≤ (tbl1 i).lookupcnt := by
    intro i hi
    have := (hI i).2.2.2.1
    rw [if_pos hi] at this
    omega
  obtain ⟨tbl2, hall, _⟩ := decref_all_spec out tbl1 hnd hpos
  unfold readdirectory_cache.clear
  rw [hloop]
  simp only [hall]
  exact ⟨_, rfl⟩

/-- C18: for `remove` and for `clear`, whenever the call returns: every inode keeps its
`lookupcnt`; an inode destroyed by the call has `lookupcnt == 0` and `dircachecnt == 0`; an
inode with `lookupcnt >= 1` before the call is not destroyed by it; and an inode on which
another reference of the directory cache remains (after `remove`, an entry still cached that
points to it, each cached entry holding its `dircachecnt`; for `clear`, a `dircachecnt` beyond
those of the entries of this cache) is not destroyed by it. Both calls return when every inode
has at least as many `dircachecnt` references as there are cached entries pointing to it. -/
theorem remove_clear_destruction_safety (st : dir_state) :
    (∀ (cookie : Nat) (filename_hint : Option String) (b : Bool) (st1 : dir_state),
      readdirectory_cache.remove st cookie filename_hint = some (b, st1) → ∀ i,
        (st1.inodes i).lookupcnt = (st.inodes i).lookupcnt ∧
        ((st.inodes i).destroyed = false → (st1.inodes i).destroyed = true →
          (st1.inodes i).lookupcnt = 0 ∧ (st1.inodes i).dircachecnt = 0) ∧
        (1 ≤ (st.inodes i).lookupcnt → (st1.inodes i).destroyed = (st.inodes i).destroyed) ∧
        (entry_refs st.cache.dir_entries i ≤ (st.inodes i).dircachecnt →
          1 ≤ entry_refs st1.cache.dir_entries i →
          (st1.inodes i).destroyed = (st.inodes i).destroyed)) ∧
    (∀ st1 : dir_state, readdirectory_cache.clear st = some st1 → ∀ i,
        (st1.inodes i).lookupcnt = (st.inodes i).lookupcnt ∧
        ((st.inodes i).destroyed = false → (st1.inodes i).destroyed = true →
          (st1.inodes i).lookupcnt = 0 ∧ (st1.inodes i).dircachecnt = 0) ∧
        (1 ≤ (st.inodes i).lookupcnt → (st1.inodes i).destroyed = (st.inodes i).destroyed) ∧
        (entry_refs st.cache.dir_entries i < (st.inodes i).dircachecnt →
          (st1.inodes i).destroyed = (st.inodes i).destroyed)) ∧
    ((∀ i, entry_refs st.cache.dir_entries i ≤ (st.inodes i).dircachecnt) →
      (∀ (cookie : Nat) (filename_hint : Option String),
        ∃ b st1, readdirectory_cache.remove st cookie filename_hint = some (b, st1)) ∧
      ∃ st1, readdirectory_cache.clear st = some st1) := by
  refine ⟨?_, ?_, ?_⟩
  · intro cookie filename_hint b st1 h i
    rcases remove_inodes st st1 cookie filename_hint b h with
      hsame | ⟨dirent, inode, hf, hino, hpos, hentries, hother, hthis⟩
    · rw [hsame]
      refine ⟨rfl, fun h0 h1 => ?_, fun _ => rfl, fun _ _ => rfl⟩
      rw [h0] at h1
      cases h1
    · by_cases hi : i = inode
      · subst hi
        rw [hthis]
        simp only [Bool.or_eq_true, decide_eq_true_eq]
        refine ⟨trivial, fun h0 h1 => ?_, fun hl => ?_, fun hacc href => ?_⟩
        · rcases h1 with h1 | ⟨hl, hd⟩
          · rw [h0] at h1
            cases h1
          · exact ⟨hl, by omega⟩
        · have hne : ¬ ((st.inodes i).lookupcnt = 0 ∧ (st.inodes i).dircachecnt = 1) :=
            fun hc => by omega
          simp [hne]
        · have hle := entry_refs_erase st.cache.dir_entries _ dirent i hf hino
          rw [hentries] at href
          have hne : ¬ ((st.inodes i).lookupcnt = 0 ∧ (st.inodes i).dircachecnt = 1) :=
            fun hc => by omega
          simp [hne]
      · rw [hother i hi]
        refine ⟨rfl, fun h0 h1 => ?_, fun _ => rfl, fun _ _ => rfl⟩
        rw [h0] at h1
        cases h1
  · intro st1 h i
    obtain ⟨h1, h2, h3, h4, h5⟩ := clear_inodes st st1 h i
    have hkeep : ((st1.inodes i).lookupcnt = 0 ∧ (st1.inodes i).dircachecnt = 0 → False) →
        (st1.inodes i).destroyed = (st.inodes i).destroyed := by
      intro hno
      cases hd : (st.inodes i).destroyed with
      | true => exact h4 hd
      | false =>
        cases hd1 : (st1.inodes i).destroyed with
        | false => rfl
        | true =>
          rcases h5 hd1 with h6 | h6
          · rw [hd] at h6
            cases h6
          · exact absurd h6 hno
    refine ⟨h2, fun h0 hd1 => ?_, fun hl => hkeep (fun hc => by omega),
      fun hlt => hkeep (fun hc => by omega)⟩
    rcases h5 hd1 with h6 | h6
    · rw [h0] at h6
      cases h6
    · exact h6
  · intro hacc
    refine ⟨fun cookie filename_hint => ?_, clear_returns st hacc⟩
    apply remove_returns
    intro ck e i hf hino
    exact (entry_refs_pos _ ck e i (map_find_mem _ _ _ hf) hino).trans (hacc i)

/-- Witness for C18: with one cached entry pointing to inode 7, which has `dircachecnt` 1 and
`lookupcnt` 0, `remove(1)` returns and destroys inode 7 with both counts at 0, and so does
`clear`. -/
theorem remove_clear_destruction_safety_witness :
    ((sample_cached_state.inodes 7).destroyed = false ∧
      ∀ i, entry_refs sample_cached_state.cache.dir_entries i
        ≤ (sample_cached_state.inodes i).dircachecnt) ∧
    (∃ b st1, readdirectory_cache.remove sample_cached_state 1 none = some (b, st1) ∧
      (st1.inodes 7).destroyed = true ∧
      (st1.inodes 7).lookupcnt = 0 ∧ (st1.inodes 7).dircachecnt = 0) ∧
    (∃ st1, readdirectory_cache.clear sample_cached_state = some st1 ∧
      (st1.inodes 7).destroyed = true ∧
      (st1.inodes 7).lookupcnt = 0 ∧ (st1.inodes 7).dircachecnt = 0) := by
  have hacc : ∀ i, entry_refs sample_cached_state.cache.dir_entries i
      ≤ (sample_cached_state.inodes i).dircachecnt := by
    intro i
    by_cases hi : i = 7
    · subst hi
      decide
    · have hne : ¬ (7 = i) := fun h => hi h.symm
      simp [sample_cached_state, entry_refs, directory_entry.create, hne]
  have hthm := remove_clear_destruction_safety sample_cached_state
  obtain ⟨b, st1, hrem⟩ := (hthm.2.2 hacc).1 1 none
  obtain ⟨st2, hclear⟩ := (hthm.2.2 hacc).2
  have hd1 : (readdirectory_cache.remove sample_cached_state 1 none).map
      (fun r => (r.2.inodes 7).destroyed) = some true := rfl
  have hd2 : (readdirectory_cache.clear sample_cached_state).map
      (fun r => (r.inodes 7).destroyed) = some true := rfl
  rw [hrem] at hd1
  rw [hclear] at hd2
  simp only [Option.map_some', Option.some.injEq] at hd1 hd2
  exact ⟨⟨rfl, hacc⟩,
    ⟨b, st1, hrem, hd1, (hthm.1 1 none b st1 hrem 7).2.1 rfl hd1⟩,
    ⟨st2, hclear, hd2, (hthm.2.1 st2 hclear 7).2.1 rfl hd2⟩⟩

/-! ## Directory cache: contiguous cookies, size cap -/

/-- C21: on an empty cache, `add` of READDIR entries "a" (cookie 1) and "b" (cookie 2),
`remove(1)` and `set_eof(2)` at clock reading 1000 leave `seq_last_cookie == 2` and mark the
cache confirmed (`confirmed_msecs == 1000`, `is_confirmed()` true), while cookie 1, which lies
in `[1, seq_last_cookie]`, is not a key of `dir_entries`. -/
theorem seq_last_cookie_not_contiguous :
    let s2 : dir_state :=
      { cache := { dir_entries := [(1, directory_entry.create_stub "a" 1 100),
                                   (2, directory_entry.create_stub "b" 2 101)],
                   dnlc_map := [("b", 2), ("a", 1)], eof := false, eof_cookie := 0,
                   seq_last_cookie := 2, confirmed_msecs := 0, cookie_verifier := 0,
                   cache_size := 130 },
        inodes := sample_inodes, bigcookie := UINT64_MAX / 2 }
    (∃ s1 : dir_state,
      readdirectory_cache.add sample_cache_params (dir_state.init sample_inodes)
          (directory_entry.create_stub "a" 1 100) = some (true, s1) ∧
      readdirectory_cache.add sample_cache_params s1
          (directory_entry.create_stub "b" 2 101) = some (true, s2)) ∧
    ∃ s3 : dir_state,
      readdirectory_cache.remove s2 1 none = some (true, s3) ∧
      s3.cache.seq_last_cookie = 2 ∧
      map_find s3.cache.dir_entries 1 = none ∧
      (s3.cache.set_eof 2 1000).seq_last_cookie = 2 ∧
      (s3.cache.set_eof 2 1000).confirmed_msecs = 1000 ∧
      (s3.cache.set_eof 2 1000).is_confirmed 1000 60 = true ∧
      map_find (s3.cache.set_eof 2 1000).dir_entries 1 = none :=
  ⟨⟨_, rfl, rfl⟩, _, rfl, rfl, rfl, rfl, rfl, rfl, rfl⟩

/-- C22: for every cache state with `cache_size >= MAX_CACHE_SIZE_LIMIT` and every entry,
`add` returns false and leaves `dir_entries`, `dnlc_map`, `cache_size` and `seq_last_cookie`
(and everything else) unchanged, so `lookup` by any cookie or name returns afterwards what it
returns before. -/
theorem add_at_size_cap (P : cache_params) (st : dir_state) (entry : directory_entry)
    (hcap : st.cache.cache_size ≥ P.MAX_CACHE_SIZE_LIMIT) :
    ∃ st1 : dir_state,
      readdirectory_cache.add P st entry = some (false, st1) ∧
      st1.cache.dir_entries = st.cache.dir_entries ∧
      st1.cache.dnlc_map = st.cache.dnlc_map ∧
      st1.cache.cache_size = st.cache.cache_size ∧
      st1.cache.seq_last_cookie = st.cache.seq_last_cookie ∧
      st1 = st ∧
      ∀ (cookie : Nat) (filename_hint : Option String),
        readdirectory_cache.lookup st1 cookie filename_hint
          = readdirectory_cache.lookup st cookie filename_hint := by
  refine ⟨st, ?_, rfl, rfl, rfl, rfl, rfl, fun _ _ => rfl⟩
  unfold readdirectory_cache.add
  rw [if_pos hcap]

/-- Witness for C22: with a cap of 100 and two cached READDIR entries (`cache_size` 130), `add`
of a third entry "c" (cookie 3) returns false, and `lookup(1)` still returns entry "a". -/
theorem add_at_size_cap_witness :
    let s2 : dir_state :=
      { cache := { dir_entries := [(1, directory_entry.create_stub "a" 1 100),
                                   (2, directory_entry.create_stub "b" 2 101)],
                   dnlc_map := [("b", 2), ("a", 1)], eof := false, eof_cookie := 0,
                   seq_last_cookie := 2, confirmed_msecs := 0, cookie_verifier := 0,
                   cache_size := 130 },
        inodes := sample_inodes, bigcookie := UINT64_MAX / 2 }
    s2.cache.cache_size ≥ sample_cache_params.MAX_CACHE_SIZE_LIMIT ∧
    ∃ st1 : dir_state,
      readdirectory_cache.add sample_cache_params s2 (directory_entry.create_stub "c" 3 102)
        = some (false, st1) ∧
      (readdirectory_cache.lookup st1 1 none).1 = some (directory_entry.create_stub "a" 1 100) := by
  intro s2
  obtain ⟨st1, hadd, _, _, _, _, hst, hlk⟩ :=
    add_at_size_cap sample_cache_params s2 (directory_entry.create_stub "c" 3 102) (by decide)
  refine ⟨by decide, st1, hadd, ?_⟩
  rw [hlk 1 none]
  rfl

/-! ## Directory cache: `remove` and `dnlc_lookup` -/

/-- Looking up a key after erasing a key. -/
theorem map_find_erase {K V : Type} [DecidableEq K] (m : List (K × V)) (k k1 : K) :
    map_find (map_erase m k) k1 = if k1 = k then none else map_find m k1 := by
  induction m with
  | nil => simp [map_erase, map_find]
  | cons hd tl ih =>
    obtain ⟨k0, v0⟩ := hd
    unfold map_erase at ih ⊢
    by_cases h0 : k0 = k
    · subst h0
      simp only [List.filter_cons, ne_eq, not_true_eq_false, decide_False, Bool.false_eq_true,
        if_false, ih, map_find]
      by_cases h1 : k1 = k0
      · simp [h1]
      · have h2 : ¬ k0 = k1 := fun h => h1 h.symm
        simp [h1, h2]
    · simp only [List.filter_cons, ne_eq, h0, not_false_eq_true, decide_True, if_true, map_find,
        ih]
      by_cases h1 : k0 = k1
      · subst h1
        simp [h0]
      · simp [h1]

/-- What `remove` does when the addressed entry is cached: both maps lose it, and its inode, if
it has one, loses one `dircachecnt` and is destroyed when that was the last one and its
`lookupcnt` is 0; with no `dircachecnt` to drop the call does not return. -/
theorem remove_found (st : dir_state) (cookie : Nat) (filename_hint : Option String)
    (e : directory_entry)
    (hz : ¬ (filename_hint.isSome = true ∧ st.cache.resolve_cookie cookie filename_hint = 0))
    (hf : map_find st.cache.dir_entries (st.cache.resolve_cookie cookie filename_hint)
      = some e) :
    readdirectory_cache.remove st cookie filename_hint =
      match e.nfs_inode with
      | none =>
        some (true,
          { st with cache :=
              { st.cache with
                dnlc_map := map_erase st.cache.dnlc_map e.name,
                dir_entries := map_erase st.cache.dir_entries
                  (st.cache.resolve_cookie cookie filename_hint) } })
      | some inode =>
        if (st.inodes inode).dircachecnt = 0 then none
        else
          some (true,
            { st with
              cache :=
                { st.cache with
                  dnlc_map := map_erase st.cache.dnlc_map e.name,
                  dir_entries := map_erase st.cache.dir_entries
                    (st.cache.resolve_cookie cookie filename_hint) },
              inodes := Function.update st.inodes inode
                { st.inodes inode with
                  dircachecnt := (st.inodes inode).dircachecnt - 1,
                  destroyed := (st.inodes inode).destroyed ||
                    decide ((st.inodes inode).lookupcnt = 0 ∧
                      (st.inodes inode).dircachecnt = 1) } }) := by
  unfold readdirectory_cache.remove
  simp only
  rw [if_neg hz, hf]
  simp only
  cases hino : e.nfs_inode with
  | none => rfl
  | some inode =>
    simp only
    by_cases hone : (st.inodes inode).dircachecnt = 1
    · rw [if_pos hone]
      simp [directory_entry.destroy, hino, dircachecnt_dec, incref, decref, hone]
    · rw [if_neg hone]
      by_cases hzero : (st.inodes inode).dircachecnt = 0
      · simp [directory_entry.destroy, hino, dircachecnt_dec, hzero]
      · simp [directory_entry.destroy, hino, dircachecnt_dec, hzero, hone]

/-- C25: `remove`, addressed by cookie or by name. If the addressed entry is cached (and, when
it has an inode, holds its `dircachecnt` on it), `remove` returns true, that cookie disappears
from `dir_entries` and the entry's name from `dnlc_map`, every other cookie and name is mapped
as before, the `dircachecnt` of the entry's inode is one less than before and every other count
of every inode is as before. If the addressed entry is not cached, `remove` returns false and
the whole state, maps and reference counts included, is unchanged. -/
theorem remove_by_cookie_or_name (st : dir_state) (cookie : Nat)
    (filename_hint : Option String) :
    (∀ e : directory_entry,
      ¬ (filename_hint.isSome = true ∧ st.cache.resolve_cookie cookie filename_hint = 0) →
      map_find st.cache.dir_entries (st.cache.resolve_cookie cookie filename_hint) = some e →
      (∀ i, e.nfs_inode = some i → 1 ≤ (st.inodes i).dircachecnt) →
      ∃ st1 : dir_state,
        readdirectory_cache.remove st cookie filename_hint = some (true, st1) ∧
        map_find st1.cache.dir_entries (st.cache.resolve_cookie cookie filename_hint) = none ∧
        (∀ k, k ≠ st.cache.resolve_cookie cookie filename_hint →
          map_find st1.cache.dir_entries k = map_find st.cache.dir_entries k) ∧
        map_find st1.cache.dnlc_map e.name = none ∧
        (∀ n, n ≠ e.name → map_find st1.cache.dnlc_map n = map_find st.cache.dnlc_map n) ∧
        (∀ i, e.nfs_inode = some i →
          (st1.inodes i).dircachecnt + 1 = (st.inodes i).dircachecnt ∧
          (st1.inodes i).lookupcnt = (st.inodes i).lookupcnt) ∧
        (∀ i, e.nfs_inode ≠ some i → st1.inodes i = st.inodes i)) ∧
    ((filename_hint.isSome = true ∧ st.cache.resolve_cookie cookie filename_hint = 0) ∨
        map_find st.cache.dir_entries (st.cache.resolve_cookie cookie filename_hint) = none →
      readdirectory_cache.remove st cookie filename_hint = some (false, st)) := by
  constructor
  · intro e hz hf href
    have hrem := remove_found st cookie filename_hint e hz hf
    cases hino : e.nfs_inode with
    | none =>
      rw [hino] at hrem
      refine ⟨_, hrem, ?_, ?_, ?_, ?_, ?_, ?_⟩
      · simp [map_find_erase]
      · intro k hk
        simp [map_find_erase, hk]
      · simp [map_find_erase]
      · intro n hn
        simp [map_find_erase, hn]
      · intro i hi
        cases hi
      · intro i _
        rfl
    | some inode =>
      have hpos := href inode hino
      have hnz : (st.inodes inode).dircachecnt ≠ 0 := by omega
      rw [hino] at hrem
      simp only [hnz, if_false] at hrem
      refine ⟨_, hrem, ?_, ?_, ?_, ?_, ?_, ?_⟩
      · simp [map_find_erase]
      · intro k hk
        simp [map_find_erase, hk]
      · simp [map_find_erase]
      · intro n hn
        simp [map_find_erase, hn]
      · intro i hi
        cases hi
        simp only [Function.update_same]
        exact ⟨by omega, trivial⟩
      · intro i hi
        have hne : i ≠ inode := fun h => hi (by rw [h])
        simp only [Function.update_noteq hne]
  · intro hnot
    unfold readdirectory_cache.remove
    simp only
    by_cases hz : filename_hint.isSome = true ∧ st.cache.resolve_cookie cookie filename_hint = 0
    · rw [if_pos hz]
    · rw [if_neg hz]
      rcases hnot with h | h
      · exact absurd h hz
      · rw [h]

/-- Witness for C25: with entry "a" cached under cookie 1 and pointing to inode 7, `remove` by
name "a" returns true, empties both maps and takes the `dircachecnt` of inode 7 from 1 to 0;
`remove(5)` of a cookie that is not cached returns false and changes nothing. -/
theorem remove_by_cookie_or_name_witness :
    (∃ st1 : dir_state,
      readdirectory_cache.remove sample_cached_state 0 (some "a") = some (true, st1) ∧
      map_find st1.cache.dir_entries 1 = none ∧
      map_find st1.cache.dnlc_map "a" = none ∧
      (st1.inodes 7).dircachecnt + 1 = (sample_cached_state.inodes 7).dircachecnt) ∧
    readdirectory_cache.remove sample_cached_state 5 none = some (false, sample_cached_state) := by
  have h1 := (remove_by_cookie_or_name sample_cached_state 0 (some "a")).1
    (directory_entry.create "a" 1 (sample_inodes 7).attr 7 sample_inodes).1
    (by decide) rfl
    (fun i hi => by
      have h7 : i = 7 := (Option.some.inj hi).symm
      subst h7
      decide)
  have h2 := (remove_by_cookie_or_name sample_cached_state 5 none).2 (Or.inr rfl)
  obtain ⟨st1, hrem, hd, _, hn, _, hcnt, _⟩ := h1
  exact ⟨⟨st1, hrem, hd, hn, (hcnt 7 rfl).1⟩, h2⟩

/-- Inserting under one key does not change what another key maps to. -/
theorem map_find_emplace_ne {V : Type} (m : List (Nat × V)) (k k1 : Nat) (v : V)
    (hne : k1 ≠ k) : map_find (map_emplace m k v) k1 = map_find m k1 := by
  induction m with
  | nil =>
    have h : ¬ k = k1 := fun h => hne h.symm
    simp [map_emplace, map_find, h]
  | cons hd tl ih =>
    obtain ⟨k0, v0⟩ := hd
    have h : ¬ k = k1 := fun h => hne h.symm
    by_cases hlt : k < k0
    · simp [map_emplace, hlt, map_find, h]
    · by_cases heq : k = k0
      · simp [map_emplace, hlt, heq]
      · simp only [map_emplace, hlt, heq, if_false, map_find, ih]

/-- C24: for a cache below the size cap in which name `n` maps to cookie `c1` (a valid cookie,
so not 0) whose entry references inode `I1` with `dircachecnt(I1) = 1`, `lookupcnt(I1) = k >= 1`
and `I1` not destroyed: `add(e)` with `e.name = n`, `e.cookie` not in `dir_entries` and the
inode `I2 != I1` of `e` returns true, and afterwards `c1` is no longer cached, `n` maps to
`e.cookie`, the entry under `e.cookie` is `e` (which references `I2`), `dircachecnt(I1) == 0`,
`lookupcnt(I1) == k` and `I1` has not been destroyed. -/
theorem add_rename_collision (P : cache_params) (st : dir_state) (e e1 : directory_entry)
    (n : String) (c1 I1 I2 k : Nat)
    (hcap : st.cache.cache_size < P.MAX_CACHE_SIZE_LIMIT)
    (hname : map_find st.cache.dnlc_map n = some c1) (hc1 : c1 ≠ 0)
    (hentry : map_find st.cache.dir_entries c1 = some e1) (hI1 : e1.nfs_inode = some I1)
    (hdc : (st.inodes I1).dircachecnt = 1) (hlc : (st.inodes I1).lookupcnt = k) (hk : 1 ≤ k)
    (hlive : (st.inodes I1).destroyed = false)
    (hen : e.name = n) (hnew : map_find st.cache.dir_entries e.cookie = none)
    (he2 : e.nfs_inode = some I2) (_hne : I2 ≠ I1) :
    ∃ st1 : dir_state,
      readdirectory_cache.add P st e = some (true, st1) ∧
      map_find st1.cache.dir_entries c1 = none ∧
      map_find st1.cache.dnlc_map n = some e.cookie ∧
      map_find st1.cache.dir_entries e.cookie = some e ∧ e.nfs_inode = some I2 ∧
      (st1.inodes I1).dircachecnt = 0 ∧
      (st1.inodes I1).lookupcnt = k ∧
      (st1.inodes I1).destroyed = false := by
  have hcookie : st.cache.filename_to_cookie e.name = c1 := by
    simp [readdirectory_cache.filename_to_cookie, hen, hname]
  have hz : ¬ ((none : Option String).isSome = true ∧ st.cache.resolve_cookie c1 none = 0) := by
    simp
  have hrem := remove_found st c1 none e1 hz hentry
  simp only [hI1, hdc, one_ne_zero, if_false, readdirectory_cache.resolve_cookie] at hrem
  have hcc : e.cookie ≠ c1 := by
    intro h
    rw [h, hentry] at hnew
    cases hnew
  have hkz : ¬ (k = 0) := by omega
  unfold readdirectory_cache.add
  rw [if_neg (by omega)]
  simp only [hcookie, ne_eq, hc1, not_false_eq_true, if_true, hrem, map_find_erase, hcc,
    if_false, hnew]
  refine ⟨_, rfl, ?_, ?_, ?_, he2, ?_, ?_, ?_⟩
  · simp only
    rw [map_find_emplace_ne _ _ _ _ (fun h => hcc h.symm)]
    simp [map_find_erase]
  · simp [map_assign, map_find, hen]
  · simp only
    apply map_find_emplace
    intro p hp
    have hp1 := ((mem_map_erase _ _ _).1 hp).1
    exact (map_find_eq_none _ _).1 hnew p hp1
  · simp
  · simp [hlc]
  · simp [hlive, hlc, hkz]

/-- Witness for C24: "a" is cached under cookie 1 for inode 7 (`dircachecnt` 1, `lookupcnt`
1); `add` of an entry "a" with cookie 2 for inode 8 returns true, cookie 1 is gone, "a" maps to
cookie 2, and inode 7 is left with `dircachecnt` 0 and `lookupcnt` 1, not destroyed. -/
theorem add_rename_collision_witness :
    ∃ st1 : dir_state,
      readdirectory_cache.add sample_cache_params sample_rename_state
          (directory_entry.create "a" 2 (sample_inodes 8).attr 8 sample_inodes).1
        = some (true, st1) ∧
      map_find st1.cache.dir_entries 1 = none ∧
      map_find st1.cache.dnlc_map "a" = some 2 ∧
      (st1.inodes 7).dircachecnt = 0 ∧
      (st1.inodes 7).lookupcnt = 1 ∧
      (st1.inodes 7).destroyed = false := by
  obtain ⟨st1, hadd, h1, h2, _, _, h3, h4, h5⟩ :=
    add_rename_collision sample_cache_params sample_rename_state
      (directory_entry.create "a" 2 (sample_inodes 8).attr 8 sample_inodes).1
      (directory_entry.create "a" 1 (sample_inodes 7).attr 7 sample_inodes).1
      "a" 1 7 8 1 (by decide) rfl (by decide) rfl rfl rfl rfl (Nat.le_refl 1) rfl rfl rfl rfl
      (by decide)
  exact ⟨st1, hadd, h1, h2, h3, h4, h5⟩

/-- C23: `dnlc_lookup(name)` has exactly three outcomes. If `name` maps to a cookie whose entry
has an inode, it returns that inode, with the `lookupcnt` of the inode one higher, its
`dircachecnt` at its value before the call and nothing else changed. If the entry has no inode
it returns null and stores false through `negative_confirmed`. If no entry exists for `name`
it returns null and stores `is_confirmed()`. In all three cases the cache, so both maps, is
unchanged. -/
theorem dnlc_lookup_outcomes (st : dir_state) (name : String) (now actimeo : Nat) :
    (∀ (e : directory_entry) (i : Nat),
      st.cache.filename_to_cookie name ≠ 0 →
      map_find st.cache.dir_entries (st.cache.filename_to_cookie name) = some e →
      e.nfs_inode = some i →
      ∃ st1 : dir_state,
        readdirectory_cache.dnlc_lookup st name now actimeo = some (some i, none, st1) ∧
        st1.cache = st.cache ∧
        (st1.inodes i).lookupcnt = (st.inodes i).lookupcnt + 1 ∧
        (st1.inodes i).dircachecnt = (st.inodes i).dircachecnt ∧
        (st1.inodes i).destroyed = (st.inodes i).destroyed ∧
        (∀ j, j ≠ i → st1.inodes j = st.inodes j)) ∧
    (∀ e : directory_entry,
      st.cache.filename_to_cookie name ≠ 0 →
      map_find st.cache.dir_entries (st.cache.filename_to_cookie name) = some e →
      e.nfs_inode = none →
      readdirectory_cache.dnlc_lookup st name now actimeo = some (none, some false, st)) ∧
    (st.cache.filename_to_cookie name = 0 ∨
        map_find st.cache.dir_entries (st.cache.filename_to_cookie name) = none →
      readdirectory_cache.dnlc_lookup st name now actimeo
        = some (none, some (st.cache.is_confirmed now actimeo), st)) := by
  refine ⟨?_, ?_, ?_⟩
  · intro e i hck hf hino
    unfold readdirectory_cache.dnlc_lookup readdirectory_cache.lookup
    simp only [readdirectory_cache.resolve_cookie, Option.isSome_some, true_and, hck, if_false,
      hf, hino]
    simp only [dircachecnt_dec, incref, dircachecnt_inc, Function.update_same,
      Nat.add_eq_zero, one_ne_zero, and_false, if_false]
    refine ⟨_, rfl, rfl, ?_, ?_, ?_, ?_⟩
    · simp
    · simp
    · simp
    · intro j hj
      simp [Function.update_noteq hj]
  · intro e hck hf hino
    unfold readdirectory_cache.dnlc_lookup readdirectory_cache.lookup
    simp only [readdirectory_cache.resolve_cookie, Option.isSome_some, true_and, hck, if_false,
      hf, hino]
  · intro hnone
    unfold readdirectory_cache.dnlc_lookup readdirectory_cache.lookup
    simp only [readdirectory_cache.resolve_cookie, Option.isSome_some, true_and]
    by_cases hck : st.cache.filename_to_cookie name = 0
    · simp only [hck, if_true]
    · rcases hnone with h | h
      · exact absurd h hck
      · simp only [hck, if_false, h]

/-- Witness for C23: with "a" cached under cookie 1 for inode 7, `dnlc_lookup("a")` returns
inode 7 with `lookupcnt` 1 and `dircachecnt` still 1; `dnlc_lookup("b")`, for which no entry
exists, returns null and stores `is_confirmed()`. -/
theorem dnlc_lookup_outcomes_witness :
    (∃ st1 : dir_state,
      readdirectory_cache.dnlc_lookup sample_cached_state "a" 1000 60
        = some (some 7, none, st1) ∧
      st1.cache = sample_cached_state.cache ∧
      (st1.inodes 7).lookupcnt = 1 ∧ (st1.inodes 7).dircachecnt = 1) ∧
    readdirectory_cache.dnlc_lookup sample_cached_state "b" 1000 60
      = some (none, some (sample_cached_state.cache.is_confirmed 1000 60),
          sample_cached_state) := by
  have h := dnlc_lookup_outcomes sample_cached_state "a" 1000 60
  have hb := (dnlc_lookup_outcomes sample_cached_state "b" 1000 60).2.2 (Or.inl rfl)
  obtain ⟨st1, hl, hc, hlc, hdc, _, _⟩ := h.1
    (directory_entry.create "a" 1 (sample_inodes 7).attr 7 sample_inodes).1 7
    (by decide) rfl rfl
  exact ⟨⟨st1, hl, hc, hlc, hdc⟩, hb⟩

/-! ## Directory cache: `dnlc_add` on a cached name -/

/-- Taking a `dircachecnt` reference and dropping it again leaves the inodes as they were. -/
theorem dircachecnt_dec_inc (tbl : inode_table) (inode : Nat) :
    dircachecnt_dec (dircachecnt_inc tbl inode) inode = some tbl := by
  unfold dircachecnt_dec dircachecnt_inc
  simp only [Function.update_same, Nat.add_eq_zero, one_ne_zero, and_false, if_false,
    Nat.add_sub_cancel, Function.update_idem, Option.some.injEq]
  exact Function.update_eq_self inode tbl

/-- When the name maps to an entry whose inode is the given inode, `dnlc_add` returns and
leaves the whole state as it was. -/
theorem dnlc_add_matching (P : cache_params) (st : dir_state) (name : String) (inode : Nat)
    (e : directory_entry) (hck : st.cache.filename_to_cookie name ≠ 0)
    (hf : map_find st.cache.dir_entries (st.cache.filename_to_cookie name) = some e)
    (hino : e.nfs_inode = some inode) :
    readdirectory_cache.dnlc_add P st name inode = some st := by
  unfold readdirectory_cache.dnlc_add readdirectory_cache.lookup
  simp only [hck, ne_eq, not_false_eq_true, if_true, readdirectory_cache.resolve_cookie,
    Option.isSome_none, Bool.false_eq_true, false_and, if_false, hf, hino,
    dircachecnt_dec_inc]

/-- After replacing the value under a key that is present, the key maps to the new value. -/
theorem map_find_replace {K V : Type} [DecidableEq K] (m : List (K × V)) (k : K) (v v0 : V)
    (h : map_find m k = some v0) : map_find (map_replace m k v) k = some v := by
  induction m with
  | nil => simp [map_find] at h
  | cons hd tl ih =>
    obtain ⟨k1, v1⟩ := hd
    have hcons : map_replace ((k1, v1) :: tl) k v
        = (if k1 = k then (k, v) else (k1, v1)) :: map_replace tl k v := rfl
    rw [hcons]
    by_cases hk : k1 = k
    · rw [if_pos hk]
      simp [map_find]
    · rw [if_neg hk]
      simp only [map_find, hk, if_false] at h ⊢
      exact ih h

/-- When `add` is called below the cap with a cookie that is not a key of `dir_entries` and it
returns, it returns true and its result is the insertion of the entry. -/
theorem add_new_cookie_result (P : cache_params) (st st1 : dir_state) (entry : directory_entry)
    (b : Bool) (hcap : st.cache.cache_size < P.MAX_CACHE_SIZE_LIMIT)
    (hnew : map_find st.cache.dir_entries entry.cookie = none)
    (h : readdirectory_cache.add P st entry = some (b, st1)) :
    b = true ∧ ∃ st0 : dir_state, map_find st0.cache.dir_entries entry.cookie = none ∧
      st1 = readdirectory_cache.inserted P st0 entry := by
  have hb : b = true := by
    unfold readdirectory_cache.add at h
    rw [if_neg (by omega)] at h
    simp only at h
    by_cases hname : st.cache.filename_to_cookie entry.name ≠ 0
    · rw [if_pos hname] at h
      cases hrem : readdirectory_cache.remove st (st.cache.filename_to_cookie entry.name)
          none with
      | none =>
        rw [hrem] at h
        cases h
      | some r =>
        obtain ⟨b0, st0⟩ := r
        rw [hrem] at h
        simp only at h
        have hnew0 : map_find st0.cache.dir_entries entry.cookie = none := by
          rcases remove_result st st0 _ none b0 hrem with
            ⟨_, hs, _⟩ | ⟨_, _, _, _, _, hcache, _⟩
          · subst hs
            exact hnew
          · rw [hcache]
            exact map_find_erase_none _ _ _ hnew
        rw [hnew0] at h
        simp only [Option.some.injEq, Prod.mk.injEq] at h
        exact h.1.symm
    · rw [if_neg hname] at h
      simp only [hnew, Option.some.injEq, Prod.mk.injEq] at h
      exact h.1.symm
  subst hb
  exact ⟨rfl, add_true_result P st st1 entry h⟩

/-- After the tail of `dnlc_add` has run below the cap with a non-zero cookie that was not a
key of `dir_entries`, the name maps to that cookie and the cookie to an entry for the inode. -/
theorem dnlc_add_new_result (P : cache_params) (st st1 : dir_state) (filename : String)
    (cookie inode : Nat) (hcap : st.cache.cache_size < P.MAX_CACHE_SIZE_LIMIT)
    (hnew : map_find st.cache.dir_entries cookie = none)
    (h : readdirectory_cache.dnlc_add_new P st filename cookie inode = some st1) :
    st1.cache.filename_to_cookie filename = cookie ∧
    ∃ e, map_find st1.cache.dir_entries cookie = some e ∧ e.nfs_inode = some inode := by
  unfold readdirectory_cache.dnlc_add_new at h
  simp only at h
  cases hadd : readdirectory_cache.add P
      { st with inodes := (directory_entry.create filename cookie (st.inodes inode).attr inode
          st.inodes).2 }
      (directory_entry.create filename cookie (st.inodes inode).attr inode st.inodes).1 with
  | none =>
    rw [hadd] at h
    cases h
  | some res =>
    obtain ⟨b, st2⟩ := res
    rw [hadd] at h
    simp only [Option.some.injEq] at h
    subst h
    obtain ⟨_, st0, hnew0, hst⟩ := add_new_cookie_result P
      { st with inodes := (directory_entry.create filename cookie (st.inodes inode).attr inode
          st.inodes).2 }
      st2 (directory_entry.create filename cookie (st.inodes inode).attr inode st.inodes).1
      b hcap hnew hadd
    rw [hst]
    constructor
    · simp [readdirectory_cache.inserted, readdirectory_cache.filename_to_cookie, map_assign,
        map_find, directory_entry.create]
    · exact ⟨(directory_entry.create filename cookie (st.inodes inode).attr inode st.inodes).1,
        map_find_emplace _ _ _ ((map_find_eq_none _ _).1 hnew0), rfl⟩

/-- Whenever `dnlc_add(name, inode)` returns on a cache below its size cap, with the counter
`bigcookie` non-zero and not a key of `dir_entries`, the name afterwards maps to a non-zero
cookie whose entry has the given inode. -/
theorem dnlc_add_result_matches (P : cache_params) (st st1 : dir_state) (name : String)
    (inode : Nat) (hcap : st.cache.cache_size < P.MAX_CACHE_SIZE_LIMIT)
    (hbig : st.bigcookie ≠ 0) (hfresh : map_find st.cache.dir_entries st.bigcookie = none)
    (h : readdirectory_cache.dnlc_add P st name inode = some st1) :
    st1.cache.filename_to_cookie name ≠ 0 ∧
    ∃ e, map_find st1.cache.dir_entries (st1.cache.filename_to_cookie name) = some e ∧
      e.nfs_inode = some inode := by
  unfold readdirectory_cache.dnlc_add at h
  simp only at h
  by_cases hck : st.cache.filename_to_cookie name ≠ 0
  · rw [if_pos hck] at h
    unfold readdirectory_cache.lookup at h
    simp only [readdirectory_cache.resolve_cookie, Option.isSome_none, Bool.false_eq_true,
      false_and, if_false] at h
    cases hf : map_find st.cache.dir_entries (st.cache.filename_to_cookie name) with
    | none =>
      rw [hf] at h
      cases h
    | some de =>
      rw [hf] at h
      simp only at h
      cases hde : de.nfs_inode with
      | none =>
        simp only [hde, reduceCtorEq, if_false, Option.some.injEq] at h
        subst h
        have hname : readdirectory_cache.filename_to_cookie
            { st.cache with
              dir_entries := map_replace st.cache.dir_entries
                (st.cache.filename_to_cookie name)
                { (de.update_inode st.inodes inode).1 with
                  attributes := ((de.update_inode st.inodes inode).2 inode).attr } } name
            = st.cache.filename_to_cookie name := rfl
        refine ⟨hck,
          { (de.update_inode st.inodes inode).1 with
            attributes := ((de.update_inode st.inodes inode).2 inode).attr }, ?_, rfl⟩
        simp only [hname]
        exact map_find_replace _ _ _ de hf
      | some stale =>
        by_cases hm : stale = inode
        · subst hm
          simp only [hde, if_true, dircachecnt_dec_inc, Option.some.injEq] at h
          subst h
          exact ⟨hck, de, hf, hde⟩
        · have hne : ¬ (some stale = some inode) := fun hh => hm (Option.some.inj hh)
          simp only [hde, hne, if_false, dircachecnt_dec_inc] at h
          cases hrem : readdirectory_cache.remove
              { st with inodes := st.inodes } (st.cache.filename_to_cookie name) none with
          | none =>
            rw [hrem] at h
            cases h
          | some r =>
            obtain ⟨b2, st2⟩ := r
            rw [hrem] at h
            simp only at h
            obtain ⟨hsz, _⟩ := remove_keeps_size_and_seq _ st2 _ none b2 hrem
            have hbc : st2.bigcookie = st.bigcookie ∧
                map_find st2.cache.dir_entries st.bigcookie = none := by
              rcases remove_result _ st2 _ none b2 hrem with
                ⟨_, hs, _⟩ | ⟨_, _, _, _, _, hcache, hbig2⟩
              · subst hs
                exact ⟨rfl, hfresh⟩
              · refine ⟨hbig2, ?_⟩
                rw [hcache]
                exact map_find_erase_none _ _ _ hfresh
            rw [hbc.1] at h
            obtain ⟨hn, e, he, hi⟩ := dnlc_add_new_result P
              { st2 with bigcookie := u64 (st.bigcookie + 1) } st1 name st.bigcookie inode
              (by rw [hsz]; exact hcap) hbc.2 h
            rw [hn]
            exact ⟨hbig, e, he, hi⟩
  · rw [if_neg hck] at h
    obtain ⟨hn, e, he, hi⟩ := dnlc_add_new_result P
      { st with bigcookie := u64 (st.bigcookie + 1) } st1 name st.bigcookie inode hcap hfresh h
    rw [hn]
    exact ⟨hbig, e, he, hi⟩

/-- With the entry's name not cached, `add` returns. -/
theorem add_returns_of_uncached_name (P : cache_params) (st : dir_state)
    (entry : directory_entry) (hname : st.cache.filename_to_cookie entry.name = 0) :
    ∃ b st1, readdirectory_cache.add P st entry = some (b, st1) := by
  unfold readdirectory_cache.add
  by_cases hcap : st.cache.cache_size ≥ P.MAX_CACHE_SIZE_LIMIT
  · rw [if_pos hcap]
    exact ⟨_, _, rfl⟩
  · rw [if_neg hcap]
    simp only [hname, ne_eq, not_true_eq_false, if_false]
    cases map_find st.cache.dir_entries entry.cookie with
    | none => exact ⟨_, _, rfl⟩
    | some old => exact ⟨_, _, rfl⟩

/-- With the name not cached, the tail of `dnlc_add` returns. -/
theorem dnlc_add_new_returns (P : cache_params) (st : dir_state) (filename : String)
    (cookie inode : Nat) (hname : st.cache.filename_to_cookie filename = 0) :
    ∃ st1, readdirectory_cache.dnlc_add_new P st filename cookie inode = some st1 := by
  unfold readdirectory_cache.dnlc_add_new
  simp only
  obtain ⟨b, st1, hadd⟩ := add_returns_of_uncached_name P
    { st with inodes := (directory_entry.create filename cookie (st.inodes inode).attr inode
        st.inodes).2 }
    (directory_entry.create filename cookie (st.inodes inode).attr inode st.inodes).1 hname
  rw [hadd]
  exact ⟨st1, rfl⟩

/-- On a consistent cache in which every cached entry with an inode holds its `dircachecnt`
on it, `dnlc_add` returns. -/
theorem dnlc_add_returns (P : cache_params) (st : dir_state) (name : String) (inode : Nat)
    (hc : st.cache.consistent)
    (href : ∀ ck e i, map_find st.cache.dir_entries ck = some e → e.nfs_inode = some i →
      1 ≤ (st.inodes i).dircachecnt) :
    ∃ st1, readdirectory_cache.dnlc_add P st name inode = some st1 := by
  obtain ⟨hnd1, hnd2, h3, h4⟩ := hc
  unfold readdirectory_cache.dnlc_add
  simp only
  by_cases hck : st.cache.filename_to_cookie name ≠ 0
  · rw [if_pos hck]
    have hmap : map_find st.cache.dnlc_map name = some (st.cache.filename_to_cookie name) := by
      unfold readdirectory_cache.filename_to_cookie at hck ⊢
      cases hm : map_find st.cache.dnlc_map name with
      | none => simp [hm] at hck
      | some c => rfl
    obtain ⟨e, hmem, hen⟩ := h4 name _ (map_find_mem _ _ _ hmap)
    have hf := (map_find_eq_some _ _ _ hnd1).2 hmem
    unfold readdirectory_cache.lookup
    simp only [readdirectory_cache.resolve_cookie, Option.isSome_none, Bool.false_eq_true,
      false_and, if_false, hf]
    cases hde : e.nfs_inode with
    | none =>
      simp only [hde, reduceCtorEq, if_false]
      exact ⟨_, rfl⟩
    | some stale =>
      by_cases hm : stale = inode
      · subst hm
        simp only [hde, if_true, dircachecnt_dec_inc]
        exact ⟨_, rfl⟩
      · have hne : ¬ (some stale = some inode) := fun hh => hm (Option.some.inj hh)
        simp only [hde, hne, if_false, dircachecnt_dec_inc]
        have hz : ¬ ((none : Option String).isSome = true ∧
            st.cache.resolve_cookie (st.cache.filename_to_cookie name) none = 0) := by
          simp
        have hrem := remove_found st (st.cache.filename_to_cookie name) none e hz hf
        have hpos := href _ e stale hf hde
        have hnz : ¬ ((st.inodes stale).dircachecnt = 0) := by omega
        simp only [hde, hnz, if_false, readdirectory_cache.resolve_cookie] at hrem
        rw [hrem]
        simp only
        apply dnlc_add_new_returns
        simp only [readdirectory_cache.filename_to_cookie, hen, map_find_erase, if_true]
  · rw [if_neg hck]
    apply dnlc_add_new_returns
    simpa using hck

/-- C26: when `name` already maps to an entry whose inode is the given inode,
`dnlc_add(name, inode)` returns and leaves `dir_entries`, `dnlc_map`, the entry under its
cookie, `cache_size`, `seq_last_cookie` and the `dircachecnt` and `lookupcnt` of the inode (in
fact the whole state) unchanged. Hence on a cache below its size cap, whose counter `bigcookie`
is non-zero and not yet a key of `dir_entries`, a second `dnlc_add(name, inode)` right after a
first one changes nothing; and the first one returns on a consistent cache in which every
cached entry with an inode holds its `dircachecnt` on it. -/
theorem dnlc_add_matching_noop (P : cache_params) (st : dir_state) (name : String)
    (inode : Nat) :
    (∀ e : directory_entry,
      st.cache.filename_to_cookie name ≠ 0 →
      map_find st.cache.dir_entries (st.cache.filename_to_cookie name) = some e →
      e.nfs_inode = some inode →
      ∃ st1 : dir_state,
        readdirectory_cache.dnlc_add P st name inode = some st1 ∧
        st1.cache.dir_entries = st.cache.dir_entries ∧
        st1.cache.dnlc_map = st.cache.dnlc_map ∧
        map_find st1.cache.dir_entries (st1.cache.filename_to_cookie name) = some e ∧
        st1.cache.cache_size = st.cache.cache_size ∧
        st1.cache.seq_last_cookie = st.cache.seq_last_cookie ∧
        (st1.inodes inode).dircachecnt = (st.inodes inode).dircachecnt ∧
        (st1.inodes inode).lookupcnt = (st.inodes inode).lookupcnt ∧
        st1 = st) ∧
    (st.cache.cache_size < P.MAX_CACHE_SIZE_LIMIT → st.bigcookie ≠ 0 →
      map_find st.cache.dir_entries st.bigcookie = none →
      (∀ st1 : dir_state, readdirectory_cache.dnlc_add P st name inode = some st1 →
        readdirectory_cache.dnlc_add P st1 name inode = some st1) ∧
      (st.cache.consistent →
        (∀ ck e i, map_find st.cache.dir_entries ck = some e → e.nfs_inode = some i →
          1 ≤ (st.inodes i).dircachecnt) →
        ∃ st1 : dir_state, readdirectory_cache.dnlc_add P st name inode = some st1)) := by
  constructor
  · intro e hck hf hino
    exact ⟨st, dnlc_add_matching P st name inode e hck hf hino, rfl, rfl, hf, rfl, rfl, rfl,
      rfl, rfl⟩
  · intro hcap hbig hfresh
    constructor
    · intro st1 h
      obtain ⟨hck, e, hf, hino⟩ := dnlc_add_result_matches P st st1 name inode hcap hbig hfresh h
      exact dnlc_add_matching P st1 name inode e hck hf hino
    · intro hc href
      exact dnlc_add_returns P st name inode hc href

/-- Witness for C26: with "a" cached under cookie 1 for inode 7, `dnlc_add("a", 7)` returns
the state it was called in; and on an empty cache `dnlc_add("b", 7)` returns a state in which a
second `dnlc_add("b", 7)` changes nothing. -/
theorem dnlc_add_matching_noop_witness :
    readdirectory_cache.dnlc_add sample_cache_params sample_cached_state "a" 7
      = some sample_cached_state ∧
    ∃ st1 : dir_state,
      readdirectory_cache.dnlc_add sample_cache_params (dir_state.init sample_inodes) "b" 7
        = some st1 ∧
      readdirectory_cache.dnlc_add sample_cache_params st1 "b" 7 = some st1 := by
  obtain ⟨st1, hadd, _, _, _, _, _, _, _, hst⟩ :=
    (dnlc_add_matching_noop sample_cache_params sample_cached_state "a" 7).1
      (directory_entry.create "a" 1 (sample_inodes 7).attr 7 sample_inodes).1
      (by decide) rfl rfl
  have h2 := (dnlc_add_matching_noop sample_cache_params (dir_state.init sample_inodes) "b" 7).2
    (by decide) (by decide) rfl
  obtain ⟨st2, hfirst⟩ := h2.2 (consistent_empty _ rfl rfl)
    (fun ck e i hf _ => by simp [dir_state.init, readdirectory_cache.empty, map_find] at hf)
  rw [hst] at hadd
  exact ⟨hadd, st2, hfirst, h2.1 st2 hfirst⟩

/-! ## Directory cache: synthetic cookies -/

/-- The counter `bigcookie` is not touched by `add`. -/
theorem add_bigcookie (P : cache_params) (st st1 : dir_state) (entry : directory_entry)
    (b : Bool) (h : readdirectory_cache.add P st entry = some (b, st1)) :
    st1.bigcookie = st.bigcookie := by
  unfold readdirectory_cache.add at h
  by_cases hcap : st.cache.cache_size ≥ P.MAX_CACHE_SIZE_LIMIT
  · rw [if_pos hcap] at h
    simp only [Option.some.injEq, Prod.mk.injEq] at h
    rw [← h.2]
  · rw [if_neg hcap] at h
    simp only at h
    have hrem : ∀ st0, (if st.cache.filename_to_cookie entry.name ≠ 0 then
            match readdirectory_cache.remove st (st.cache.filename_to_cookie entry.name) none with
            | none => none
            | some (_, st1) => some st1
          else some st) = some st0 → st0.bigcookie = st.bigcookie := by
      intro st0 h0
      by_cases hname : st.cache.filename_to_cookie entry.name ≠ 0
      · rw [if_pos hname] at h0
        cases hr : readdirectory_cache.remove st (st.cache.filename_to_cookie entry.name)
            none with
        | none =>
          rw [hr] at h0
          cases h0
        | some r =>
          obtain ⟨b0, st2⟩ := r
          rw [hr] at h0
          simp only [Option.some.injEq] at h0
          subst h0
          rcases remove_result st st2 _ none b0 hr with ⟨_, hs, _⟩ | ⟨_, _, _, _, _, _, hbig⟩
          · rw [hs]
          · exact hbig
      · rw [if_neg hname] at h0
        simp only [Option.some.injEq] at h0
        rw [← h0]
    generalize (if st.cache.filename_to_cookie entry.name ≠ 0 then
            match readdirectory_cache.remove st (st.cache.filename_to_cookie entry.name) none with
            | none => none
            | some (_, st1) => some st1
          else some st) = removed at h hrem
    cases removed with
    | none => cases h
    | some st0 =>
      have hb0 := hrem st0 rfl
      simp only at h
      cases hf : map_find st0.cache.dir_entries entry.cookie with
      | some old =>
        rw [hf] at h
        simp only [Option.some.injEq, Prod.mk.injEq] at h
        rw [← h.2]
        exact hb0
      | none =>
        rw [hf] at h
        simp only [Option.some.injEq, Prod.mk.injEq] at h
        rw [← h.2]
        exact hb0

/-- The counter `bigcookie` is not touched by the tail of `dnlc_add`. -/
theorem dnlc_add_new_bigcookie (P : cache_params) (st st1 : dir_state) (filename : String)
    (cookie inode : Nat)
    (h : readdirectory_cache.dnlc_add_new P st filename cookie inode = some st1) :
    st1.bigcookie = st.bigcookie := by
  unfold readdirectory_cache.dnlc_add_new at h
  simp only at h
  cases hadd : readdirectory_cache.add P
      { st with inodes := (directory_entry.create filename cookie (st.inodes inode).attr inode
          st.inodes).2 }
      (directory_entry.create filename cookie (st.inodes inode).attr inode st.inodes).1 with
  | none =>
    rw [hadd] at h
    cases h
  | some res =>
    obtain ⟨b, st2⟩ := res
    rw [hadd] at h
    simp only [Option.some.injEq] at h
    subst h
    exact add_bigcookie P
      { st with inodes := (directory_entry.create filename cookie (st.inodes inode).attr inode
          st.inodes).2 }
      st2 _ b hadd

/-- A call of `dnlc_add` that returns either creates no entry and leaves `bigcookie` as it is,
or creates one with the cookie `bigcookie` held and increments `bigcookie` as a 64-bit
unsigned number. -/
theorem dnlc_add_cookie_spec (P : cache_params) (st st1 : dir_state) (filename : String)
    (inode : Nat) (h : readdirectory_cache.dnlc_add P st filename inode = some st1) :
    (readdirectory_cache.dnlc_add_cookie st filename inode = none ∧
      st1.bigcookie = st.bigcookie) ∨
    (readdirectory_cache.dnlc_add_cookie st filename inode = some st.bigcookie ∧
      st1.bigcookie = u64 (st.bigcookie + 1)) := by
  unfold readdirectory_cache.dnlc_add at h
  unfold readdirectory_cache.dnlc_add_cookie
  simp only at h ⊢
  by_cases hck : st.cache.filename_to_cookie filename ≠ 0
  · rw [if_pos hck] at h ⊢
    unfold readdirectory_cache.lookup at h ⊢
    simp only [readdirectory_cache.resolve_cookie, Option.isSome_none, Bool.false_eq_true,
      false_and, if_false] at h ⊢
    cases hf : map_find st.cache.dir_entries (st.cache.filename_to_cookie filename) with
    | none =>
      rw [hf] at h
      cases h
    | some de =>
      rw [hf] at h
      simp only at h ⊢
      cases hde : de.nfs_inode with
      | none =>
        simp only [hde, reduceCtorEq, if_false, Option.some.injEq] at h ⊢
        left
        rw [← h]
        exact ⟨trivial, rfl⟩
      | some stale =>
        by_cases hm : stale = inode
        · subst hm
          simp only [hde, if_true, dircachecnt_dec_inc, Option.some.injEq] at h ⊢
          left
          rw [← h]
          exact ⟨trivial, rfl⟩
        · have hne : ¬ (some stale = some inode) := fun hh => hm (Option.some.inj hh)
          simp only [hde, hne, if_false, dircachecnt_dec_inc] at h ⊢
          cases hrem : readdirectory_cache.remove
              { st with inodes := st.inodes } (st.cache.filename_to_cookie filename) none with
          | none =>
            rw [hrem] at h
            cases h
          | some r =>
            obtain ⟨b2, st2⟩ := r
            rw [hrem] at h
            simp only at h ⊢
            have hbc : st2.bigcookie = st.bigcookie := by
              rcases remove_result _ st2 _ none b2 hrem with
                ⟨_, hs, _⟩ | ⟨_, _, _, _, _, _, hbig2⟩
              · rw [hs]
              · exact hbig2
            right
            have h1 := dnlc_add_new_bigcookie P _ st1 filename st2.bigcookie inode h
            simp only at h1
            rw [hbc] at h1 ⊢
            exact ⟨rfl, h1⟩
  · rw [if_neg hck] at h ⊢
    right
    have h1 := dnlc_add_new_bigcookie P _ st1 filename st.bigcookie inode h
    exact ⟨rfl, h1⟩

/-- Along every run the counter `bigcookie` is `UINT64_MAX >> 1` plus the number of cookies
handed out, as a 64-bit unsigned number, and the cookies handed out are its successive
values. -/
theorem dnlc_trace_invariant (P : cache_params) (st : dir_state) (cookies : List Nat)
    (h : dnlc_trace P st cookies) :
    st.bigcookie = u64 (9223372036854775807 + cookies.length) ∧
    cookies.reverse
      = (List.range cookies.length).map (fun n => u64 (9223372036854775807 + n)) := by
  induction h with
  | init c tbl => exact ⟨rfl, rfl⟩
  | env c tbl _ ih => exact ih
  | @dnlc_add st st1 cookies filename inode _ hadd ih =>
    rcases dnlc_add_cookie_spec P st st1 filename inode hadd with ⟨hc, hb⟩ | ⟨hc, hb⟩
    · rw [hc, hb]
      exact ih
    · rw [hc, hb]
      simp only [Option.toList_some, List.singleton_append, List.length_cons,
        List.reverse_cons, List.range_succ, List.map_append, List.map_cons, List.map_nil]
      refine ⟨?_, ?_⟩
      · rw [ih.1]
        unfold u64
        omega
      · rw [ih.2, ih.1]

/-- C27 (amended): along every run, as long as at most 2^63 + 1 synthetic cookies have been
handed out (the 64-bit counter has not wrapped), the n-th synthetic cookie handed out (n >= 1)
equals (2^63 - 1) + (n - 1), so every synthetic cookie is >= 2^63 - 1 and no two are equal. The
list `cookies` holds the cookies handed out, newest first. -/
theorem synthetic_cookies (P : cache_params) (st : dir_state) (cookies : List Nat)
    (h : dnlc_trace P st cookies) (hlen : cookies.length ≤ 9223372036854775809) :
    cookies.reverse
      = (List.range cookies.length).map (fun n => 9223372036854775807 + n) ∧
    (∀ c ∈ cookies, 9223372036854775807 ≤ c) ∧
    cookies.Nodup := by
  obtain ⟨_, hrev⟩ := dnlc_trace_invariant P st cookies h
  have hmap : (List.range cookies.length).map (fun n => u64 (9223372036854775807 + n))
      = (List.range cookies.length).map (fun n => 9223372036854775807 + n) := by
    apply List.map_congr_left
    intro n hn
    have hlt := List.mem_range.1 hn
    unfold u64
    omega
  rw [hmap] at hrev
  refine ⟨hrev, ?_, ?_⟩
  · intro c hc
    have hc1 : c ∈ cookies.reverse := List.mem_reverse.2 hc
    rw [hrev] at hc1
    obtain ⟨n, _, hn⟩ := List.mem_map.1 hc1
    omega
  · rw [← List.nodup_reverse, hrev]
    apply List.Nodup.map
    · intro a b hab
      simp only at hab
      omega
    · exact List.nodup_range _

/-- Witness for C27 (amended): two `dnlc_add` calls on an empty cache hand out the cookies
2^63 - 1 and 2^63. -/
theorem synthetic_cookies_witness :
    ([9223372036854775808, 9223372036854775807] : List Nat).reverse
      = (List.range 2).map (fun n => 9223372036854775807 + n) ∧
    (∀ c ∈ ([9223372036854775808, 9223372036854775807] : List Nat), 9223372036854775807 ≤ c) ∧
    ([9223372036854775808, 9223372036854775807] : List Nat).Nodup :=
  have r0 : dnlc_trace (sample_cache_params)
      { cache := readdirectory_cache.empty, inodes := sample_inodes,
        bigcookie := UINT64_MAX / 2 } [] :=
    dnlc_trace.init readdirectory_cache.empty sample_inodes
  have r1 : dnlc_trace (sample_cache_params)
      { cache := { dir_entries := [(9223372036854775807,
                       (directory_entry.create "b" 9223372036854775807
                         (sample_inodes 7).attr 7 sample_inodes).1)],
                   dnlc_map := [("b", 9223372036854775807)], eof := false,
                   eof_cookie := 0, seq_last_cookie := 0, confirmed_msecs := 0,
                   cookie_verifier := 0, cache_size := 65 },
        inodes := dircachecnt_inc sample_inodes 7, bigcookie := 9223372036854775808 }
      [9223372036854775807] :=
    dnlc_trace.dnlc_add "b" 7 r0 rfl
  have r2 : dnlc_trace (sample_cache_params)
      { cache := { dir_entries := [(9223372036854775808,
                       (directory_entry.create "c" 9223372036854775808
                         (sample_inodes 8).attr 8 sample_inodes).1)],
                   dnlc_map := [("c", 9223372036854775808)], eof := false,
                   eof_cookie := 0, seq_last_cookie := 0, confirmed_msecs := 0,
                   cookie_verifier := 0, cache_size := 65 },
        inodes := dircachecnt_inc sample_inodes 8, bigcookie := 9223372036854775809 }
      [9223372036854775808, 9223372036854775807] :=
    dnlc_trace.dnlc_add "c" 8 (dnlc_trace.env readdirectory_cache.empty sample_inodes r1) rfl
  synthetic_cookies sample_cache_params _ _ r2 (by decide)

/-- C27 (as stated) fails: the first `dnlc_add` on an empty cache creates its entry with the
cookie 9223372036854775807 = 2^63 - 1, which is below 2^63. -/
theorem first_synthetic_cookie_below_2_63 :
    readdirectory_cache.dnlc_add_cookie (dir_state.init sample_inodes) "b" 7
      = some 9223372036854775807 ∧
    (9223372036854775807 : Nat) < 2 ^ 63 ∧
    ∃ st1 : dir_state,
      readdirectory_cache.dnlc_add sample_cache_params (dir_state.init sample_inodes) "b" 7
        = some st1 ∧
      st1.cache.dir_entries.map Prod.fst = [9223372036854775807] ∧
      st1.cache.dnlc_map = [("b", 9223372036854775807)] ∧
      dnlc_trace sample_cache_params st1 [9223372036854775807] :=
  ⟨rfl, by decide, _, rfl, rfl, rfl,
    dnlc_trace.dnlc_add "b" 7 (dnlc_trace.init readdirectory_cache.empty sample_inodes) rfl⟩

/-! ## Completion callbacks and the submit loop -/

/-- C28: for every LOOKUP completion with rpc_status OK and NFS status `NFS3ERR_NOENT`,
whatever the retry counter (and the retry limit), `lookupCallback` sends exactly one reply, an
entry reply whose inode number is 0 (with all-zero attributes), not an error reply; it does not
submit the lookup again and leaves the retry counter as it is. -/
theorem lookupCallback_noent (maxErrnoRetries : Int) (nfsstat3_to_errno : Int → Int)
    (new_handle : Nat) (ctx : NfsApiContext) (res : LOOKUP3res)
    (hst : res.status = NFS3ERR_NOENT) :
    NfsClient.lookupCallback maxErrnoRetries nfsstat3_to_errno new_handle ctx
        RPC_STATUS_SUCCESS (some res)
      = { replies := [fuse_reply.entry { ino := 0, attr := fattr3.zero }],
          resubmitted := false, ctx := ctx } := by
  unfold NfsClient.lookupCallback
  rw [if_pos ⟨rfl, by simp [RSTATUS, hst]⟩]
  rfl

/-- Witness for C28: a NOENT completion for a context that has used up its three retries and
a `LOOKUP3res` whose other members are arbitrary. -/
theorem lookupCallback_noent_witness :
    NfsClient.lookupCallback 3 (fun s => s) 4096 { numOfTimesRetried := 3 }
        RPC_STATUS_SUCCESS (some { status := 2, object := 77, attributes := { fields := [5] } })
      = { replies := [fuse_reply.entry { ino := 0, attr := fattr3.zero }],
          resubmitted := false, ctx := { numOfTimesRetried := 3 } } :=
  lookupCallback_noent 3 (fun s => s) 4096 { numOfTimesRetried := 3 }
    { status := 2, object := 77, attributes := { fields := [5] } } rfl

/-- Once `rpcRetry` is true the loop of `getattrWithContext` goes on whatever the submissions
return: it uses up all outcomes and does not return. -/
theorem getattr_submit_loop_stuck (outcomes : List Bool) :
    getattr_submit_loop true outcomes
      = { submissions := outcomes.length, returned := false } := by
  induction outcomes with
  | nil => rfl
  | cons o rest ih =>
    cases o <;> simp [getattr_submit_loop, ih]

/-- After `k >= 1` failed submissions and a successful one, `getattrWithContext` goes on
submitting for as long as outcomes are supplied, and has not returned. -/
theorem getattr_never_returns_after_failure (ctx : NfsApiContext) (k : Nat)
    (more : List Bool) :
    NfsClient.getattrWithContext ctx (List.replicate (k + 1) false ++ true :: more)
      = ({ submissions := k + 1 + 1 + more.length, returned := false }, ctx) := by
  unfold NfsClient.getattrWithContext
  have h : getattr_submit_loop false (List.replicate (k + 1) false ++ true :: more)
      = { submissions := k + 1 + 1 + more.length, returned := false } := by
    rw [List.replicate_succ, List.cons_append]
    simp only [getattr_submit_loop, if_true, getattr_submit_loop_stuck, List.length_append,
      List.length_replicate, List.length_cons]
    simp only [submit_run.mk.injEq, and_true]
    omega
  rw [h]

/-- C29: on one failed submission followed by successful ones, `getattrWithContext` does not
stop at the first successful submission: with the outcomes `[NULL, task, task, task]` it makes
all four submissions and has not returned, where the claim has it return after two. With no
failed submission it makes one submission and returns. The retry counter is untouched. -/
theorem getattr_submit_loop_does_not_stop :
    NfsClient.getattrWithContext { numOfTimesRetried := 0 } [false, true, true, true]
      = ({ submissions := 4, returned := false }, { numOfTimesRetried := 0 }) ∧
    NfsClient.getattrWithContext { numOfTimesRetried := 0 } [false, true]
      = ({ submissions := 2, returned := false }, { numOfTimesRetried := 0 }) ∧
    NfsClient.getattrWithContext { numOfTimesRetried := 0 } [true]
      = ({ submissions := 1, returned := true }, { numOfTimesRetried := 0 }) := by
  decide

/-! ## Validation of container names -/

/-- Where a one-character match can end. -/
theorem mem_char_run (p : Char → Bool) (n : Nat) (s : List Char) (y : regex_pos) :
    y ∈ char_run p (n, s) ↔ ∃ c r, s = c :: r ∧ p c = true ∧ y = (n + 1, r) := by
  cases s with
  | nil => simp [char_run]
  | cons c r =>
    by_cases hp : p c = true
    · simp only [char_run, hp, if_true, List.mem_singleton, List.cons.injEq]
      constructor
      · intro h
        exact ⟨c, r, ⟨rfl, rfl⟩, hp, h⟩
      · rintro ⟨c1, r1, ⟨h1, h2⟩, _, h3⟩
        rw [h3, h2]
    · simp only [char_run, hp, Bool.false_eq_true, if_false, List.not_mem_nil, List.cons.injEq,
        false_iff, not_exists, not_and]
      intro c1 r1 h1 h2
      rw [← h1.1] at h2
      exact absurd h2 hp

/-- Where a bounded repetition of a one-character match can end: after a run of between `lo`
and `hi` characters that all satisfy the predicate. -/
theorem mem_rep_run_char (p : Char → Bool) (hi : Nat) :
    ∀ (lo n : Nat) (s : List Char) (y : regex_pos),
      y ∈ rep_run (char_run p) lo hi (n, s) ↔
        ∃ pre t, s = pre ++ t ∧ lo ≤ pre.length ∧ pre.length ≤ hi ∧
          (∀ c ∈ pre, p c = true) ∧ y = (n + pre.length, t) := by
  induction hi with
  | zero =>
    intro lo n s y
    constructor
    · intro h
      by_cases hlo : lo = 0
      · simp only [rep_run, hlo, if_true, List.mem_singleton] at h
        exact ⟨[], s, rfl, by simp [hlo], by simp, by simp, by simp [h]⟩
      · simp [rep_run, hlo] at h
    · rintro ⟨pre, t, hs, h1, h2, _, hy⟩
      have hpre : pre = [] := List.length_eq_zero.1 (by omega)
      subst hpre
      have hlo : lo = 0 := by simpa using h1
      simp only [rep_run, hlo, if_true, List.mem_singleton]
      simp only [List.nil_append] at hs
      rw [hy, hs]
      rfl
  | succ hi ih =>
    intro lo n s y
    simp only [rep_run, List.mem_append, List.mem_flatMap]
    constructor
    · rintro (⟨z, hz, hy⟩ | h)
      · obtain ⟨c, r, hs, hp, hzr⟩ := (mem_char_run p n s z).1 hz
        subst hzr
        obtain ⟨pre, t, hr, h1, h2, h3, h4⟩ := (ih (lo - 1) (n + 1) r y).1 hy
        refine ⟨c :: pre, t, by rw [hs, hr]; rfl, by simp only [List.length_cons]; omega,
          by simp only [List.length_cons]; omega, ?_, ?_⟩
        · intro d hd
          rcases List.mem_cons.1 hd with h | h
          · rw [h]
            exact hp
          · exact h3 d h
        · rw [h4]
          simp only [List.length_cons, Prod.mk.injEq, and_true]
          omega
      · by_cases hlo : lo = 0
        · simp only [hlo, if_true, List.mem_singleton] at h
          exact ⟨[], s, rfl, by simp [hlo], by simp, by simp, by simp [h]⟩
        · simp [hlo] at h
    · rintro ⟨pre, t, hs, h1, h2, h3, hy⟩
      cases pre with
      | nil =>
        right
        have hlo : lo = 0 := by simpa using h1
        simp only [List.nil_append] at hs
        simp only [hlo, if_true, List.mem_singleton, hy, hs]
        rfl
      | cons c pre1 =>
        left
        refine ⟨(n + 1, pre1 ++ t), (mem_char_run p n s _).2
          ⟨c, pre1 ++ t, by rw [hs]; rfl, h3 c (List.mem_cons_self _ _), rfl⟩, ?_⟩
        refine (ih (lo - 1) (n + 1) (pre1 ++ t) y).2 ⟨pre1, t, rfl, ?_, ?_, ?_, ?_⟩
        · simp only [List.length_cons] at h1
          omega
        · simp only [List.length_cons] at h2
          omega
        · exact fun d hd => h3 d (List.mem_cons_of_mem _ hd)
        · rw [hy]
          simp only [List.length_cons, Prod.mk.injEq, and_true]
          omega

/-- Where `*` over a one-character match can end: after any run of characters that all
satisfy the predicate. -/
theorem mem_star_run_char (p : Char → Bool) (fuel : Nat) :
    ∀ (n : Nat) (s : List Char) (y : regex_pos), s.length ≤ fuel →
      (y ∈ star_run (char_run p) fuel (n, s) ↔
        ∃ pre t, s = pre ++ t ∧ (∀ c ∈ pre, p c = true) ∧ y = (n + pre.length, t)) := by
  induction fuel with
  | zero =>
    intro n s y hlen
    have hs : s = [] := List.length_eq_zero.1 (by omega)
    subst hs
    simp only [star_run, List.mem_singleton]
    constructor
    · intro h
      exact ⟨[], [], rfl, by simp, by simp [h]⟩
    · rintro ⟨pre, t, hs, _, hy⟩
      have hpre : pre = [] := (List.append_eq_nil.1 hs.symm).1
      have ht : t = [] := (List.append_eq_nil.1 hs.symm).2
      rw [hy, hpre, ht]
      rfl
  | succ fuel ih =>
    intro n s y hlen
    simp only [star_run, List.mem_append, List.mem_flatMap, List.mem_filter,
      List.mem_singleton, decide_eq_true_eq]
    constructor
    · rintro (⟨z, ⟨hz, _⟩, hy⟩ | h)
      · obtain ⟨c, r, hs, hp, hzr⟩ := (mem_char_run p n s z).1 hz
        subst hzr
        have hlen1 : r.length ≤ fuel := by
          rw [hs] at hlen
          simp only [List.length_cons] at hlen
          omega
        obtain ⟨pre, t, hr, h3, h4⟩ := (ih (n + 1) r y hlen1).1 hy
        refine ⟨c :: pre, t, by rw [hs, hr]; rfl, ?_, ?_⟩
        · intro d hd
          rcases List.mem_cons.1 hd with h | h
          · rw [h]
            exact hp
          · exact h3 d h
        · rw [h4]
          simp only [List.length_cons, Prod.mk.injEq, and_true]
          omega
      · exact ⟨[], s, rfl, by simp, by simp [h]⟩
    · rintro ⟨pre, t, hs, h3, hy⟩
      cases pre with
      | nil =>
        right
        simp only [List.nil_append] at hs
        rw [hy, hs]
        rfl
      | cons c pre1 =>
        left
        have hlen1 : (pre1 ++ t).length ≤ fuel := by
          rw [hs] at hlen
          simp only [List.cons_append, List.length_cons] at hlen
          omega
        refine ⟨(n + 1, pre1 ++ t), ⟨(mem_char_run p n s _).2
          ⟨c, pre1 ++ t, by rw [hs]; rfl, h3 c (List.mem_cons_self _ _), rfl⟩, ?_⟩, ?_⟩
        · rw [hs]
          simp
        · refine (ih (n + 1) (pre1 ++ t) y hlen1).2 ⟨pre1, t, rfl,
            fun d hd => h3 d (List.mem_cons_of_mem _ hd), ?_⟩
          rw [hy]
          simp only [List.length_cons, Prod.mk.injEq, and_true]
          omega

/-- The matcher of a bracket expression is the one-character matcher of its predicate. -/
theorem regex_run_cls (p : Char → Bool) : regex.run (regex.cls p) = char_run p := by
  funext x
  rfl

/-- The matcher of `.` is the one-character matcher of `regex_dot`. -/
theorem regex_run_any : regex.run regex.any = char_run regex_dot := by
  funext x
  rfl

/-- The lookahead body `.*--` matches at a place exactly when two consecutive dashes follow
after some run of characters none of which is a line terminator. -/
theorem lookahead_dashes (n : Nat) (s : List Char) :
    (regex.run (regex.seq (regex.star regex.any)
        (regex.seq (regex.chr (Char.ofNat 45)) (regex.chr (Char.ofNat 45)))) (n, s)).isEmpty
      = true ↔
    ¬ ∃ pre t, s = pre ++ Char.ofNat 45 :: Char.ofNat 45 :: t ∧
        ∀ c ∈ pre, regex_dot c = true := by
  rw [List.isEmpty_iff, List.eq_nil_iff_forall_not_mem]
  simp only [regex.run, regex_run_any, List.mem_flatMap]
  constructor
  · intro h
    rintro ⟨pre, t, hs, hpre⟩
    refine h (n + pre.length + 1 + 1, t) ⟨(n + pre.length, Char.ofNat 45 :: Char.ofNat 45 :: t),
      ?_, (n + pre.length + 1, Char.ofNat 45 :: t), ?_, ?_⟩
    · exact (mem_star_run_char regex_dot s.length n s _ (Nat.le_refl _)).2
        ⟨pre, _, hs, hpre, rfl⟩
    · exact (mem_char_run _ _ _ _).2 ⟨_, _, rfl, by simp, rfl⟩
    · exact (mem_char_run _ _ _ _).2 ⟨_, _, rfl, by simp, rfl⟩
  · intro h y
    rintro ⟨z, hz, w, hw, hy⟩
    obtain ⟨pre, t, hs, hpre, hzt⟩ :=
      (mem_star_run_char regex_dot s.length n s z (Nat.le_refl _)).1 hz
    subst hzt
    obtain ⟨c1, r1, ht, hc1, hwr⟩ := (mem_char_run _ _ _ _).1 hw
    subst hwr
    obtain ⟨c2, r2, hr1, hc2, _⟩ := (mem_char_run _ _ _ _).1 hy
    simp only [decide_eq_true_eq] at hc1 hc2
    apply h
    refine ⟨pre, r2, ?_, hpre⟩
    rw [hs, ht, hr1, hc1, hc2]

/-- A lowercase letter or digit is not a dash. -/
theorem is_lower_or_digit_ne_dash (c : Char) (h : is_lower_or_digit c = true) :
    c ≠ Char.ofNat 45 := by
  intro hc
  rw [hc] at h
  revert h
  decide

/-- A lowercase letter, digit or dash is not a line terminator. -/
theorem regex_dot_of_is_lower_digit_or_dash (c : Char)
    (h : is_lower_digit_or_dash c = true) : regex_dot c = true := by
  unfold regex_dot
  simp only [ne_eq, decide_eq_true_eq]
  constructor
  · intro hc
    rw [hc] at h
    revert h
    decide
  · intro hc
    rw [hc] at h
    revert h
    decide

/-- A lowercase letter or digit belongs to `[a-z0-9-]`. -/
theorem is_lower_digit_or_dash_of_is_lower_or_digit (c : Char)
    (h : is_lower_or_digit c = true) : is_lower_digit_or_dash c = true := by
  unfold is_lower_digit_or_dash
  rw [h]
  rfl

/-- The whole of `s` matches the container pattern exactly when `s` is a lowercase letter or
digit, then between 1 and 61 characters of `[a-z0-9-]`, then a lowercase letter or digit, with
the lookahead for `.*--` failing after the first character. -/
theorem container_rexpr_match (s : List Char) :
    (∃ y ∈ container_rexpr.run (0, s), y.2.isEmpty = true) ↔
    ∃ c0 mid cl, s = c0 :: (mid ++ [cl]) ∧ is_lower_or_digit c0 = true ∧
      is_lower_or_digit cl = true ∧ 1 ≤ mid.length ∧ mid.length ≤ 61 ∧
      (∀ c ∈ mid, is_lower_digit_or_dash c = true) ∧
      ¬ ∃ pre t, mid ++ [cl] = pre ++ Char.ofNat 45 :: Char.ofNat 45 :: t ∧
          ∀ c ∈ pre, regex_dot c = true := by
  unfold container_rexpr
  constructor
  · rintro ⟨y, hy, hempty⟩
    simp only [regex.run, List.mem_flatMap, regex_run_cls] at hy
    obtain ⟨x1, hx1, x2, hx2, x3, hx3, x4, hx4, x5, hx5, hy⟩ := hy
    simp only [if_true, List.mem_singleton] at hx1
    subst hx1
    obtain ⟨c0, r, hs, hc0, hx2r⟩ := (mem_char_run _ _ _ _).1 hx2
    subst hx2r
    have hla : (regex.run (regex.seq (regex.star regex.any)
        (regex.seq (regex.chr (Char.ofNat 45)) (regex.chr (Char.ofNat 45)))) (0 + 1, r)).isEmpty
        = true := by
      by_contra hne
      simp only [regex.run] at hne
      simp only [regex.run, hne, Bool.false_eq_true, if_false, List.not_mem_nil] at hx3
    have hx3r : x3 = (0 + 1, r) := by
      simp only [regex.run] at hla
      simp only [regex.run, hla, if_true, List.mem_singleton] at hx3
      exact hx3
    subst hx3r
    obtain ⟨mid, t, hr, hlo, hhi, hmid, hx4r⟩ := (mem_rep_run_char _ _ _ _ _ _).1 hx4
    subst hx4r
    obtain ⟨cl, t1, ht, hcl, hx5r⟩ := (mem_char_run _ _ _ _).1 hx5
    subst hx5r
    have ht1 : t1 = [] := by
      by_cases he : t1.isEmpty = true
      · exact List.isEmpty_iff.1 he
      · simp only [he, Bool.false_eq_true, if_false, List.not_mem_nil] at hy
    subst ht1
    refine ⟨c0, mid, cl, by rw [hs, hr, ht], hc0, hcl, hlo, hhi, hmid, ?_⟩
    rw [← ht, ← hr]
    exact (lookahead_dashes _ _).1 hla
  · rintro ⟨c0, mid, cl, hs, hc0, hcl, hlo, hhi, hmid, hno⟩
    have hla := (lookahead_dashes (0 + 1) (mid ++ [cl])).2 hno
    refine ⟨(0 + 1 + mid.length + 1, []), ?_, rfl⟩
    simp only [regex.run, List.mem_flatMap, regex_run_cls]
    refine ⟨(0, s), by simp, (0 + 1, mid ++ [cl]), ?_, (0 + 1, mid ++ [cl]), ?_,
      (0 + 1 + mid.length, [cl]), ?_, (0 + 1 + mid.length + 1, []), ?_, ?_⟩
    · exact (mem_char_run _ _ _ _).2 ⟨c0, _, hs, hc0, rfl⟩
    · simp only [regex.run] at hla
      simp only [hla, if_true, List.mem_singleton]
    · exact (mem_rep_run_char _ _ _ _ _ _).2 ⟨mid, [cl], rfl, hlo, hhi, hmid, rfl⟩
    · exact (mem_char_run _ _ _ _).2 ⟨cl, [], rfl, hcl, rfl⟩
    · simp

/-- The shape that the container pattern accepts is the rule of the specification. -/
theorem container_shape_iff_rule (s : List Char) :
    (∃ c0 mid cl, s = c0 :: (mid ++ [cl]) ∧ is_lower_or_digit c0 = true ∧
      is_lower_or_digit cl = true ∧ 1 ≤ mid.length ∧ mid.length ≤ 61 ∧
      (∀ c ∈ mid, is_lower_digit_or_dash c = true) ∧
      ¬ ∃ pre t, mid ++ [cl] = pre ++ Char.ofNat 45 :: Char.ofNat 45 :: t ∧
          ∀ c ∈ pre, regex_dot c = true) ↔
    container_name_rule s := by
  unfold container_name_rule
  constructor
  · rintro ⟨c0, mid, cl, hs, hc0, hcl, hlo, hhi, hmid, hno⟩
    have hall : ∀ c ∈ mid ++ [cl], is_lower_digit_or_dash c = true := by
      intro c hc
      rcases List.mem_append.1 hc with h | h
      · exact hmid c h
      · rw [List.mem_singleton.1 h]
        exact is_lower_digit_or_dash_of_is_lower_or_digit cl hcl
    subst hs
    refine ⟨by simp only [List.length_cons, List.length_append, List.length_nil]; omega,
      by simp only [List.length_cons, List.length_append, List.length_nil]; omega,
      ?_, ⟨c0, rfl, hc0⟩, ⟨cl, ?_, hcl⟩, ?_⟩
    · intro c hc
      rcases List.mem_cons.1 hc with h | h
      · rw [h]
        exact is_lower_digit_or_dash_of_is_lower_or_digit c0 hc0
      · exact hall c h
    · rw [← List.cons_append]
      exact List.getLast?_concat _
    · rintro ⟨a, b, hab⟩
      cases a with
      | nil =>
        simp only [List.nil_append, List.cons_append, List.cons.injEq] at hab
        exact is_lower_or_digit_ne_dash c0 hc0 hab.1.symm
      | cons a0 a1 =>
        simp only [List.cons_append, List.append_assoc, List.cons.injEq] at hab
        apply hno
        refine ⟨a1, b, ?_, ?_⟩
        · rw [← hab.2]
          simp
        · intro c hc
          apply regex_dot_of_is_lower_digit_or_dash
          apply hall
          rw [← hab.2]
          exact List.mem_append_left _ hc
  · rintro ⟨hlo, hhi, hall, ⟨c0, hhead, hc0⟩, ⟨cl, hlast, hcl⟩, hno⟩
    cases s with
    | nil => simp at hlo
    | cons d r =>
      simp only [List.head?_cons, Option.some.injEq] at hhead
      subst hhead
      obtain ⟨ys, hys⟩ := List.getLast?_eq_some_iff.1 hlast
      cases ys with
      | nil =>
        simp only [List.nil_append, List.cons.injEq] at hys
        rw [hys.2] at hlo
        simp at hlo
      | cons y0 mid =>
        simp only [List.cons_append, List.cons.injEq] at hys
        obtain ⟨_, hr⟩ := hys
        subst hr
        simp only [List.length_cons, List.length_append, List.length_nil] at hlo hhi
        refine ⟨d, mid, cl, rfl, hc0, hcl, by omega, by omega, ?_, ?_⟩
        · intro c hc
          exact hall c (List.mem_cons_of_mem _ (List.mem_append_left _ hc))
        · rintro ⟨pre, t, hpt, _⟩
          apply hno
          refine ⟨d :: pre, t, ?_⟩
          rw [hpt]
          simp

/-- C30: `is_valid_container` returns true for a string exactly when its length is between 3
and 63, every character is a lowercase letter, a digit or a dash, its first and last characters
are a lowercase letter or digit, and it contains no two consecutive dashes anywhere. -/
theorem is_valid_container_iff (container : String) :
    is_valid_container container = true ↔ container_name_rule container.toList := by
  unfold is_valid_container regex_match
  rw [List.any_eq_true, container_rexpr_match, container_shape_iff_rule]

/-! ## The two completion classifiers -/

/-- The two `switch` statements list the same retryable errors. -/
theorem isRetryableError_eq (nfs_status : Int) :
    NfsApiContext.isRetryableError nfs_status = rpc_task.is_retryable_error nfs_status := rfl

/-- C40: for every rpc_status, nfs_status, idempotent flag, retry counter and retry limit,
`rpc_task::succeeded` and `NfsApiContext::succeeded` return the same boolean, set the same
retry flag and leave the same retry-counter value; and `NfsApiContext::succeeded` sends an
error reply (one `fuse_reply_err` with the negated errno of the NFS status) exactly when it
returns false with `retry == false`, and sends nothing otherwise. -/
theorem succeeded_classifiers_agree (max_errno_retries : Int) (nfsstat3_to_errno : Int → Int)
    (counter index rpc_status nfs_status : Int) (idempotent : Bool) :
    (rpc_task.succeeded max_errno_retries
        { num_of_times_retried := counter, index := index } rpc_status nfs_status idempotent).ret
      = (NfsApiContext.succeeded max_errno_retries nfsstat3_to_errno
        { numOfTimesRetried := counter } rpc_status nfs_status idempotent).ret ∧
    (rpc_task.succeeded max_errno_retries
        { num_of_times_retried := counter, index := index } rpc_status nfs_status
        idempotent).retry
      = (NfsApiContext.succeeded max_errno_retries nfsstat3_to_errno
        { numOfTimesRetried := counter } rpc_status nfs_status idempotent).retry ∧
    (rpc_task.succeeded max_errno_retries
        { num_of_times_retried := counter, index := index } rpc_status nfs_status
        idempotent).task.num_of_times_retried
      = (NfsApiContext.succeeded max_errno_retries nfsstat3_to_errno
        { numOfTimesRetried := counter } rpc_status nfs_status
        idempotent).ctx.numOfTimesRetried ∧
    (NfsApiContext.succeeded max_errno_retries nfsstat3_to_errno
        { numOfTimesRetried := counter } rpc_status nfs_status idempotent).replies
      = (if (NfsApiContext.succeeded max_errno_retries nfsstat3_to_errno
              { numOfTimesRetried := counter } rpc_status nfs_status idempotent).ret = false ∧
            (NfsApiContext.succeeded max_errno_retries nfsstat3_to_errno
              { numOfTimesRetried := counter } rpc_status nfs_status idempotent).retry = false
          then [fuse_reply.err (-nfsstat3_to_errno nfs_status)] else []) := by
  unfold rpc_task.succeeded NfsApiContext.succeeded
  rw [isRetryableError_eq]
  by_cases h1 : rpc_status ≠ RPC_STATUS_SUCCESS ∧ counter < max_errno_retries
  · simp only [if_pos h1]
    simp
  · simp only [if_neg h1]
    by_cases h2 : nfs_status ≠ NFS3_OK
    · simp only [if_pos h2]
      by_cases h3 : idempotent = true ∧ counter < max_errno_retries
          ∧ rpc_task.is_retryable_error nfs_status = true
      · simp only [if_pos h3]
        simp
      · simp only [if_neg h3]
        simp
    · simp only [if_neg h2]
      simp

/-! ## Directory cache: `set_eof`, stub promotion, `clear`, failed `add` -/

/-- C34: `set_eof(c)` at clock reading `now`, for every cache state and every `c` (so also for
every `c >= 2`): afterwards `eof` is true and `eof_cookie == c`; `confirmed_msecs` is the
current time if `seq_last_cookie == c` and 0 otherwise; `dir_entries`, `dnlc_map`,
`seq_last_cookie` and `cache_size` (and `cookie_verifier`) are unchanged. -/
theorem set_eof_effect (c : readdirectory_cache) (eof_cookie now : Nat) :
    (c.set_eof eof_cookie now).eof = true ∧
    (c.set_eof eof_cookie now).eof_cookie = eof_cookie ∧
    (c.set_eof eof_cookie now).confirmed_msecs
      = (if c.seq_last_cookie = eof_cookie then now else 0) ∧
    (c.set_eof eof_cookie now).dir_entries = c.dir_entries ∧
    (c.set_eof eof_cookie now).dnlc_map = c.dnlc_map ∧
    (c.set_eof eof_cookie now).seq_last_cookie = c.seq_last_cookie ∧
    (c.set_eof eof_cookie now).cache_size = c.cache_size ∧
    (c.set_eof eof_cookie now).cookie_verifier = c.cookie_verifier := by
  unfold readdirectory_cache.set_eof readdirectory_cache.set_confirmed
    readdirectory_cache.clear_confirmed
  by_cases h : c.seq_last_cookie = eof_cookie
  · simp [h]
  · simp [h]

/-- After replacing the value under one key, every other key maps as before. -/
theorem map_find_replace_ne {K V : Type} [DecidableEq K] (m : List (K × V)) (k k1 : K) (v : V)
    (hne : k1 ≠ k) : map_find (map_replace m k v) k1 = map_find m k1 := by
  induction m with
  | nil => rfl
  | cons hd tl ih =>
    obtain ⟨k0, v0⟩ := hd
    have hcons : map_replace ((k0, v0) :: tl) k v
        = (if k0 = k then (k, v) else (k0, v0)) :: map_replace tl k v := rfl
    rw [hcons]
    by_cases hk : k0 = k
    · rw [if_pos hk]
      have h1 : ¬ k = k1 := fun h => hne h.symm
      have h2 : ¬ k0 = k1 := fun h => hne (h ▸ hk)
      simp only [map_find, h1, h2, if_false]
      exact ih
    · rw [if_neg hk]
      simp only [map_find, ih]

/-- C35: when `name` maps to a (non-zero) cookie whose entry has no inode, `dnlc_add(name,
inode)` returns, keeps the entry under that cookie, sets the entry's inode to the given inode
and its attributes to the inode's attributes (cookie, name and `has_attributes` stay), raises
the `dircachecnt` of that inode by exactly one, and leaves every other cookie's entry, the key
set of `dir_entries`, `dnlc_map`, `cache_size`, `seq_last_cookie`, the other counts of all
inodes and the counter `bigcookie` unchanged. -/
theorem dnlc_add_promotes_stub (P : cache_params) (st : dir_state) (name : String)
    (inode : Nat) (de : directory_entry)
    (hck : st.cache.filename_to_cookie name ≠ 0)
    (hf : map_find st.cache.dir_entries (st.cache.filename_to_cookie name) = some de)
    (hde : de.nfs_inode = none) :
    ∃ st1 : dir_state,
      readdirectory_cache.dnlc_add P st name inode = some st1 ∧
      map_find st1.cache.dir_entries (st.cache.filename_to_cookie name)
        = some { de with nfs_inode := some inode, attributes := (st.inodes inode).attr } ∧
      (∀ k, k ≠ st.cache.filename_to_cookie name →
        map_find st1.cache.dir_entries k = map_find st.cache.dir_entries k) ∧
      st1.cache.dir_entries.map Prod.fst = st.cache.dir_entries.map Prod.fst ∧
      st1.cache.dnlc_map = st.cache.dnlc_map ∧
      st1.cache.cache_size = st.cache.cache_size ∧
      st1.cache.seq_last_cookie = st.cache.seq_last_cookie ∧
      (st1.inodes inode).dircachecnt = (st.inodes inode).dircachecnt + 1 ∧
      (st1.inodes inode).lookupcnt = (st.inodes inode).lookupcnt ∧
      (∀ j, j ≠ inode → st1.inodes j = st.inodes j) ∧
      st1.bigcookie = st.bigcookie := by
  unfold readdirectory_cache.dnlc_add readdirectory_cache.lookup
  simp only [hck, ne_eq, not_false_eq_true, if_true, readdirectory_cache.resolve_cookie,
    Option.isSome_none, Bool.false_eq_true, false_and, if_false, hf, hde, reduceCtorEq]
  refine ⟨_, rfl, ?_, ?_, ?_, rfl, rfl, rfl, ?_, ?_, ?_, rfl⟩
  · simp only
    rw [map_find_replace _ _ _ de hf]
    simp [directory_entry.update_inode, dircachecnt_inc]
  · intro k hk
    exact map_find_replace_ne _ _ _ _ hk
  · exact map_replace_keys _ _ _
  · simp [directory_entry.update_inode, dircachecnt_inc]
  · simp [directory_entry.update_inode, dircachecnt_inc]
  · intro j hj
    simp [directory_entry.update_inode, dircachecnt_inc, Function.update_noteq hj]

/-- Witness for C35: with the READDIR entry "a" cached under cookie 1 (no inode),
`dnlc_add("a", 7)` leaves it under cookie 1 with inode 7 and takes one `dircachecnt` on
inode 7. -/
theorem dnlc_add_promotes_stub_witness :
    ∃ st1 : dir_state,
      readdirectory_cache.dnlc_add sample_cache_params
          { cache := { dir_entries := [(1, directory_entry.create_stub "a" 1 100)],
                       dnlc_map := [("a", 1)], eof := false, eof_cookie := 0,
                       seq_last_cookie := 1, confirmed_msecs := 0, cookie_verifier := 0,
                       cache_size := 65 },
            inodes := sample_inodes, bigcookie := UINT64_MAX / 2 } "a" 7 = some st1 ∧
      (map_find st1.cache.dir_entries 1).map (fun e => e.nfs_inode) = some (some 7) ∧
      st1.cache.dnlc_map = [("a", 1)] ∧
      (st1.inodes 7).dircachecnt = 1 := by
  obtain ⟨st1, hadd, hentry, _, _, hdn, _, _, hdc, _, _, _⟩ :=
    dnlc_add_promotes_stub sample_cache_params
      { cache := { dir_entries := [(1, directory_entry.create_stub "a" 1 100)],
                   dnlc_map := [("a", 1)], eof := false, eof_cookie := 0,
                   seq_last_cookie := 1, confirmed_msecs := 0, cookie_verifier := 0,
                   cache_size := 65 },
        inodes := sample_inodes, bigcookie := UINT64_MAX / 2 } "a" 7
      (directory_entry.create_stub "a" 1 100) (by decide) rfl rfl
  refine ⟨st1, hadd, ?_, hdn, hdc⟩
  have h1 : map_find st1.cache.dir_entries 1 = _ := hentry
  rw [h1]
  rfl

/-- What `clear` leaves in the cache members when it returns. -/
theorem clear_members (st st1 : dir_state) (h : readdirectory_cache.clear st = some st1) :
    st1.cache.dir_entries = [] ∧ st1.cache.dnlc_map = [] ∧ st1.cache.eof = false ∧
    st1.cache.cache_size = 0 ∧ st1.cache.cookie_verifier = 0 ∧
    st1.cache.seq_last_cookie = 0 ∧ st1.cache.confirmed_msecs = 0 ∧
    st1.cache.eof_cookie = st.cache.eof_cookie ∧ st1.bigcookie = st.bigcookie := by
  unfold readdirectory_cache.clear at h
  cases hl : clear_loop st.cache.dir_entries st.inodes [] with
  | none =>
    rw [hl] at h
    cases h
  | some res =>
    obtain ⟨tbl1, tofree_vec⟩ := res
    rw [hl] at h
    simp only at h
    cases hd : decref_all tofree_vec tbl1 with
    | none =>
      rw [hd] at h
      cases h
    | some tbl2 =>
      rw [hd] at h
      simp only [Option.some.injEq] at h
      subst h
      exact ⟨rfl, rfl, rfl, rfl, rfl, rfl, rfl, rfl, rfl⟩

/-- C36: `clear`, for every cache state. Whenever it returns: `dir_entries` and `dnlc_map` are
empty, `eof` is false, `cache_size` is 0, `cookie_verifier` is zero, `seq_last_cookie` is 0 and
`confirmed_msecs` is 0; the `dircachecnt` of each inode has decreased by exactly the number of
cached entries that referenced it; and the `lookupcnt` of every inode, surviving or not, is
unchanged. It returns when every inode has at least as many `dircachecnt` references as there
are cached entries pointing to it. -/
theorem clear_effect (st : dir_state) :
    (∀ st1 : dir_state, readdirectory_cache.clear st = some st1 →
      st1.cache.dir_entries = [] ∧ st1.cache.dnlc_map = [] ∧ st1.cache.eof = false ∧
      st1.cache.cache_size = 0 ∧ st1.cache.cookie_verifier = 0 ∧
      st1.cache.seq_last_cookie = 0 ∧ st1.cache.confirmed_msecs = 0 ∧
      ∀ i, (st1.inodes i).dircachecnt + entry_refs st.cache.dir_entries i
            = (st.inodes i).dircachecnt ∧
          (st1.inodes i).lookupcnt = (st.inodes i).lookupcnt) ∧
    ((∀ i, entry_refs st.cache.dir_entries i ≤ (st.inodes i).dircachecnt) →
      ∃ st1 : dir_state, readdirectory_cache.clear st = some st1) := by
  constructor
  · intro st1 h
    obtain ⟨h1, h2, h3, h4, h5, h6, h7, _, _⟩ := clear_members st st1 h
    refine ⟨h1, h2, h3, h4, h5, h6, h7, fun i => ?_⟩
    obtain ⟨hle, hlc, hdc, _, _⟩ := clear_inodes st st1 h i
    exact ⟨by omega, hlc⟩
  · exact clear_returns st

/-- Witness for C36: with one cached entry pointing to inode 7 (`dircachecnt` 1), `clear`
returns, empties both maps and leaves inode 7 with `dircachecnt` 0 and its `lookupcnt` 0. -/
theorem clear_effect_witness :
    ∃ st1 : dir_state,
      readdirectory_cache.clear sample_cached_state = some st1 ∧
      st1.cache.dir_entries = [] ∧ st1.cache.dnlc_map = [] ∧
      st1.cache.cache_size = 0 ∧ st1.cache.seq_last_cookie = 0 ∧
      (st1.inodes 7).dircachecnt + 1 = 1 ∧
      (st1.inodes 7).lookupcnt = 0 := by
  have hacc : ∀ i, entry_refs sample_cached_state.cache.dir_entries i
      ≤ (sample_cached_state.inodes i).dircachecnt := by
    intro i
    by_cases hi : i = 7
    · subst hi
      decide
    · have hne : ¬ (7 = i) := fun h => hi h.symm
      simp [sample_cached_state, entry_refs, directory_entry.create, hne]
  obtain ⟨st1, hclear⟩ := (clear_effect sample_cached_state).2 hacc
  obtain ⟨h1, h2, _, h4, _, h6, _, hi⟩ := (clear_effect sample_cached_state).1 st1 hclear
  exact ⟨st1, hclear, h1, h2, h4, h6, (hi 7).1, (hi 7).2⟩

/-- C38 (amended): whenever `add(e)` returns false, either the state, so `dir_entries` and
`dnlc_map`, is exactly as before the call, or the name of `e` was cached under a non-zero
cookie and exactly the entry under that cookie has been removed: `dir_entries` has lost that
cookie and `dnlc_map` the name of its entry; no other entry has been removed. -/
theorem failed_add_effect (P : cache_params) (st st1 : dir_state) (e : directory_entry)
    (h : readdirectory_cache.add P st e = some (false, st1)) :
    st1 = st ∨
    ∃ old : directory_entry,
      st.cache.filename_to_cookie e.name ≠ 0 ∧
      map_find st.cache.dir_entries (st.cache.filename_to_cookie e.name) = some old ∧
      st1.cache.dir_entries
        = map_erase st.cache.dir_entries (st.cache.filename_to_cookie e.name) ∧
      st1.cache.dnlc_map = map_erase st.cache.dnlc_map old.name := by
  unfold readdirectory_cache.add at h
  by_cases hcap : st.cache.cache_size ≥ P.MAX_CACHE_SIZE_LIMIT
  · rw [if_pos hcap] at h
    simp only [Option.some.injEq, Prod.mk.injEq, true_and] at h
    exact Or.inl h.symm
  · rw [if_neg hcap] at h
    simp only at h
    by_cases hname : st.cache.filename_to_cookie e.name ≠ 0
    · rw [if_pos hname] at h
      cases hrem : readdirectory_cache.remove st (st.cache.filename_to_cookie e.name) none with
      | none =>
        rw [hrem] at h
        cases h
      | some r =>
        obtain ⟨b0, st0⟩ := r
        rw [hrem] at h
        simp only at h
        have hst : st1 = st0 := by
          cases hf : map_find st0.cache.dir_entries e.cookie with
          | none =>
            rw [hf] at h
            simp at h
          | some x =>
            rw [hf] at h
            simp only [Option.some.injEq, Prod.mk.injEq, true_and] at h
            exact h.symm
        subst hst
        rcases remove_result st st1 _ none b0 hrem with
          ⟨_, hs, _⟩ | ⟨ck, old, hck, hfo, _, hcache, _⟩
        · exact Or.inl hs
        · right
          simp only [readdirectory_cache.resolve_cookie] at hck
          subst hck
          refine ⟨old, hname, hfo, ?_, ?_⟩
          · rw [hcache]
          · rw [hcache]
    · rw [if_neg hname] at h
      simp only at h
      cases hf : map_find st.cache.dir_entries e.cookie with
      | none =>
        rw [hf] at h
        simp at h
      | some x =>
        rw [hf] at h
        simp only [Option.some.injEq, Prod.mk.injEq, true_and] at h
        exact Or.inl h.symm

/-- Witness for C38 (amended): with "a" cached under cookie 1 and "b" under cookie 2, `add` of
an entry "a" with cookie 2 returns false and the entry under cookie 1 is the one removed. -/
theorem failed_add_effect_witness :
    ∃ st1 : dir_state,
      readdirectory_cache.add { MAX_CACHE_SIZE_LIMIT := 1000, get_cache_size := fun _ => 65 }
          { cache := { dir_entries := [(1, directory_entry.create_stub "a" 1 100),
                                       (2, directory_entry.create_stub "b" 2 101)],
                       dnlc_map := [("b", 2), ("a", 1)], eof := false, eof_cookie := 0,
                       seq_last_cookie := 2, confirmed_msecs := 0, cookie_verifier := 0,
                       cache_size := 130 },
            inodes := sample_inodes, bigcookie := UINT64_MAX / 2 }
          (directory_entry.create_stub "a" 2 102) = some (false, st1) ∧
      (st1 = { cache := { dir_entries := [(1, directory_entry.create_stub "a" 1 100),
                                          (2, directory_entry.create_stub "b" 2 101)],
                          dnlc_map := [("b", 2), ("a", 1)], eof := false, eof_cookie := 0,
                          seq_last_cookie := 2, confirmed_msecs := 0, cookie_verifier := 0,
                          cache_size := 130 },
               inodes := sample_inodes, bigcookie := UINT64_MAX / 2 } ∨
        ∃ old : directory_entry,
          st1.cache.dir_entries
            = map_erase [(1, directory_entry.create_stub "a" 1 100),
                         (2, directory_entry.create_stub "b" 2 101)] 1 ∧
          st1.cache.dnlc_map = map_erase [("b", 2), ("a", 1)] old.name) := by
  refine ⟨_, rfl, ?_⟩
  rcases failed_add_effect { MAX_CACHE_SIZE_LIMIT := 1000, get_cache_size := fun _ => 65 }
      { cache := { dir_entries := [(1, directory_entry.create_stub "a" 1 100),
                                   (2, directory_entry.create_stub "b" 2 101)],
                   dnlc_map := [("b", 2), ("a", 1)], eof := false, eof_cookie := 0,
                   seq_last_cookie := 2, confirmed_msecs := 0, cookie_verifier := 0,
                   cache_size := 130 },
        inodes := sample_inodes, bigcookie := UINT64_MAX / 2 }
      _ (directory_entry.create_stub "a" 2 102) rfl with h | ⟨old, _, _, h1, h2⟩
  · exact Or.inl h
  · exact Or.inr ⟨old, h1, h2⟩

/-- C38 (as stated) fails: with "a" cached under cookie 1 and "b" under cookie 2 (cap not
reached), `add` of an entry "a" with cookie 2 returns false, and afterwards "a" is cached no
more: `dir_entries` holds only cookie 2 and `dnlc_map` only "b". -/
theorem failed_add_removes_entry :
    ∃ st1 : dir_state,
      readdirectory_cache.add { MAX_CACHE_SIZE_LIMIT := 1000, get_cache_size := fun _ => 65 }
          { cache := { dir_entries := [(1, directory_entry.create_stub "a" 1 100),
                                       (2, directory_entry.create_stub "b" 2 101)],
                       dnlc_map := [("b", 2), ("a", 1)], eof := false, eof_cookie := 0,
                       seq_last_cookie := 2, confirmed_msecs := 0, cookie_verifier := 0,
                       cache_size := 130 },
            inodes := sample_inodes, bigcookie := UINT64_MAX / 2 }
          (directory_entry.create_stub "a" 2 102) = some (false, st1) ∧
      st1.cache.dir_entries = [(2, directory_entry.create_stub "b" 2 101)] ∧
      st1.cache.dnlc_map = [("b", 2)] ∧
      map_find st1.cache.dir_entries 1 = none :=
  ⟨_, rfl, rfl, rfl, rfl⟩

/-! ## Readahead: tracker update and the assertions of `is_sequential_nolock` -/

/-- C33: `on_application_read(offset, length)` called within its asserted preconditions
(`length >= 1`, `offset + length <= AZNFSC_MAX_FILE_SIZE`, a 64-bit constant). When the call
resets the tracker, on return `num_reads = 1`, `num_bytes_read = length`, `min_byte_read =
offset` and `max_byte_read = offset + length - 1`. When it does not reset, `min_byte_read =
min(old min, offset)`, `max_byte_read = max(old max, offset + length - 1)`, and `num_reads++`
and `num_bytes_read += length` have been done as 64-bit additions: `num_reads` is one more than
before and `num_bytes_read` is `length` more than before, each unless that counter was at the
end of its 64-bit range. In both cases `ra_ongoing` is unchanged. -/
theorem on_application_read_tracker (AZNFSC_MAX_FILE_SIZE : Nat) (s : ra_state)
    (offset length : Nat) (reset : Bool)
    (hmax : AZNFSC_MAX_FILE_SIZE ≤ UINT64_MAX) (hlen : 1 ≤ length)
    (hend : offset + length ≤ AZNFSC_MAX_FILE_SIZE)
    (hreset : s.reset_readahead offset = some reset) :
    ∃ s1 : ra_state,
      s.on_application_read offset length = some s1 ∧
      s1.ra_ongoing = s.ra_ongoing ∧
      (reset = true →
        s1.num_reads = 1 ∧ s1.num_bytes_read = length ∧ s1.min_byte_read = offset ∧
        s1.max_byte_read = offset + length - 1) ∧
      (reset = false →
        s1.min_byte_read = min s.min_byte_read offset ∧
        s1.max_byte_read = max s.max_byte_read (offset + length - 1) ∧
        s1.num_reads = u64 (s.num_reads + 1) ∧
        s1.num_bytes_read = u64 (s.num_bytes_read + length) ∧
        (s.num_reads < UINT64_MAX → s1.num_reads = s.num_reads + 1) ∧
        (s.num_bytes_read + length ≤ UINT64_MAX →
          s1.num_bytes_read = s.num_bytes_read + length)) := by
  unfold UINT64_MAX at hmax
  have hz : ¬ length = 0 := by omega
  have hlast : u64_sub (u64 (offset + length)) 1 = offset + length - 1 := by
    unfold u64_sub u64
    omega
  unfold ra_state.on_application_read
  rw [if_neg hz, hreset]
  simp only [hlast]
  cases reset with
  | true =>
    simp only [if_true]
    refine ⟨_, rfl, ?_, ?_, ?_⟩
    · split_ifs <;> rfl
    · intro _
      split_ifs <;> exact ⟨rfl, rfl, rfl, rfl⟩
    · intro h
      cases h
  | false =>
    simp only [Bool.false_eq_true, if_false]
    refine ⟨_, rfl, ?_, ?_, ?_⟩
    · split_ifs <;> rfl
    · intro h
      cases h
    · intro _
      have h1 : s.num_reads < UINT64_MAX → u64 (s.num_reads + 1) = s.num_reads + 1 := by
        intro hnr
        unfold UINT64_MAX at hnr
        exact u64_of_lt _ (by omega)
      have h2 : s.num_bytes_read + length ≤ UINT64_MAX →
          u64 (s.num_bytes_read + length) = s.num_bytes_read + length := by
        intro hnb
        unfold UINT64_MAX at hnb
        exact u64_of_lt _ (by omega)
      split_ifs <;> exact ⟨rfl, rfl, rfl, rfl, h1, h2⟩

/-- Witness for C33: on a fresh tracker (128 KiB window) the first read (0, 65536) resets and
leaves `num_reads = 1`, `num_bytes_read = 65536`, `min_byte_read = 0`, `max_byte_read = 65535`;
the second read (65536, 65536) does not reset and leaves `num_reads = 2`,
`num_bytes_read = 131072`, `max_byte_read = 131071`. -/
theorem on_application_read_tracker_witness :
    (∃ s1 : ra_state,
      (ra_state.create 128).on_application_read 0 65536 = some s1 ∧
      s1.ra_ongoing = 0 ∧ s1.num_reads = 1 ∧ s1.num_bytes_read = 65536 ∧
      s1.min_byte_read = 0 ∧ s1.max_byte_read = 65535) ∧
    (∃ s2 : ra_state,
      ({ ra_bytes := 131072, last_byte_readahead := 65535, min_byte_read := 0,
         max_byte_read := 65535, ra_ongoing := 0, num_reads := 1,
         num_bytes_read := 65536 } : ra_state).on_application_read 65536 65536 = some s2 ∧
      s2.num_reads = 2 ∧ s2.num_bytes_read = 131072 ∧ s2.min_byte_read = 0 ∧
      s2.max_byte_read = 131071) := by
  obtain ⟨s1, h1, hra, hr, _⟩ := on_application_read_tracker sample_max_file_size
    (ra_state.create 128) 0 65536 true (by decide) (by decide) (by decide) (by decide)
  obtain ⟨s2, h2, _, _, hn⟩ := on_application_read_tracker sample_max_file_size
    { ra_bytes := 131072, last_byte_readahead := 65535, min_byte_read := 0,
      max_byte_read := 65535, ra_ongoing := 0, num_reads := 1, num_bytes_read := 65536 }
    65536 65536 false (by decide) (by decide) (by decide) (by decide)
  obtain ⟨a1, a2, a3, a4⟩ := hr rfl
  obtain ⟨b3, b4, _, _, b1, b2⟩ := hn rfl
  exact ⟨⟨s1, h1, hra, a1, a2, a3, a4⟩, ⟨s2, h2, b1 (by decide), b2 (by decide), b3, b4⟩⟩

/-- With three or more reads counted, `is_sequential_nolock` compares the local
`access_density` with `ACCESS_DENSITY_MIN`, and divides by zero when it is not defined. -/
theorem is_sequential_nolock_eq (s : ra_state) (h : ¬ s.num_reads < 3) :
    s.is_sequential_nolock
      = s.access_density.map (fun d => decide (d > ACCESS_DENSITY_MIN)) := by
  unfold ra_state.is_sequential_nolock ra_state.access_density ra_state.access_range
  rw [if_neg h]
  simp only
  split_ifs <;> rfl

/-- C37: both assertions of `is_sequential_nolock` fail on reads within the documented
preconditions. From a fresh `ra_state` (128 KiB window), three reads of the byte at offset 0
leave `num_reads = 3` with `max_byte_read = min_byte_read = 0`: `access_range` is 0, the
division is by zero, and the next `get_next_ra` runs into it. Three reads of the ten bytes at
offset 0 leave `num_reads = 3`, `access_range = 9` and `num_bytes_read = 30`: the computed
access density is 333, above 100. -/
theorem is_sequential_nolock_assertions_fail :
    (∃ s3 : ra_state,
      ra_run sample_max_file_size (ra_state.create 128)
          [ra_call.app_read 0 1, ra_call.app_read 0 1, ra_call.app_read 0 1] = some (s3, []) ∧
      s3.num_reads = 3 ∧ s3.max_byte_read = 0 ∧ s3.min_byte_read = 0 ∧
      s3.access_range = 0 ∧ s3.access_density = none ∧ s3.is_sequential_nolock = none ∧
      s3.get_next_ra sample_max_file_size 65536 = none) ∧
    (∃ s3 : ra_state,
      ra_run sample_max_file_size (ra_state.create 128)
          [ra_call.app_read 0 10, ra_call.app_read 0 10, ra_call.app_read 0 10]
        = some (s3, []) ∧
      s3.num_reads = 3 ∧ s3.num_bytes_read = 30 ∧ s3.access_range = 9 ∧
      s3.access_density = some 333 ∧ s3.is_sequential_nolock = some true) := by
  refine ⟨⟨{ ra_bytes := 131072, last_byte_readahead := 0, min_byte_read := 0,
             max_byte_read := 0, ra_ongoing := 0, num_reads := 3, num_bytes_read := 3 },
      by decide, rfl, rfl, rfl, by decide, by decide, by decide, by decide⟩,
    ⟨{ ra_bytes := 131072, last_byte_readahead := 9, min_byte_read := 0,
       max_byte_read := 9, ra_ongoing := 0, num_reads := 3, num_bytes_read := 30 },
      by decide, rfl, rfl, by decide, by decide, by decide⟩⟩

/-! ## `util.h`: `random_number`, `compare_timespec_and_nfstime` -/

/-- C31 (amended): for every pair of 64-bit values with `min <= max`, other than `min = 0` with
`max = UINT64_MAX`, and every output `g` of the generator, `random_number(min, max)` returns
`min + g % (max - min + 1)` with a non-zero modulus and without wrapping, and the result lies
in `[min, max]`. -/
theorem random_number_in_range (min max g : Nat) (hle : min ≤ max) (hmax : max ≤ UINT64_MAX)
    (hg : g ≤ UINT64_MAX) (hfull : ¬ (min = 0 ∧ max = UINT64_MAX)) :
    max - min + 1 ≠ 0 ∧
    random_number min max g = some (min + g % (max - min + 1)) ∧
    min ≤ min + g % (max - min + 1) ∧ min + g % (max - min + 1) ≤ max := by
  unfold UINT64_MAX at hmax hg hfull
  have hmod : u64 (u64_sub max min + 1) = max - min + 1 := by
    unfold u64 u64_sub
    omega
  have hgu : u64 g = g := u64_of_lt g (by omega)
  have hlt : g % (max - min + 1) < max - min + 1 := Nat.mod_lt _ (by omega)
  have hsum : u64 (min + g % (max - min + 1)) = min + g % (max - min + 1) :=
    u64_of_lt _ (by omega)
  refine ⟨by omega, ?_, by omega, by omega⟩
  unfold random_number
  simp only [hmod, hgu, hsum]
  rw [if_neg (by omega)]

/-- Witness for C31 (amended): `random_number(10, 20)` with generator output 1234 is 12. -/
theorem random_number_in_range_witness :
    (20 : Nat) - 10 + 1 ≠ 0 ∧
    random_number 10 20 1234 = some (10 + 1234 % (20 - 10 + 1)) ∧
    10 ≤ 10 + 1234 % (20 - 10 + 1) ∧ 10 + 1234 % (20 - 10 + 1) ≤ 20 :=
  random_number_in_range 10 20 1234 (by decide) (by decide) (by decide) (by decide)

/-- C31 (as stated) fails: for `min = 0` and `max = UINT64_MAX`, a pair with `min <= max`, the
modulus `max - min + 1` wraps to 0 and `random_number` takes a remainder by zero. -/
theorem random_number_full_range_modulus_zero :
    (0 : Nat) ≤ UINT64_MAX ∧
    u64 (u64_sub UINT64_MAX 0 + 1) = 0 ∧
    random_number 0 UINT64_MAX 1234 = none := by
  decide

/-- C32 (amended): for every timespec with `tv_sec >= 0`, `0 <= tv_nsec < 10^9` and
`tv_sec * 10^9 + tv_nsec < 2^64`, and every nfstime3 (unsigned 32-bit seconds and nseconds),
`compare_timespec_and_nfstime(ts, nt)` returns 0 when `ts` and `nt` denote the same instant, -1
when `ts` is earlier and 1 when it is later, with instants compared as the exact integers
`sec * 10^9 + nsec`. -/
theorem compare_timespec_and_nfstime_exact (ts : timespec) (nt : nfstime3)
    (hsec : 0 ≤ ts.tv_sec) (hnsec : 0 ≤ ts.tv_nsec) (hnsec1 : ts.tv_nsec < 1000000000)
    (hfit : ts.tv_sec * 1000000000 + ts.tv_nsec < 18446744073709551616)
    (hs : nt.seconds < 4294967296) (hn : nt.nseconds < 4294967296) :
    compare_timespec_and_nfstime ts nt
      = compare_instants (ts.tv_sec * 1000000000 + ts.tv_nsec)
          ((nt.seconds : Int) * 1000000000 + (nt.nseconds : Int)) := by
  obtain ⟨a, ha⟩ := Int.eq_ofNat_of_zero_le hsec
  obtain ⟨b, hb⟩ := Int.eq_ofNat_of_zero_le hnsec
  rw [ha, hb] at hfit ⊢
  have h1 : u64 (u64 (int_to_u64 (a : Int) * 1000000000) + int_to_u64 (b : Int))
      = a * 1000000000 + b := by
    unfold u64 int_to_u64
    omega
  have h2 : u64 (u64 (u64 nt.seconds * 1000000000) + u64 nt.nseconds)
      = nt.seconds * 1000000000 + nt.nseconds := by
    unfold u64
    omega
  unfold compare_timespec_and_nfstime compare_instants
  simp only [ha, hb, h1, h2]
  have c1 : ((a : Int) * 1000000000 + (b : Int)
      = (nt.seconds : Int) * 1000000000 + (nt.nseconds : Int)) ↔
      (a * 1000000000 + b = nt.seconds * 1000000000 + nt.nseconds) := by omega
  have c2 : ((a : Int) * 1000000000 + (b : Int)
      < (nt.seconds : Int) * 1000000000 + (nt.nseconds : Int)) ↔
      (a * 1000000000 + b < nt.seconds * 1000000000 + nt.nseconds) := by omega
  simp only [c1, c2]

/-- Witness for C32 (amended): one second past the epoch is later than the epoch. -/
theorem compare_timespec_and_nfstime_exact_witness :
    compare_timespec_and_nfstime { tv_sec := 1, tv_nsec := 0 } { seconds := 0, nseconds := 0 }
      = compare_instants (1 * 1000000000 + 0) (((0 : Nat) : Int) * 1000000000 + ((0 : Nat) : Int)) :=
  compare_timespec_and_nfstime_exact { tv_sec := 1, tv_nsec := 0 }
    { seconds := 0, nseconds := 0 } (by decide) (by decide) (by decide) (by decide)
    (by decide) (by decide)

/-- C32 (as stated) fails: the timespec one second before the epoch (`tv_sec = -1`,
`tv_nsec = 0`) is earlier than the nfstime3 of the epoch, yet the function returns 1; as exact
integers the instants compare as -1. -/
theorem compare_timespec_before_epoch :
    compare_timespec_and_nfstime { tv_sec := -1, tv_nsec := 0 } { seconds := 0, nseconds := 0 }
      = 1 ∧
    compare_instants (-1 * 1000000000 + 0) (0 * 1000000000 + 0) = -1 := by
  decide

/-! ## Validation of the cloud suffix -/

/-- C39: `is_valid_cloud_suffix` accepts "blob.core.windows.net", and it also accepts
"blobxcorexwindowsxnet", which the claim has rejected: that string ends with none of the
literal suffixes ".core.windows.net", ".core.usgovcloudapi.net", ".core.chinacloudapi.cn". Each
`.` of the pattern is the wildcard and matches the `x`. -/
theorem is_valid_cloud_suffix_accepts_without_dots :
    is_valid_cloud_suffix "blob.core.windows.net" = true ∧
    is_valid_cloud_suffix "blobxcorexwindowsxnet" = true ∧
    ".core.windows.net".toList.isSuffixOf "blobxcorexwindowsxnet".toList = false ∧
    ".core.usgovcloudapi.net".toList.isSuffixOf "blobxcorexwindowsxnet".toList = false ∧
    ".core.chinacloudapi.cn".toList.isSuffixOf "blobxcorexwindowsxnet".toList = false ∧
    is_valid_cloud_suffix "z1xblobycorezwindows-net" = true := by
  decide

end aznfsc
